import Mathlib

/-!
# SDL_rwops.c : memory backend, buffered native-handle backend, factories
and endian scalar codec

A shallow embedding of the memory-pointer stream functions of `SDL_rwops.c`
(`mem_size`, `mem_seek`, `mem_read`, `mem_write`, `mem_writeconst`), of the
Win32 file functions (`windows_file_open`, `windows_file_seek`,
`windows_file_read`, `windows_file_write`), of the stdio functions
`stdio_seek` and `stdio_size`, of the factories
(`SDL_RWFromMem`, `SDL_RWFromConstMem`, `SDL_RWFromFP`, `SDL_RWFromFile`) and
of the endian-specific scalar readers and writers.

Conventions of the embedding.

* A pointer is an address in `Int`; a pointer of the machine is an address
  from 0 up to, but not including, `2 ^ w`.  The pointer sums of `mem_seek`
  (`base + offset`, `here + offset`, `stop + offset`) and of `mem_write`
  (`here + num * size`) wrap: they are reduced modulo `2 ^ w` by `wrapPtr`.
  `mem_read` advances `here` by no more than the bytes it found available;
  that sum and the pointer differences are taken in the integers.
* A `size_t` is a natural number below `2 ^ w`, where `w` is the width of the
  machine word; products of `size_t` values are reduced modulo `2 ^ w`, and a
  pointer difference used as a `size_t` is reduced modulo `2 ^ w` as well.
* The byte store reachable through pointers is a function `Int → Nat`.
* The source buffer of a write is a function from byte index to byte; the
  bytes a read copies to the caller are returned as a list.
* An operation that calls `SDL_SetError` reports the message in the `error`
  field of its result; `none` means the call recorded nothing.
* The native file behind a Win32 handle is a list of bytes with a native
  position and access rights; `ReadFile`, `WriteFile` and `SetFilePointer(Ex)`
  act on it.  A `DWORD` is a natural number below `2 ^ 32`, and the casts
  `(DWORD)`, `(LONG)`, `(long)` and `(int)` of the source reduce accordingly;
  `Sint64` arithmetic is taken in the integers.
* Division is the division of natural numbers; for the claim about divisions
  by zero the functions that divide have a second embedding in which every
  division is checked and a zero divisor gives `none`.
-/

namespace SDLRWops

set_option autoImplicit false

/-! ## The generic stream handle -/

/-- The `type` discriminant of `SDL_RWops`. -/
inductive RWopsType where
  | SDL_RWOPS_UNKNOWN
  | SDL_RWOPS_WINFILE
  | SDL_RWOPS_STDFILE
  | SDL_RWOPS_JNIFILE
  | SDL_RWOPS_MEMORY
  | SDL_RWOPS_MEMORY_RO
  deriving DecidableEq, Repr

/-- Functions the memory factories store in the `size` slot. -/
inductive SizeFn where
  | mem_size
  deriving DecidableEq, Repr

/-- Functions the memory factories store in the `seek` slot. -/
inductive SeekFn where
  | mem_seek
  deriving DecidableEq, Repr

/-- Functions the memory factories store in the `read` slot. -/
inductive ReadFn where
  | mem_read
  deriving DecidableEq, Repr

/-- Functions the memory factories store in the `write` slot. -/
inductive WriteFn where
  | mem_write
  | mem_writeconst
  deriving DecidableEq, Repr

/-- Functions the memory factories store in the `close` slot. -/
inductive CloseFn where
  | mem_close
  deriving DecidableEq, Repr

/-- The handle `SDL_RWops` of a memory stream: the five dispatch slots, the
type tag and the three pointers of `hidden.mem`. -/
structure SDL_RWops where
  size : SizeFn
  seek : SeekFn
  read : ReadFn
  write : WriteFn
  close : CloseFn
  type : RWopsType
  base : Int
  here : Int
  stop : Int
  deriving DecidableEq, Repr

/-- The byte store addressed by pointers. -/
abbrev Memory := Int → Nat

/-- Modelled from the spec: the seek whence code "from-start" of the header
`SDL_rwops.h`, which is not part of the sources. -/
def RW_SEEK_SET : Int := 0

/-- Modelled from the spec: the seek whence code "from-current" of the header
`SDL_rwops.h`, which is not part of the sources. -/
def RW_SEEK_CUR : Int := 1

/-- Modelled from the spec: the seek whence code "from-end" of the header
`SDL_rwops.h`, which is not part of the sources. -/
def RW_SEEK_END : Int := 2

/-- Modelled from the spec: the value `SDL_SetError` returns (declared in
`SDL_error.h`, not part of the sources); the failure sentinel is negative. -/
def SDL_SetError_ret : Int := -1

/-- A pointer difference converted to `size_t` on a machine with `w`-bit words. -/
def ptrdiff_to_size_t (w : Nat) (d : Int) : Nat := (d % (2 ^ w : Int)).toNat

/-- A pointer computed by pointer arithmetic on a machine with `w`-bit words:
the sum wraps, so the address is reduced modulo `2 ^ w`. -/
def wrapPtr (w : Nat) (p : Int) : Int := p % (2 ^ w : Int)

/-- The effect of `SDL_memcpy(dst, src, n)` on the byte store. -/
def SDL_memcpy (m : Memory) (dst : Int) (src : Nat → Nat) (n : Nat) : Memory :=
  fun a => if dst ≤ a ∧ a < dst + n then src (a - dst).toNat else m a

/-- The `n` bytes of the store starting at address `p`. -/
def loadBytes (m : Memory) (p : Int) (n : Nat) : List Nat :=
  (List.range n).map (fun (i : Nat) => m (p + (i : Int)))

/-! ## Memory backend -/

/-- Embedding of `mem_size`. -/
def mem_size (context : SDL_RWops) : Int :=
  context.stop - context.base

/-- Result of a seek: returned position or sentinel, handle, error report. -/
structure SeekResult where
  ret : Int
  ctx : SDL_RWops
  error : Option String
  deriving DecidableEq, Repr

/-- Embedding of `mem_seek`.  The pointer sums `base + offset`,
`here + offset` and `stop + offset` wrap on the `w`-bit machine. -/
def mem_seek (w : Nat) (context : SDL_RWops) (offset : Int) (whence : Int) : SeekResult :=
  let clampTo (newpos : Int) : SeekResult :=
    let newpos := if newpos < context.base then context.base else newpos
    let newpos := if newpos > context.stop then context.stop else newpos
    let context := { context with here := newpos }
    { ret := context.here - context.base, ctx := context, error := none }
  if whence = RW_SEEK_SET then clampTo (wrapPtr w (context.base + offset))
  else if whence = RW_SEEK_CUR then clampTo (wrapPtr w (context.here + offset))
  else if whence = RW_SEEK_END then clampTo (wrapPtr w (context.stop + offset))
  else { ret := SDL_SetError_ret, ctx := context,
         error := some "Unknown value for \x27whence\x27" }

/-- Result of a read: element count, bytes copied to the caller, handle. -/
structure ReadResult where
  ret : Nat
  out : List Nat
  ctx : SDL_RWops
  deriving DecidableEq, Repr

/-- The rejection test at the head of `mem_read`:
`(maxnum <= 0) || (size <= 0) || ((total_bytes / maxnum) != size)`. -/
def mem_read_rejects (w : Nat) (size maxnum : Nat) : Prop :=
  maxnum ≤ 0 ∨ size ≤ 0 ∨ ((maxnum * size) % 2 ^ w) / maxnum ≠ size

instance (w size maxnum : Nat) : Decidable (mem_read_rejects w size maxnum) :=
  inferInstanceAs
    (Decidable (maxnum ≤ 0 ∨ size ≤ 0 ∨ ((maxnum * size) % 2 ^ w) / maxnum ≠ size))

/-- Embedding of `mem_read`. -/
def mem_read (w : Nat) (context : SDL_RWops) (m : Memory) (size maxnum : Nat) :
    ReadResult :=
  let total_bytes := (maxnum * size) % 2 ^ w
  if mem_read_rejects w size maxnum then
    { ret := 0, out := [], ctx := context }
  else
    let mem_available := ptrdiff_to_size_t w (context.stop - context.here)
    let total_bytes := if total_bytes > mem_available then mem_available else total_bytes
    { ret := total_bytes / size,
      out := loadBytes m context.here total_bytes,
      ctx := { context with here := context.here + total_bytes } }

/-- Result of a write: element count, handle, byte store, error report. -/
structure WriteResult where
  ret : Nat
  ctx : SDL_RWops
  mem : Memory
  error : Option String

/-- Embedding of `mem_write`.  The pointer sum `here + (num * size)` wraps on
the `w`-bit machine, in the bound test and in the update of `here`. -/
def mem_write (w : Nat) (context : SDL_RWops) (m : Memory) (ptr : Nat → Nat)
    (size num : Nat) : WriteResult :=
  let num :=
    if wrapPtr w (context.here + (((num * size) % 2 ^ w : Nat) : Int)) > context.stop then
      ptrdiff_to_size_t w (context.stop - context.here) / size
    else num
  { ret := num,
    ctx := { context with
             here := wrapPtr w (context.here + (((num * size) % 2 ^ w : Nat) : Int)) },
    mem := SDL_memcpy m context.here ptr ((num * size) % 2 ^ w),
    error := none }

/-- Embedding of `mem_writeconst`. -/
def mem_writeconst (_w : Nat) (context : SDL_RWops) (m : Memory) (_ptr : Nat → Nat)
    (_size _num : Nat) : WriteResult :=
  { ret := 0, ctx := context, mem := m,
    error := some "Can\x27t write to read-only memory" }

/-- The macro `SDL_RWsize`: dispatch through the `size` slot. -/
def SDL_RWsize (context : SDL_RWops) : Int :=
  match context.size with
  | .mem_size => mem_size context

/-- The macro `SDL_RWseek`: dispatch through the `seek` slot. -/
def SDL_RWseek (w : Nat) (context : SDL_RWops) (offset whence : Int) : SeekResult :=
  match context.seek with
  | .mem_seek => mem_seek w context offset whence

/-- The macro `SDL_RWread`: dispatch through the `read` slot. -/
def SDL_RWread (w : Nat) (context : SDL_RWops) (m : Memory) (size maxnum : Nat) :
    ReadResult :=
  match context.read with
  | .mem_read => mem_read w context m size maxnum

/-- The macro `SDL_RWwrite`: dispatch through the `write` slot. -/
def SDL_RWwrite (w : Nat) (context : SDL_RWops) (m : Memory) (ptr : Nat → Nat)
    (size num : Nat) : WriteResult :=
  match context.write with
  | .mem_write => mem_write w context m ptr size num
  | .mem_writeconst => mem_writeconst w context m ptr size num

/-! ## Memory factories -/

/-- Result of a factory: the handle or null, the error report of the call,
and whether `SDL_AllocRW` was called. -/
structure FactoryResult where
  rwops : Option SDL_RWops
  error : Option String
  allocated : Bool
  deriving DecidableEq, Repr

/-- Modelled from the spec: the invalid-parameter report of the macro
`SDL_InvalidParamError` (header `SDL_error.h`, not part of the sources). -/
def SDL_InvalidParamError (param : String) : String :=
  "Parameter \x27" ++ param ++ "\x27 is invalid"

/-- Modelled from the spec: the resource-exhaustion report of the macro
`SDL_OutOfMemory` (header `SDL_error.h`, not part of the sources). -/
def SDL_OutOfMemory : String := "Out of memory"

/-- Embedding of `SDL_AllocRW`.  The argument is what `SDL_malloc` returns:
`none` for a failed allocation, otherwise the fresh area with whatever
contents it happens to hold. -/
def SDL_AllocRW (area : Option SDL_RWops) : Option SDL_RWops × Option String :=
  match area with
  | none => (none, some SDL_OutOfMemory)
  | some a => (some { a with type := .SDL_RWOPS_UNKNOWN }, none)

/-- Embedding of `SDL_RWFromMem`; `mem = 0` is the null pointer and `size` is
the signed `int` argument. -/
def SDL_RWFromMem (mem : Int) (size : Int) (area : Option SDL_RWops) : FactoryResult :=
  if mem = 0 then
    { rwops := none, error := some (SDL_InvalidParamError "mem"), allocated := false }
  else if size = 0 then
    { rwops := none, error := some (SDL_InvalidParamError "size"), allocated := false }
  else
    match SDL_AllocRW area with
    | (some rwops, e) =>
      let rwops := { rwops with size := .mem_size }
      let rwops := { rwops with seek := .mem_seek }
      let rwops := { rwops with read := .mem_read }
      let rwops := { rwops with write := .mem_write }
      let rwops := { rwops with close := .mem_close }
      let rwops := { rwops with base := mem }
      let rwops := { rwops with here := rwops.base }
      let rwops := { rwops with stop := rwops.base + size }
      let rwops := { rwops with type := .SDL_RWOPS_MEMORY }
      { rwops := some rwops, error := e, allocated := true }
    | (none, e) => { rwops := none, error := e, allocated := true }

/-- Embedding of `SDL_RWFromConstMem`; `mem = 0` is the null pointer and
`size` is the signed `int` argument. -/
def SDL_RWFromConstMem (mem : Int) (size : Int) (area : Option SDL_RWops) :
    FactoryResult :=
  if mem = 0 then
    { rwops := none, error := some (SDL_InvalidParamError "mem"), allocated := false }
  else if size = 0 then
    { rwops := none, error := some (SDL_InvalidParamError "size"), allocated := false }
  else
    match SDL_AllocRW area with
    | (some rwops, e) =>
      let rwops := { rwops with size := .mem_size }
      let rwops := { rwops with seek := .mem_seek }
      let rwops := { rwops with read := .mem_read }
      let rwops := { rwops with write := .mem_writeconst }
      let rwops := { rwops with close := .mem_close }
      let rwops := { rwops with base := mem }
      let rwops := { rwops with here := rwops.base }
      let rwops := { rwops with stop := rwops.base + size }
      let rwops := { rwops with type := .SDL_RWOPS_MEMORY_RO }
      { rwops := some rwops, error := e, allocated := true }
    | (none, e) => { rwops := none, error := e, allocated := true }

/-! ## Endian scalar codec -/

/-- The `k` low bytes of `v`, least significant first. -/
def leBytes : Nat → Nat → List Nat
  | 0, _ => []
  | k + 1, v => v % 256 :: leBytes k (v / 256)

/-- The number whose bytes, least significant first, are `bs`. -/
def ofLeBytes : List Nat → Nat
  | [] => 0
  | b :: bs => b + 256 * ofLeBytes bs

/-- The object representation of a `k`-byte unsigned scalar in host memory;
`big` says that the host is big-endian. -/
def objectBytes (big : Bool) (k v : Nat) : List Nat :=
  if big then (leBytes k v).reverse else leBytes k v

/-- The value of a scalar object whose bytes in host memory are `bs`. -/
def objectValue (big : Bool) (bs : List Nat) : Nat :=
  if big then ofLeBytes bs.reverse else ofLeBytes bs

/-- Modelled from the spec: the byte swaps `SDL_Swap16`, `SDL_Swap32` and
`SDL_Swap64` of the header `SDL_endian.h` (not part of the sources), the
reversal of the `k` bytes of the value. -/
def SDL_Swap (k v : Nat) : Nat := ofLeBytes (leBytes k v).reverse

/-- Modelled from the spec: the conditional swaps `SDL_SwapLE16/32/64` of
`SDL_endian.h`, the identity on a little-endian host. -/
def SDL_SwapLE (big : Bool) (k v : Nat) : Nat := if big then SDL_Swap k v else v

/-- Modelled from the spec: the conditional swaps `SDL_SwapBE16/32/64` of
`SDL_endian.h`, the identity on a big-endian host. -/
def SDL_SwapBE (big : Bool) (k v : Nat) : Nat := if big then v else SDL_Swap k v

/-- The statements `T value = 0; SDL_RWread(src, &value, sizeof (value), 1);`
for a `k`-byte scalar: the bytes the read copies overwrite the leading bytes of
the zero-initialised object.  Returns the value of the object and the handle. -/
def readObject (big : Bool) (w k : Nat) (src : SDL_RWops) (m : Memory) :
    Nat × SDL_RWops :=
  let value := 0
  let r := SDL_RWread w src m k 1
  let obj := (r.out ++ (objectBytes big k value).drop r.out.length).take k
  (objectValue big obj, r.ctx)

/-- The call `SDL_RWwrite(dst, &x, sizeof (x), 1)` for a `k`-byte scalar `x`. -/
def writeObject (big : Bool) (w k : Nat) (dst : SDL_RWops) (m : Memory) (x : Nat) :
    WriteResult :=
  SDL_RWwrite w dst m (fun i => (objectBytes big k x).getD i 0) k 1

/-- Embedding of `SDL_ReadU8`. -/
def SDL_ReadU8 (big : Bool) (w : Nat) (src : SDL_RWops) (m : Memory) : Nat × SDL_RWops :=
  let r := readObject big w 1 src m
  (r.1, r.2)

/-- Embedding of `SDL_ReadLE16`. -/
def SDL_ReadLE16 (big : Bool) (w : Nat) (src : SDL_RWops) (m : Memory) : Nat × SDL_RWops :=
  let r := readObject big w 2 src m
  (SDL_SwapLE big 2 r.1, r.2)

/-- Embedding of `SDL_ReadBE16`. -/
def SDL_ReadBE16 (big : Bool) (w : Nat) (src : SDL_RWops) (m : Memory) : Nat × SDL_RWops :=
  let r := readObject big w 2 src m
  (SDL_SwapBE big 2 r.1, r.2)

/-- Embedding of `SDL_ReadLE32`. -/
def SDL_ReadLE32 (big : Bool) (w : Nat) (src : SDL_RWops) (m : Memory) : Nat × SDL_RWops :=
  let r := readObject big w 4 src m
  (SDL_SwapLE big 4 r.1, r.2)

/-- Embedding of `SDL_ReadBE32`. -/
def SDL_ReadBE32 (big : Bool) (w : Nat) (src : SDL_RWops) (m : Memory) : Nat × SDL_RWops :=
  let r := readObject big w 4 src m
  (SDL_SwapBE big 4 r.1, r.2)

/-- Embedding of `SDL_ReadLE64`. -/
def SDL_ReadLE64 (big : Bool) (w : Nat) (src : SDL_RWops) (m : Memory) : Nat × SDL_RWops :=
  let r := readObject big w 8 src m
  (SDL_SwapLE big 8 r.1, r.2)

/-- Embedding of `SDL_ReadBE64`. -/
def SDL_ReadBE64 (big : Bool) (w : Nat) (src : SDL_RWops) (m : Memory) : Nat × SDL_RWops :=
  let r := readObject big w 8 src m
  (SDL_SwapBE big 8 r.1, r.2)

/-- Embedding of `SDL_WriteU8`. -/
def SDL_WriteU8 (big : Bool) (w : Nat) (dst : SDL_RWops) (m : Memory) (value : Nat) :
    WriteResult :=
  writeObject big w 1 dst m value

/-- Embedding of `SDL_WriteLE16`. -/
def SDL_WriteLE16 (big : Bool) (w : Nat) (dst : SDL_RWops) (m : Memory) (value : Nat) :
    WriteResult :=
  let swapped := SDL_SwapLE big 2 value
  writeObject big w 2 dst m swapped

/-- Embedding of `SDL_WriteBE16`. -/
def SDL_WriteBE16 (big : Bool) (w : Nat) (dst : SDL_RWops) (m : Memory) (value : Nat) :
    WriteResult :=
  let swapped := SDL_SwapBE big 2 value
  writeObject big w 2 dst m swapped

/-- Embedding of `SDL_WriteLE32`. -/
def SDL_WriteLE32 (big : Bool) (w : Nat) (dst : SDL_RWops) (m : Memory) (value : Nat) :
    WriteResult :=
  let swapped := SDL_SwapLE big 4 value
  writeObject big w 4 dst m swapped

/-- Embedding of `SDL_WriteBE32`. -/
def SDL_WriteBE32 (big : Bool) (w : Nat) (dst : SDL_RWops) (m : Memory) (value : Nat) :
    WriteResult :=
  let swapped := SDL_SwapBE big 4 value
  writeObject big w 4 dst m swapped

/-- Embedding of `SDL_WriteLE64`. -/
def SDL_WriteLE64 (big : Bool) (w : Nat) (dst : SDL_RWops) (m : Memory) (value : Nat) :
    WriteResult :=
  let swapped := SDL_SwapLE big 8 value
  writeObject big w 8 dst m swapped

/-- Embedding of `SDL_WriteBE64`. -/
def SDL_WriteBE64 (big : Bool) (w : Nat) (dst : SDL_RWops) (m : Memory) (value : Nat) :
    WriteResult :=
  let swapped := SDL_SwapBE big 8 value
  writeObject big w 8 dst m swapped

/-- The memory-stream invariant `base ≤ here ≤ stop`. -/
def MemInv (c : SDL_RWops) : Prop := c.base ≤ c.here ∧ c.here ≤ c.stop

instance (c : SDL_RWops) : Decidable (MemInv c) :=
  inferInstanceAs (Decidable (c.base ≤ c.here ∧ c.here ≤ c.stop))

/-- An arbitrary area as `SDL_malloc` may return it, used in examples. -/
def rawArea : SDL_RWops :=
  { size := .mem_size, seek := .mem_seek, read := .mem_read, write := .mem_writeconst,
    close := .mem_close, type := .SDL_RWOPS_STDFILE, base := 7, here := 3, stop := 1 }

/-- An all-zero byte store, used in examples. -/
def zeroMemory : Memory := fun _ => 0

/-- A read-write stream over the eight bytes at addresses 4096 to 4103. -/
def rw8 : SDL_RWops :=
  { size := .mem_size, seek := .mem_seek, read := .mem_read, write := .mem_write,
    close := .mem_close, type := .SDL_RWOPS_MEMORY, base := 4096, here := 4096,
    stop := 4104 }

/-! ## Auxiliary definitions for the statements -/

/-- The handle `SDL_RWFromMem` builds over the range at `p` of length `n`. -/
def memHandle (p n : Int) : SDL_RWops :=
  { size := .mem_size, seek := .mem_seek, read := .mem_read, write := .mem_write,
    close := .mem_close, type := .SDL_RWOPS_MEMORY, base := p, here := p, stop := p + n }

/-- The handle `SDL_RWFromConstMem` builds over the range at `p` of length `n`. -/
def constMemHandle (p n : Int) : SDL_RWops :=
  { size := .mem_size, seek := .mem_seek, read := .mem_read, write := .mem_writeconst,
    close := .mem_close, type := .SDL_RWOPS_MEMORY_RO, base := p, here := p, stop := p + n }

/-- Saturation of `x` into the interval from `lo` to `hi`. -/
def clamp (x lo hi : Int) : Int := max lo (min x hi)

/-- A read-only stream over the four bytes at addresses 4096 to 4099. -/
def ro4 : SDL_RWops :=
  { size := .mem_size, seek := .mem_seek, read := .mem_read, write := .mem_writeconst,
    close := .mem_close, type := .SDL_RWOPS_MEMORY_RO, base := 4096, here := 4096,
    stop := 4100 }

/-- A store whose byte at address `a` is `a` modulo 256, used in examples. -/
def rampMemory : Memory := fun a => (a % 256).toNat

/-- The eight-byte stream positioned with five bytes remaining. -/
def rw8at3 : SDL_RWops := { rw8 with here := 4099 }

/-- One call on a memory stream through the dispatch slots of the handle. -/
inductive MemOp where
  | seek (offset whence : Int)
  | read (size maxnum : Nat)
  | write (ptr : Nat → Nat) (size num : Nat)

/-- The handle and byte store after one call. -/
def stepOp (w : Nat) (s : SDL_RWops × Memory) : MemOp → SDL_RWops × Memory
  | .seek offset whence => ((SDL_RWseek w s.1 offset whence).ctx, s.2)
  | .read size maxnum => ((SDL_RWread w s.1 s.2 size maxnum).ctx, s.2)
  | .write ptr size num =>
    ((SDL_RWwrite w s.1 s.2 ptr size num).ctx, (SDL_RWwrite w s.1 s.2 ptr size num).mem)

/-- The handle and byte store after a sequence of calls. -/
def runOps (w : Nat) (ops : List MemOp) (s : SDL_RWops × Memory) : SDL_RWops × Memory :=
  ops.foldl (stepOp w) s

/-- The round-trip property of a scalar writer and reader of `k` bytes on a
`w`-bit machine: on every read-write memory stream over a range of machine
addresses (`0 ≤ base` and `stop < 2 ^ w`) with `base ≤ here` and at least `k`
bytes between `here` and `stop`, and for every value `v` below `2 ^ (8 * k)`,
the write returns 1, the seek back to the old position `here - base` returns
that position, and the read that follows returns `v`. -/
def RoundTrips (w k : Nat) (write : SDL_RWops → Memory → Nat → WriteResult)
    (read : SDL_RWops → Memory → Nat × SDL_RWops) : Prop :=
  ∀ (dst : SDL_RWops) (m : Memory) (v : Nat),
    dst.write = .mem_write → 0 ≤ dst.base → dst.base ≤ dst.here →
    dst.here + (k : Int) ≤ dst.stop → dst.stop < 2 ^ w → v < 2 ^ (8 * k) →
    (write dst m v).ret = 1 ∧
    (SDL_RWseek w (write dst m v).ctx (dst.here - dst.base) RW_SEEK_SET).ret
      = dst.here - dst.base ∧
    (read (SDL_RWseek w (write dst m v).ctx (dst.here - dst.base) RW_SEEK_SET).ctx
      (write dst m v).mem).1 = v

/-! ## Buffered native-handle backend -/

/-- The constant `READAHEAD_BUFFER_SIZE`. -/
def READAHEAD_BUFFER_SIZE : Nat := 1024

/-- Modelled from the spec: the native file behind an open `HANDLE`, which the
operating system keeps and the sources do not contain: the bytes of the file,
the native position, and the access rights the handle was opened with. -/
structure WinFile where
  content : List Nat
  pos : Nat
  canRead : Bool
  canWrite : Bool
  deriving DecidableEq, Repr

/-- The member `hidden.windowsio` of `SDL_RWops`: the handle (`none` is
`INVALID_HANDLE_VALUE`), the append flag, and the read-ahead buffer with its
bytes (`[]` for a null `data`), filled length `size` and unread count `left`. -/
structure WindowsIO where
  h : Option WinFile
  append : Bool
  data : List Nat
  size : Nat
  left : Nat
  deriving DecidableEq, Repr

/-- Modelled from the spec: the move method `FILE_BEGIN` of the Windows headers. -/
def FILE_BEGIN : Nat := 0

/-- Modelled from the spec: the move method `FILE_CURRENT` of the Windows headers. -/
def FILE_CURRENT : Nat := 1

/-- Modelled from the spec: the move method `FILE_END` of the Windows headers. -/
def FILE_END : Nat := 2

/-- Modelled from the spec: the creation disposition `CREATE_ALWAYS` of the
Windows headers. -/
def CREATE_ALWAYS : Nat := 2

/-- Modelled from the spec: the creation disposition `OPEN_EXISTING` of the
Windows headers. -/
def OPEN_EXISTING : Nat := 3

/-- Modelled from the spec: the creation disposition `OPEN_ALWAYS` of the
Windows headers. -/
def OPEN_ALWAYS : Nat := 4

/-- Modelled from the spec: the access right `GENERIC_READ` of the Windows
headers. -/
def GENERIC_READ : Nat := 0x80000000

/-- Modelled from the spec: the access right `GENERIC_WRITE` of the Windows
headers. -/
def GENERIC_WRITE : Nat := 0x40000000

/-- Modelled from the spec: the share mode `FILE_SHARE_READ` of the Windows
headers. -/
def FILE_SHARE_READ : Nat := 1

/-- Modelled from the spec: the report of `SDL_Error(SDL_EFREAD)`. -/
def SDL_EFREAD : String := "Error reading from datastream"

/-- Modelled from the spec: the report of `SDL_Error(SDL_EFWRITE)`. -/
def SDL_EFWRITE : String := "Error writing to datastream"

/-- Modelled from the spec: the report of `SDL_Error(SDL_EFSEEK)`. -/
def SDL_EFSEEK : String := "Error seeking in datastream"

/-- Modelled from the spec: the native read `ReadFile`.  It fails on a handle
without read access; otherwise it delivers the `min n remaining` bytes at the
native position and advances the position by their number. -/
def ReadFile (f : WinFile) (n : Nat) : Option (List Nat × WinFile) :=
  if f.canRead then
    some ((f.content.drop f.pos).take n,
          { f with pos := f.pos + ((f.content.drop f.pos).take n).length })
  else none

/-- Modelled from the spec: the native write `WriteFile`.  It fails on a
handle without write access; otherwise it stores the first `n` bytes of the
source at the native position, zero-filling a gap beyond the end of the file,
advances the position by `n` and reports `n` bytes written. -/
def WriteFile (f : WinFile) (src : Nat → Nat) (n : Nat) : Option (Nat × WinFile) :=
  if f.canWrite then
    some (n,
      { f with
        content := (f.content ++ List.replicate (f.pos - f.content.length) 0).take f.pos
                    ++ (List.range n).map src ++ f.content.drop (f.pos + n),
        pos := f.pos + n })
  else none

/-- Modelled from the spec: the native seeks `SetFilePointerEx` and
`SetFilePointer`.  The target is the distance added to 0, to the native
position or to the length of the file, by move method; a negative target
fails and moves nothing. -/
def SetFilePointerEx (f : WinFile) (distance : Int) (method : Nat) :
    Option (Int × WinFile) :=
  let ref : Int :=
    if method = FILE_BEGIN then 0
    else if method = FILE_CURRENT then (f.pos : Int)
    else (f.content.length : Int)
  if ref + distance < 0 then none
  else some (ref + distance, { f with pos := (ref + distance).toNat })

/-- The casts `(long)`, `(LONG)` and `(int)` of an unsigned value on Windows:
the 32-bit two-complement integer with the same low 32 bits. -/
def toInt32 (n : Nat) : Int :=
  if n % 2 ^ 32 < 2 ^ 31 then ((n % 2 ^ 32 : Nat) : Int)
  else ((n % 2 ^ 32 : Nat) : Int) - 2 ^ 32

/-- The conversion of a signed integer to `size_t` on a machine with `w`-bit
words. -/
def int_to_size_t (w : Nat) (i : Int) : Nat := (i % (2 ^ w : Int)).toNat

/-- The cast `(DWORD)` of a `size_t`. -/
def toDWORD (n : Nat) : Nat := n % 2 ^ 32

/-- The five values `windows_file_open` derives from the mode string. -/
structure ModeBits where
  must_exist : Nat
  truncate : Nat
  r_right : Nat
  a_mode : Nat
  w_right : Nat
  deriving DecidableEq, Repr

/-- The mode parsing of `windows_file_open`; `SDL_strchr(mode, c) != NULL` is
membership of `c` in the characters of the mode string. -/
def windows_file_open_mode (mode : List Char) : ModeBits :=
  let must_exist := if 'r' ∈ mode then OPEN_EXISTING else 0
  let truncate := if 'w' ∈ mode then CREATE_ALWAYS else 0
  let r_right := if '+' ∈ mode ∨ must_exist ≠ 0 then GENERIC_READ else 0
  let a_mode := if 'a' ∈ mode then OPEN_ALWAYS else 0
  let w_right := if a_mode ≠ 0 ∨ '+' ∈ mode ∨ truncate ≠ 0 then GENERIC_WRITE else 0
  { must_exist := must_exist, truncate := truncate, r_right := r_right,
    a_mode := a_mode, w_right := w_right }

/-- The arguments of a `CreateFile` call that depend on the mode: desired
access, share mode and creation disposition. -/
structure CreateFileArgs where
  access : Nat
  share : Nat
  disposition : Nat
  deriving DecidableEq, Repr

/-- The arguments `windows_file_open` passes to `CreateFile`: access
`(w_right | r_right)`, share mode `(w_right) ? 0 : FILE_SHARE_READ`, creation
disposition `(must_exist | truncate | a_mode)`. -/
def windows_file_open_args (b : ModeBits) : CreateFileArgs :=
  { access := b.w_right ||| b.r_right,
    share := if b.w_right ≠ 0 then 0 else FILE_SHARE_READ,
    disposition := b.must_exist ||| b.truncate ||| b.a_mode }

/-- Result of `windows_file_open`: return value, context, error report, whether
`SDL_malloc` was called, and the arguments of the `CreateFile` call if one
was made. -/
structure WinOpenResult where
  ret : Int
  ctx : Option WindowsIO
  error : Option String
  mallocCalled : Bool
  createFileCall : Option CreateFileArgs
  deriving DecidableEq, Repr

/-- Embedding of `windows_file_open`.  `buffer` is what
`SDL_malloc(READAHEAD_BUFFER_SIZE)` returns and `CreateFile` is the answer of
the operating system to the call (`none` is `INVALID_HANDLE_VALUE`).  The
creation disposition is `must_exist | truncate | a_mode`. -/
def windows_file_open (context : Option WindowsIO) (filename : String) (mode : List Char)
    (buffer : Option (List Nat)) (CreateFile : String → CreateFileArgs → Option WinFile) :
    WinOpenResult :=
  match context with
  | none => { ret := -1, ctx := none, error := none, mallocCalled := false,
              createFileCall := none }
  | some context =>
    let context := { context with h := none }
    let context := { context with data := [] }
    let context := { context with size := 0 }
    let context := { context with left := 0 }
    let b := windows_file_open_mode mode
    if b.r_right = 0 ∧ b.w_right = 0 then
      { ret := -1, ctx := some context, error := none, mallocCalled := false,
        createFileCall := none }
    else
      match buffer with
      | none => { ret := -1, ctx := some context, error := some SDL_OutOfMemory,
                  mallocCalled := true, createFileCall := none }
      | some data =>
        let context := { context with data := data }
        let args := windows_file_open_args b
        match CreateFile filename args with
        | none =>
          let context := { context with data := [] }
          { ret := -2, ctx := some context, error := some ("Couldn\x27t open " ++ filename),
            mallocCalled := true, createFileCall := some args }
        | some h =>
          let context := { context with h := some h }
          let context := { context with append := decide (b.a_mode ≠ 0) }
          { ret := 0, ctx := some context, error := none, mallocCalled := true,
            createFileCall := some args }

/-- Result of a seek on the buffered backend. -/
structure WinSeekResult where
  ret : Int
  ctx : Option WindowsIO
  error : Option String
  deriving DecidableEq, Repr

/-- The native seek at the end of `windows_file_seek`, with the translated
move method. -/
def windows_file_seek_native (c : WindowsIO) (f : WinFile) (offset : Int)
    (windowswhence : Nat) : WinSeekResult :=
  match SetFilePointerEx f offset windowswhence with
  | none => { ret := SDL_SetError_ret, ctx := some c, error := some "windows_file_seek" }
  | some (windowsoffset, f) =>
    { ret := windowsoffset, ctx := some { c with h := some f }, error := none }

/-- Embedding of `windows_file_seek`. -/
def windows_file_seek (context : Option WindowsIO) (offset : Int) (whence : Int) :
    WinSeekResult :=
  match context with
  | none => { ret := SDL_SetError_ret, ctx := none,
              error := some "windows_file_seek: invalid context/file not opened" }
  | some c =>
    match c.h with
    | none => { ret := SDL_SetError_ret, ctx := some c,
                error := some "windows_file_seek: invalid context/file not opened" }
    | some f =>
      let offset := if whence = RW_SEEK_CUR ∧ c.left ≠ 0 then offset - toInt32 c.left
                    else offset
      let c := { c with left := 0 }
      if whence = RW_SEEK_SET then windows_file_seek_native c f offset FILE_BEGIN
      else if whence = RW_SEEK_CUR then windows_file_seek_native c f offset FILE_CURRENT
      else if whence = RW_SEEK_END then windows_file_seek_native c f offset FILE_END
      else { ret := SDL_SetError_ret, ctx := some c,
             error := some "windows_file_seek: Unknown value for \x27whence\x27" }

/-- Result of a read on the buffered backend: element count, the bytes copied
to the caller in order, context, error report. -/
structure WinReadResult where
  ret : Nat
  out : List Nat
  ctx : Option WindowsIO
  error : Option String
  deriving DecidableEq, Repr

/-- The part of `windows_file_read` after the read-ahead remainder has been
handed out: `total_need` bytes are still wanted, `total_read` bytes have been
copied already and are the list `out`. -/
def windows_file_read_native (w : Nat) (c : WindowsIO) (f : WinFile) (size : Nat)
    (total_need total_read : Nat) (out : List Nat) : WinReadResult :=
  if total_need < READAHEAD_BUFFER_SIZE then
    match ReadFile f READAHEAD_BUFFER_SIZE with
    | none => { ret := 0, out := out, ctx := some c, error := some SDL_EFREAD }
    | some (bytes, f) =>
      let byte_read := bytes.length
      let read_ahead := min total_need (int_to_size_t w (toInt32 byte_read))
      let c := { c with h := some f, data := bytes ++ c.data.drop bytes.length }
      let c := { c with size := byte_read }
      let c := { c with left := byte_read - read_ahead }
      let total_read := total_read + read_ahead
      { ret := total_read / size, out := out ++ bytes.take read_ahead, ctx := some c,
        error := none }
  else
    match ReadFile f (toDWORD total_need) with
    | none => { ret := 0, out := out, ctx := some c, error := some SDL_EFREAD }
    | some (bytes, f) =>
      let byte_read := bytes.length
      let total_read := total_read + byte_read
      { ret := total_read / size, out := out ++ bytes, ctx := some { c with h := some f },
        error := none }

/-- Embedding of `windows_file_read`. -/
def windows_file_read (w : Nat) (context : Option WindowsIO) (size maxnum : Nat) :
    WinReadResult :=
  let total_need := (size * maxnum) % 2 ^ w
  match context with
  | none => { ret := 0, out := [], ctx := none, error := none }
  | some c =>
    match c.h with
    | none => { ret := 0, out := [], ctx := some c, error := none }
    | some f =>
      if total_need = 0 then { ret := 0, out := [], ctx := some c, error := none }
      else if c.left > 0 then
        let read_ahead := min total_need c.left
        let out := (c.data.drop (c.size - c.left)).take read_ahead
        let c := { c with left := c.left - read_ahead }
        if read_ahead = total_need then
          { ret := maxnum, out := out, ctx := some c, error := none }
        else
          windows_file_read_native w c f size (total_need - read_ahead) read_ahead out
      else
        windows_file_read_native w c f size total_need 0 []

/-- Result of a write on the buffered backend. -/
structure WinWriteResult where
  ret : Nat
  ctx : Option WindowsIO
  error : Option String
  deriving DecidableEq, Repr

/-- Embedding of `windows_file_write`.  The return value of the first
`SetFilePointer` call is ignored; the second one reports
`INVALID_SET_FILE_POINTER` when the native seek fails. -/
def windows_file_write (w : Nat) (context : Option WindowsIO) (ptr : Nat → Nat)
    (size num : Nat) : WinWriteResult :=
  let total_bytes := (size * num) % 2 ^ w
  match context with
  | none => { ret := 0, ctx := none, error := none }
  | some c =>
    match c.h with
    | none => { ret := 0, ctx := some c, error := none }
    | some f =>
      if total_bytes ≤ 0 ∨ size = 0 then { ret := 0, ctx := some c, error := none }
      else
        let f1 :=
          if c.left ≠ 0 then
            match SetFilePointerEx f (-(toInt32 c.left)) FILE_CURRENT with
            | none => f
            | some (_, f) => f
          else f
        let c := if c.left ≠ 0 then { c with h := some f1, left := 0 } else c
        let appended : Option WinFile :=
          if c.append then
            match SetFilePointerEx f1 0 FILE_END with
            | none => none
            | some (_, f) => some f
          else some f1
        match appended with
        | none => { ret := 0, ctx := some c, error := some SDL_EFWRITE }
        | some f2 =>
          match WriteFile f2 ptr (toDWORD total_bytes) with
          | none => { ret := 0, ctx := some { c with h := some f2 }, error := some SDL_EFWRITE }
          | some (byte_written, f3) =>
            { ret := byte_written / size, ctx := some { c with h := some f3 }, error := none }

/-- The read-ahead invariant of the buffered backend against the native file
`f` behind its handle: the unread count is at most the filled length, the
unread bytes are the tail of the filled buffer, and they are the bytes of the
file between the logical position `f.pos - left` and the native position. -/
def BufInv (c : WindowsIO) (f : WinFile) : Prop :=
  c.left ≤ c.size ∧ c.left ≤ f.pos ∧ (0 < c.left → f.pos ≤ f.content.length) ∧
  (c.data.drop (c.size - c.left)).take c.left
    = (f.content.drop (f.pos - c.left)).take c.left

instance (c : WindowsIO) (f : WinFile) : Decidable (BufInv c f) :=
  inferInstanceAs (Decidable (c.left ≤ c.size ∧ c.left ≤ f.pos ∧
    (0 < c.left → f.pos ≤ f.content.length) ∧
    (c.data.drop (c.size - c.left)).take c.left
      = (f.content.drop (f.pos - c.left)).take c.left))

/-- What a read of `T` bytes that does not fail establishes, from a context
`c` over the native file `f`: the bytes delivered are the bytes of the file
from the logical position on, the file and the append flag are as before, the
invariant holds again, and the logical position has advanced by the number of
bytes delivered. -/
def ReadPost (c : WindowsIO) (f : WinFile) (T : Nat) (r : WinReadResult) : Prop :=
  r.error = none ∧ r.out = (f.content.drop (f.pos - c.left)).take T ∧
  ∃ c1 f1, r.ctx = some c1 ∧ c1.h = some f1 ∧ f1.content = f.content ∧
    f1.canRead = f.canRead ∧ f1.canWrite = f.canWrite ∧ c1.append = c.append ∧
    BufInv c1 f1 ∧ c1.size ≤ max c.size READAHEAD_BUFFER_SIZE ∧
    f1.pos - c1.left = f.pos - c.left + r.out.length

/-- Result of a sequence of reads: the bytes delivered, concatenated, the sum
of the returned counts, and the context at the end. -/
structure ReadSeqResult where
  out : List Nat
  count : Nat
  ctx : Option WindowsIO
  deriving DecidableEq, Repr

/-- Byte reads (element size 1) of the sizes `ns`, one after the other. -/
def readSeq (w : Nat) (ctx : Option WindowsIO) : List Nat → ReadSeqResult
  | [] => { out := [], count := 0, ctx := ctx }
  | n :: ns =>
    { out := (windows_file_read w ctx 1 n).out
               ++ (readSeq w (windows_file_read w ctx 1 n).ctx ns).out,
      count := (windows_file_read w ctx 1 n).ret
               + (readSeq w (windows_file_read w ctx 1 n).ctx ns).count,
      ctx := (readSeq w (windows_file_read w ctx 1 n).ctx ns).ctx }

/-- A readable three-byte file at native position 0. -/
def file3 : WinFile := { content := [7, 8, 9], pos := 0, canRead := true, canWrite := true }

/-- A freshly opened context over `file3`. -/
def win3 : WindowsIO :=
  { h := some file3, append := false, data := List.replicate 1024 0, size := 0, left := 0 }

/-- A readable file of 1200 bytes at native position 0. -/
def file1200 : WinFile :=
  { content := (List.range 1200).map (fun i => i % 256), pos := 0, canRead := true,
    canWrite := true }

/-- A freshly opened context over `file1200`. -/
def win1200 : WindowsIO :=
  { h := some file1200, append := false, data := List.replicate 1024 0, size := 0,
    left := 0 }

/-- A readable and writable six-byte file at native position 0. -/
def file6 : WinFile :=
  { content := [10, 11, 12, 13, 14, 15], pos := 0, canRead := true, canWrite := true }

/-- A freshly opened context over `file6`, not in append mode. -/
def win6 : WindowsIO :=
  { h := some file6, append := false, data := List.replicate 1024 0, size := 0, left := 0 }

/-- The file `file6` after a native read has brought it to its end. -/
def file6read : WinFile := { file6 with pos := 6 }

/-- The context `win6` after a read of two bytes: the six bytes of the file are
in the buffer and four of them are unread. -/
def win6read : WindowsIO :=
  { h := some file6read, append := false,
    data := [10, 11, 12, 13, 14, 15] ++ (List.replicate 1024 0).drop 6, size := 6, left := 4 }

/-- An answer of the operating system to `CreateFile` that always fails. -/
def createFileFails : String → CreateFileArgs → Option WinFile := fun _ _ => none

/-- An answer of the operating system to `CreateFile` that opens an empty file
with the access rights asked for. -/
def createFileEmpty : String → CreateFileArgs → Option WinFile := fun _ args =>
  some { content := [], pos := 0,
         canRead := decide (args.access &&& GENERIC_READ ≠ 0),
         canWrite := decide (args.access &&& GENERIC_WRITE ≠ 0) }

/-- The contents of `hidden.windowsio` in a fresh area, used in examples. -/
def rawWindowsIO : WindowsIO :=
  { h := some { content := [1], pos := 5, canRead := false, canWrite := false },
    append := true, data := [3], size := 9, left := 4 }

/-! ## File factory -/

/-- The platform branch of `SDL_RWFromFile` the preprocessor selects:
`__ANDROID__` with or without `HAVE_STDIO_H`, `__WIN32__`, `HAVE_STDIO_H`
alone, or none of them. -/
inductive Platform where
  | android (have_stdio : Bool)
  | win32
  | stdio
  | other
  deriving DecidableEq, Repr

/-- The handle `SDL_RWFromFile` and `SDL_RWFromFP` return on success: of type
`SDL_RWOPS_STDFILE` with the `stdio_*` functions, the stream and the autoclose
flag, or of type `SDL_RWOPS_WINFILE` with the `windows_file_*` functions and
the state of the buffered backend. -/
inductive FileRWops where
  | stdfile (fp : Nat) (autoclose : Bool)
  | winfile (io : WindowsIO)
  deriving DecidableEq, Repr

/-- Result of a file factory: the handle or null, and the error report
recorded during the call, if any. -/
structure FileFactoryResult where
  rwops : Option FileRWops
  error : Option String
  deriving DecidableEq, Repr

/-- Modelled from the spec: what the collaborators outside the sources answer
during one call of `SDL_RWFromFile`: `fopen` (a stream or null) for a path and
mode, `SDL_malloc` for the handle, `SDL_stack_alloc` for the path buffer,
`SDL_AndroidGetInternalStoragePath`, `SDL_malloc` for the read-ahead buffer,
and `CreateFile`. -/
structure FileEnv where
  fopen : String → List Char → Option Nat
  area : Option SDL_RWops
  stackAlloc : Bool
  storagePath : String
  buffer : Option (List Nat)
  CreateFile : String → CreateFileArgs → Option WinFile

/-- Embedding of `SDL_RWFromFP` (the `HAVE_STDIO_H` version). -/
def SDL_RWFromFP (env : FileEnv) (fp : Nat) (autoclose : Bool) : FileFactoryResult :=
  match SDL_AllocRW env.area with
  | (some _, e) => { rwops := some (.stdfile fp autoclose), error := e }
  | (none, e) => { rwops := none, error := e }

/-- Embedding of `SDL_RWFromFile`.  `file` and `mode` are `none` for a null
pointer; `rawio` is the content of `hidden.windowsio` in the fresh area. -/
def SDL_RWFromFile (platform : Platform) (env : FileEnv) (rawio : WindowsIO)
    (file : Option String) (mode : Option (List Char)) : FileFactoryResult :=
  match file, mode with
  | some file, some mode =>
    if file.toList = [] ∨ mode = [] then
      { rwops := none, error := some "SDL_RWFromFile(): No file or no mode specified" }
    else
      match platform with
      | .android true =>
        if file.toList.head? = some '/' then
          match env.fopen file mode with
          | some fp => SDL_RWFromFP env fp true
          | none => { rwops := none, error := none }
        else if env.stackAlloc then
          match env.fopen (env.storagePath ++ "/" ++ file) mode with
          | some fp => SDL_RWFromFP env fp true
          | none => { rwops := none, error := none }
        else { rwops := none, error := none }
      | .android false => { rwops := none, error := none }
      | .win32 =>
        match SDL_AllocRW env.area with
        | (none, e) => { rwops := none, error := e }
        | (some _, _) =>
          let r := windows_file_open (some rawio) file mode env.buffer env.CreateFile
          if r.ret < 0 then { rwops := none, error := r.error }
          else
            match r.ctx with
            | some io => { rwops := some (.winfile io), error := r.error }
            | none => { rwops := none, error := r.error }
      | .stdio =>
        match env.fopen file mode with
        | none => { rwops := none, error := some ("Couldn\x27t open " ++ file) }
        | some fp => SDL_RWFromFP env fp true
      | .other =>
        { rwops := none, error := some "SDL not compiled with stdio support" }
  | _, _ => { rwops := none, error := some "SDL_RWFromFile(): No file or no mode specified" }

/-- Collaborators for the examples: every allocation succeeds, `fopen` finds no
file, and `CreateFile` opens an empty file. -/
def envNoFile : FileEnv :=
  { fopen := fun _ _ => none, area := some rawArea, stackAlloc := true,
    storagePath := "/data", buffer := some (List.replicate 1024 0),
    CreateFile := createFileEmpty }

/-- A scalar writer of `k` bytes stores the bytes `enc v`: on every read-write
memory stream with `k` bytes of room in a range of machine addresses
(`0 ≤ here` and `stop < 2 ^ w`), after writing `v` the `k` bytes of the store at
the old position are `enc v`. -/
def StoresBytes (w k : Nat) (write : SDL_RWops → Memory → Nat → WriteResult)
    (enc : Nat → List Nat) : Prop :=
  ∀ (dst : SDL_RWops) (m : Memory) (v : Nat),
    dst.write = .mem_write → 0 ≤ dst.here → dst.here + (k : Int) ≤ dst.stop →
    dst.stop < 2 ^ w →
    loadBytes (write dst m v).mem dst.here k = enc v

/-- A scalar reader of `k` bytes decodes by `dec`: on every memory stream with
`k` bytes left and a remaining range shorter than the machine word, over a
store of bytes, it returns `dec` of the `k` bytes at the current position. -/
def ReadsBytes (w k : Nat) (read : SDL_RWops → Memory → Nat × SDL_RWops)
    (dec : List Nat → Nat) : Prop :=
  ∀ (src : SDL_RWops) (m : Memory),
    (∀ a, m a < 256) → src.here + (k : Int) ≤ src.stop → src.stop - src.here < 2 ^ w →
    (read src m).1 = dec (loadBytes m src.here k)

/-- The big-endian reader returns the byte reversal of what the little-endian
reader returns on the same `k` bytes. -/
def ReversedReads (w k : Nat) (readBE readLE : SDL_RWops → Memory → Nat × SDL_RWops) :
    Prop :=
  ∀ (src : SDL_RWops) (m : Memory),
    (∀ a, m a < 256) → src.here + (k : Int) ≤ src.stop → src.stop - src.here < 2 ^ w →
    (readBE src m).1 = SDL_Swap k (readLE src m).1

/-- The logical target of a seek on the buffered backend, with `L = pos - left`
the logical position: `offset` from the start, `L + offset` from the current
position, and the length of the file plus `offset` from the end. -/
def seekTarget (c : WindowsIO) (f : WinFile) (offset whence : Int) : Int :=
  if whence = RW_SEEK_SET then offset
  else if whence = RW_SEEK_CUR then ((f.pos - c.left : Nat) : Int) + offset
  else (f.content.length : Int) + offset

/-- The read-ahead buffer invariant of a context: unread count at most the
filled length, filled length at most the capacity of the buffer, and the unread
bytes are the tail of the filled buffer and the bytes of the file between the
logical and the native position. -/
def WinInv (c : WindowsIO) : Prop :=
  c.left ≤ c.size ∧ c.size ≤ READAHEAD_BUFFER_SIZE ∧ ∀ f, c.h = some f → BufInv c f

/-- One call on a stream of the buffered backend. -/
inductive WinOp where
  | seek (offset whence : Int)
  | read (size maxnum : Nat)
  | write (ptr : Nat → Nat) (size num : Nat)

/-- The context after one call. -/
def stepWinOp (w : Nat) (ctx : Option WindowsIO) : WinOp → Option WindowsIO
  | .seek offset whence => (windows_file_seek ctx offset whence).ctx
  | .read size maxnum => (windows_file_read w ctx size maxnum).ctx
  | .write ptr size num => (windows_file_write w ctx ptr size num).ctx

/-- The context after a sequence of calls. -/
def runWinOps (w : Nat) (ops : List WinOp) (ctx : Option WindowsIO) : Option WindowsIO :=
  ops.foldl (stepWinOp w) ctx

/-- An answer of the operating system to `CreateFile` that opens `file6`. -/
def createFile6 : String → CreateFileArgs → Option WinFile := fun _ _ => some file6

/-- A sequence of calls for the examples: a read of two bytes, a seek by one
from the current position, a write of three bytes, a seek to the start and a
read of four bytes. -/
def ops6 : List WinOp :=
  [.read 1 2, .seek 1 RW_SEEK_CUR, .write (fun i => i + 1) 1 3, .seek 0 RW_SEEK_SET,
   .read 1 4]

/-- The context after an open of `file6` in append mode and a read of two
bytes: four unread bytes, native position 6. -/
def win6readAppend : WindowsIO := { win6read with append := true }

/-! ## OS stream-handle backend -/

/-- Modelled from the spec: the stream primitive `FILE` of the C library behind
`hidden.stdio.fp`, which the sources do not contain: the length of the
stream, its position, and whether `fseek` and `ftell` work on it. -/
structure StdioStream where
  length : Nat
  pos : Nat
  seekable : Bool
  tellable : Bool
  deriving DecidableEq, Repr

/-- Modelled from the spec: `fseek` and its variants `fseeko64`, `fseeko`,
`_fseeki64`, with the whence codes 0, 1, 2 of the C library.  `none` is a
nonzero return: the stream is not seekable, the whence code is unknown, or the
target is negative; a failed call moves nothing. -/
def fseek (fp : StdioStream) (offset : Int) (whence : Int) : Option StdioStream :=
  if fp.seekable then
    if whence = 0 then
      if offset < 0 then none else some { fp with pos := offset.toNat }
    else if whence = 1 then
      if (fp.pos : Int) + offset < 0 then none
      else some { fp with pos := ((fp.pos : Int) + offset).toNat }
    else if whence = 2 then
      if (fp.length : Int) + offset < 0 then none
      else some { fp with pos := ((fp.length : Int) + offset).toNat }
    else none
  else none

/-- Modelled from the spec: `ftell` and its variants `ftello64`, `ftello`,
`_ftelli64`: the position, or -1 when the stream cannot report it. -/
def ftell (fp : StdioStream) : Int :=
  if fp.tellable then (fp.pos : Int) else -1

/-- Result of a seek or size query on the OS stream-handle backend: returned
value, stream, error report. -/
structure StdioSeekResult where
  ret : Int
  fp : StdioStream
  error : Option String
  deriving DecidableEq, Repr

/-- Embedding of `stdio_seek`, on the stream `context->hidden.stdio.fp`.  The
four preprocessor variants differ in the type of the offset only; the whence
code is passed on unchanged. -/
def stdio_seek (fp : StdioStream) (offset : Int) (whence : Int) : StdioSeekResult :=
  match fseek fp offset whence with
  | some fp1 => { ret := ftell fp1, fp := fp1, error := none }
  | none => { ret := SDL_SetError_ret, fp := fp, error := some SDL_EFSEEK }

/-- Embedding of `stdio_size`.  `SDL_RWseek` dispatches to `stdio_seek`, the
function `SDL_RWFromFP` stores in the seek slot.  The error report is the one
of the last seek that recorded one. -/
def stdio_size (fp : StdioStream) : StdioSeekResult :=
  let r1 := stdio_seek fp 0 RW_SEEK_CUR
  let pos := r1.ret
  if pos < 0 then { ret := -1, fp := r1.fp, error := r1.error }
  else
    let r2 := stdio_seek r1.fp 0 RW_SEEK_END
    let size := r2.ret
    let r3 := stdio_seek r2.fp pos RW_SEEK_SET
    { ret := size, fp := r3.fp,
      error := match r3.error with
               | some e => some e
               | none => r2.error }

/-- A seekable stream of 100 bytes at position 30. -/
def stream100 : StdioStream := { length := 100, pos := 30, seekable := true, tellable := true }

/-- A stream that is not seekable, such as a pipe. -/
def pipeStream : StdioStream := { length := 0, pos := 0, seekable := false, tellable := false }

/-! ## The functions with their divisions checked -/

/-- Division as the machine performs it: `none` when the divisor is zero. -/
def checkedDiv (a b : Nat) : Option Nat := if b = 0 then none else some (a / b)

/-- The function `mem_read` with each division of the source checked, the
disjuncts of its guard evaluated from left to right: `none` means that a
division by zero is reached. -/
def mem_read_checked (w : Nat) (context : SDL_RWops) (m : Memory) (size maxnum : Nat) :
    Option ReadResult :=
  let total_bytes := (maxnum * size) % 2 ^ w
  if maxnum ≤ 0 then some { ret := 0, out := [], ctx := context }
  else if size ≤ 0 then some { ret := 0, out := [], ctx := context }
  else
    match checkedDiv total_bytes maxnum with
    | none => none
    | some q =>
      if q ≠ size then some { ret := 0, out := [], ctx := context }
      else
        let mem_available := ptrdiff_to_size_t w (context.stop - context.here)
        let total_bytes := if total_bytes > mem_available then mem_available else total_bytes
        match checkedDiv total_bytes size with
        | none => none
        | some r =>
          some { ret := r,
                 out := loadBytes m context.here total_bytes,
                 ctx := { context with here := context.here + total_bytes } }

/-- The function `mem_write` with its division checked: `none` means that a
division by zero is reached. -/
def mem_write_checked (w : Nat) (context : SDL_RWops) (m : Memory) (ptr : Nat → Nat)
    (size num : Nat) : Option WriteResult :=
  let clamped : Option Nat :=
    if wrapPtr w (context.here + (((num * size) % 2 ^ w : Nat) : Int)) > context.stop then
      checkedDiv (ptrdiff_to_size_t w (context.stop - context.here)) size
    else some num
  match clamped with
  | none => none
  | some num =>
    some { ret := num,
           ctx := { context with
                    here := wrapPtr w (context.here + (((num * size) % 2 ^ w : Nat) : Int)) },
           mem := SDL_memcpy m context.here ptr ((num * size) % 2 ^ w),
           error := none }

/-- The native part of `windows_file_read` with its divisions checked. -/
def windows_file_read_native_checked (w : Nat) (c : WindowsIO) (f : WinFile) (size : Nat)
    (total_need total_read : Nat) (out : List Nat) : Option WinReadResult :=
  if total_need < READAHEAD_BUFFER_SIZE then
    match ReadFile f READAHEAD_BUFFER_SIZE with
    | none => some { ret := 0, out := out, ctx := some c, error := some SDL_EFREAD }
    | some (bytes, f) =>
      let byte_read := bytes.length
      let read_ahead := min total_need (int_to_size_t w (toInt32 byte_read))
      let c := { c with h := some f, data := bytes ++ c.data.drop bytes.length }
      let c := { c with size := byte_read }
      let c := { c with left := byte_read - read_ahead }
      let total_read := total_read + read_ahead
      match checkedDiv total_read size with
      | none => none
      | some r =>
        some { ret := r, out := out ++ bytes.take read_ahead, ctx := some c, error := none }
  else
    match ReadFile f (toDWORD total_need) with
    | none => some { ret := 0, out := out, ctx := some c, error := some SDL_EFREAD }
    | some (bytes, f) =>
      let byte_read := bytes.length
      let total_read := total_read + byte_read
      match checkedDiv total_read size with
      | none => none
      | some r =>
        some { ret := r, out := out ++ bytes, ctx := some { c with h := some f },
               error := none }

/-- The function `windows_file_read` with its divisions checked: `none` means
that a division by zero is reached. -/
def windows_file_read_checked (w : Nat) (context : Option WindowsIO) (size maxnum : Nat) :
    Option WinReadResult :=
  let total_need := (size * maxnum) % 2 ^ w
  match context with
  | none => some { ret := 0, out := [], ctx := none, error := none }
  | some c =>
    match c.h with
    | none => some { ret := 0, out := [], ctx := some c, error := none }
    | some f =>
      if total_need = 0 then some { ret := 0, out := [], ctx := some c, error := none }
      else if c.left > 0 then
        let read_ahead := min total_need c.left
        let out := (c.data.drop (c.size - c.left)).take read_ahead
        let c := { c with left := c.left - read_ahead }
        if read_ahead = total_need then
          some { ret := maxnum, out := out, ctx := some c, error := none }
        else
          windows_file_read_native_checked w c f size (total_need - read_ahead) read_ahead out
      else
        windows_file_read_native_checked w c f size total_need 0 []

/-- The function `windows_file_write` with its division checked: `none` means
that a division by zero is reached. -/
def windows_file_write_checked (w : Nat) (context : Option WindowsIO) (ptr : Nat → Nat)
    (size num : Nat) : Option WinWriteResult :=
  let total_bytes := (size * num) % 2 ^ w
  match context with
  | none => some { ret := 0, ctx := none, error := none }
  | some c =>
    match c.h with
    | none => some { ret := 0, ctx := some c, error := none }
    | some f =>
      if total_bytes ≤ 0 ∨ size = 0 then some { ret := 0, ctx := some c, error := none }
      else
        let f1 :=
          if c.left ≠ 0 then
            match SetFilePointerEx f (-(toInt32 c.left)) FILE_CURRENT with
            | none => f
            | some (_, f) => f
          else f
        let c := if c.left ≠ 0 then { c with h := some f1, left := 0 } else c
        let appended : Option WinFile :=
          if c.append then
            match SetFilePointerEx f1 0 FILE_END with
            | none => none
            | some (_, f) => some f
          else some f1
        match appended with
        | none => some { ret := 0, ctx := some c, error := some SDL_EFWRITE }
        | some f2 =>
          match WriteFile f2 ptr (toDWORD total_bytes) with
          | none =>
            some { ret := 0, ctx := some { c with h := some f2 }, error := some SDL_EFWRITE }
          | some (byte_written, f3) =>
            match checkedDiv byte_written size with
            | none => none
            | some r => some { ret := r, ctx := some { c with h := some f3 }, error := none }

/-- The handle `SDL_RWFromMem` builds for the length -1: `stop` is below `here`. -/
def negHandle : SDL_RWops := memHandle 4096 (-1)

/-! # Theorems -/

/-! ## Basic facts about the factories -/

theorem SDL_RWFromMem_some (p n : Int) (area : Option SDL_RWops) (h : SDL_RWops)
    (hh : (SDL_RWFromMem p n area).rwops = some h) :
    p ≠ 0 ∧ n ≠ 0 ∧ area ≠ none ∧ h = memHandle p n := by
  unfold SDL_RWFromMem at hh
  split_ifs at hh with h1 h2
  cases area with
  | none => simp [SDL_AllocRW] at hh
  | some a =>
    simp [SDL_AllocRW] at hh
    exact ⟨h1, h2, by simp, by rw [← hh]; rfl⟩

theorem SDL_RWFromConstMem_some (p n : Int) (area : Option SDL_RWops) (h : SDL_RWops)
    (hh : (SDL_RWFromConstMem p n area).rwops = some h) :
    p ≠ 0 ∧ n ≠ 0 ∧ area ≠ none ∧ h = constMemHandle p n := by
  unfold SDL_RWFromConstMem at hh
  split_ifs at hh with h1 h2
  cases area with
  | none => simp [SDL_AllocRW] at hh
  | some a =>
    simp [SDL_AllocRW] at hh
    exact ⟨h1, h2, by simp, by rw [← hh]; rfl⟩

theorem SDL_RWFromMem_ok (p n : Int) (a : SDL_RWops) (hp : p ≠ 0) (hn : n ≠ 0) :
    SDL_RWFromMem p n (some a)
      = { rwops := some (memHandle p n), error := none, allocated := true } := by
  simp [SDL_RWFromMem, hp, hn, SDL_AllocRW, memHandle]

theorem SDL_RWFromConstMem_ok (p n : Int) (a : SDL_RWops) (hp : p ≠ 0) (hn : n ≠ 0) :
    SDL_RWFromConstMem p n (some a)
      = { rwops := some (constMemHandle p n), error := none, allocated := true } := by
  simp [SDL_RWFromConstMem, hp, hn, SDL_AllocRW, constMemHandle]

/-! ## Seek -/

theorem wrapPtr_eq (w : Nat) (p : Int) (h0 : 0 ≤ p) (hlt : p < 2 ^ w) : wrapPtr w p = p :=
  Int.emod_eq_of_lt h0 hlt

theorem wrapPtr_nonneg (w : Nat) (p : Int) : 0 ≤ wrapPtr w p :=
  Int.emod_nonneg p (by positivity)

theorem wrapPtr_lt (w : Nat) (p : Int) : wrapPtr w p < 2 ^ w :=
  Int.emod_lt_of_pos p (by positivity)

/-- On a memory stream of size `n = stop - base` with position `p = here - base`,
a seek whose pointer sums do not wrap (the lowest sum `base + offset` is not
negative and the highest sum `stop + offset` is below `2 ^ w`) records no
error, returns `clamp (r + offset) 0 n` for `r = 0`, `p`, `n` respectively, and
leaves the current position at that value, with `base` and `stop` as before. -/
theorem mem_seek_clamps_no_wrap (w : Nat) (c : SDL_RWops) (offset : Int) (hinv : MemInv c)
    (hlo : 0 ≤ c.base + offset) (hhi : c.stop + offset < 2 ^ w) :
    ((mem_seek w c offset RW_SEEK_SET).error = none ∧
      (mem_seek w c offset RW_SEEK_SET).ret = clamp (0 + offset) 0 (mem_size c) ∧
      (mem_seek w c offset RW_SEEK_SET).ctx
        = { c with here := c.base + clamp (0 + offset) 0 (mem_size c) }) ∧
    ((mem_seek w c offset RW_SEEK_CUR).error = none ∧
      (mem_seek w c offset RW_SEEK_CUR).ret
        = clamp ((c.here - c.base) + offset) 0 (mem_size c) ∧
      (mem_seek w c offset RW_SEEK_CUR).ctx
        = { c with here := c.base + clamp ((c.here - c.base) + offset) 0 (mem_size c) }) ∧
    ((mem_seek w c offset RW_SEEK_END).error = none ∧
      (mem_seek w c offset RW_SEEK_END).ret = clamp (mem_size c + offset) 0 (mem_size c) ∧
      (mem_seek w c offset RW_SEEK_END).ctx
        = { c with here := c.base + clamp (mem_size c + offset) 0 (mem_size c) }) := by
  obtain ⟨h1, h2⟩ := hinv
  have hbs : c.base ≤ c.stop := le_trans h1 h2
  have e1 : wrapPtr w (c.base + offset) = c.base + offset :=
    wrapPtr_eq w _ hlo (by omega)
  have e2 : wrapPtr w (c.here + offset) = c.here + offset :=
    wrapPtr_eq w _ (by omega) (by omega)
  have e3 : wrapPtr w (c.stop + offset) = c.stop + offset :=
    wrapPtr_eq w _ (by omega) hhi
  simp only [mem_seek, RW_SEEK_SET, RW_SEEK_CUR, RW_SEEK_END, clamp, mem_size, e1, e2, e3]
  refine ⟨?_, ?_, ?_⟩
  · norm_num
    constructor
    · split_ifs <;> omega
    · split_ifs <;> omega
  · norm_num
    constructor
    · split_ifs <;> omega
    · split_ifs <;> omega
  · norm_num
    constructor
    · split_ifs <;> omega
    · split_ifs <;> omega

/-- Claim C2 at a failing input.  On a 64-bit machine, on the eight-byte stream
at address 4096 with position 3 (which satisfies `base ≤ here ≤ stop`), a seek
with the offset `-2 ^ 63`, the least signed 64-bit value, records no error but
returns 8 for each of the three whence codes and leaves the position at the end
of the stream, where `clamp (r + offset) 0 n` is 0 for `r = 0`, `p` and `n`:
the pointer sum wraps to an address above `stop` and is clamped to the far
bound.  The same happens for the offset `-5000` from the start, which is below
minus the address of the range. -/
theorem mem_seek_wrapped_offset :
    MemInv rw8at3 ∧ mem_size rw8at3 = 8 ∧ rw8at3.here - rw8at3.base = 3 ∧
    ((mem_seek 64 rw8at3 (-(2 ^ 63)) RW_SEEK_SET).error = none ∧
      (mem_seek 64 rw8at3 (-(2 ^ 63)) RW_SEEK_SET).ret = 8 ∧
      (mem_seek 64 rw8at3 (-(2 ^ 63)) RW_SEEK_SET).ctx.here = rw8at3.base + 8 ∧
      clamp (0 + -(2 ^ 63)) 0 (mem_size rw8at3) = 0) ∧
    ((mem_seek 64 rw8at3 (-(2 ^ 63)) RW_SEEK_CUR).error = none ∧
      (mem_seek 64 rw8at3 (-(2 ^ 63)) RW_SEEK_CUR).ret = 8 ∧
      (mem_seek 64 rw8at3 (-(2 ^ 63)) RW_SEEK_CUR).ctx.here = rw8at3.base + 8 ∧
      clamp ((rw8at3.here - rw8at3.base) + -(2 ^ 63)) 0 (mem_size rw8at3) = 0) ∧
    ((mem_seek 64 rw8at3 (-(2 ^ 63)) RW_SEEK_END).error = none ∧
      (mem_seek 64 rw8at3 (-(2 ^ 63)) RW_SEEK_END).ret = 8 ∧
      (mem_seek 64 rw8at3 (-(2 ^ 63)) RW_SEEK_END).ctx.here = rw8at3.base + 8 ∧
      clamp (mem_size rw8at3 + -(2 ^ 63)) 0 (mem_size rw8at3) = 0) ∧
    ((mem_seek 64 rw8at3 (-5000) RW_SEEK_SET).error = none ∧
      (mem_seek 64 rw8at3 (-5000) RW_SEEK_SET).ret = 8 ∧
      (mem_seek 64 rw8at3 (-5000) RW_SEEK_SET).ctx.here = rw8at3.base + 8 ∧
      clamp (0 + -5000) 0 (mem_size rw8at3) = 0) := by
  decide

/-! ## Writes to a read-only stream -/

/-- Claim C3.  `mem_writeconst` returns 0, records the report
that the memory is read-only, and leaves the byte store and the handle
(so the current position) as they were; a handle built by `SDL_RWFromConstMem`
dispatches every write to `mem_writeconst`. -/
theorem mem_writeconst_refuses (w : Nat) (c : SDL_RWops) (m : Memory) (ptr : Nat → Nat)
    (size num : Nat) :
    (mem_writeconst w c m ptr size num).ret = 0 ∧
    (mem_writeconst w c m ptr size num).error = some "Can\x27t write to read-only memory" ∧
    (mem_writeconst w c m ptr size num).mem = m ∧
    (mem_writeconst w c m ptr size num).ctx = c ∧
    (∀ (p n : Int) (area : Option SDL_RWops) (h : SDL_RWops),
      (SDL_RWFromConstMem p n area).rwops = some h →
      (SDL_RWwrite w h m ptr size num).ret = 0 ∧
      (SDL_RWwrite w h m ptr size num).error = some "Can\x27t write to read-only memory" ∧
      (SDL_RWwrite w h m ptr size num).mem = m ∧
      (SDL_RWwrite w h m ptr size num).ctx = h) := by
  refine ⟨rfl, rfl, rfl, rfl, ?_⟩
  intro p n area h hh
  obtain ⟨-, -, -, rfl⟩ := SDL_RWFromConstMem_some p n area h hh
  simp [SDL_RWwrite, constMemHandle, mem_writeconst]

/-- Witness of `mem_writeconst_refuses`: a write of three one-byte elements to
the read-only stream of length 4 built by `SDL_RWFromConstMem`. -/
theorem mem_writeconst_refuses_witness :
    (SDL_RWFromConstMem 4096 4 (some rawArea)).rwops = some ro4 ∧
    (SDL_RWwrite 64 ro4 zeroMemory (fun _ => 255) 1 3).ret = 0 ∧
    (SDL_RWwrite 64 ro4 zeroMemory (fun _ => 255) 1 3).error
      = some "Can\x27t write to read-only memory" ∧
    (SDL_RWwrite 64 ro4 zeroMemory (fun _ => 255) 1 3).mem = zeroMemory ∧
    (SDL_RWwrite 64 ro4 zeroMemory (fun _ => 255) 1 3).ctx = ro4 :=
  ⟨by decide,
   (mem_writeconst_refuses 64 ro4 zeroMemory (fun _ => 255) 1 3).2.2.2.2
     4096 4 (some rawArea) ro4 (by decide)⟩

/-! ## Arithmetic of `size_t` -/

theorem ptrdiff_to_size_t_le (w : Nat) (d : Int) (hd : 0 ≤ d) :
    (ptrdiff_to_size_t w d : Int) ≤ d := by
  obtain ⟨n, rfl⟩ := Int.eq_ofNat_of_zero_le hd
  have h : ptrdiff_to_size_t w (n : Int) = n % 2 ^ w := by
    unfold ptrdiff_to_size_t
    norm_cast
  rw [h]
  exact_mod_cast Nat.mod_le n (2 ^ w)

theorem ptrdiff_to_size_t_eq (w : Nat) (d : Int) (hd : 0 ≤ d) (hlt : d < 2 ^ w) :
    (ptrdiff_to_size_t w d : Int) = d := by
  unfold ptrdiff_to_size_t
  rw [Int.emod_eq_of_lt hd hlt, Int.toNat_of_nonneg hd]

/-- The overflow guard of `mem_read` is exact: it rejects precisely the calls
with a zero operand or a product that does not fit the machine word. -/
theorem mem_read_rejects_iff (w size maxnum : Nat) :
    mem_read_rejects w size maxnum ↔ size = 0 ∨ maxnum = 0 ∨ 2 ^ w ≤ maxnum * size := by
  unfold mem_read_rejects
  constructor
  · rintro (h | h | h)
    · right; left; omega
    · left; omega
    · by_cases hlt : maxnum * size < 2 ^ w
      · rcases Nat.eq_zero_or_pos maxnum with h0 | hpos
        · right; left; exact h0
        · exfalso
          apply h
          rw [Nat.mod_eq_of_lt hlt]
          exact Nat.mul_div_cancel_left size hpos
      · right; right; omega
  · rintro (h | h | h)
    · right; left; omega
    · left; omega
    · rcases Nat.eq_zero_or_pos maxnum with h0 | hpos
      · left; omega
      · right; right
        have hp : 0 < 2 ^ w := by positivity
        have h1 : (maxnum * size) % 2 ^ w < maxnum * size := by
          have := Nat.mod_lt (maxnum * size) hp
          omega
        have h2 : (maxnum * size) % 2 ^ w / maxnum < size := by
          rw [Nat.div_lt_iff_lt_mul hpos]
          rw [Nat.mul_comm size maxnum]
          exact h1
        omega

/-! ## The overflow guard of `mem_read` -/

/-- Claim C7.  `mem_read` returns 0, copies nothing and leaves the handle as it
was whenever the element size is 0, the count is 0, or the wrapped product
divided back by the count differs from the size; every product that exceeds
the machine word is detected by that test, and no call with nonzero operands
whose true product fits the machine word is rejected. -/
theorem mem_read_guard (w : Nat) (c : SDL_RWops) (m : Memory) (size maxnum : Nat) :
    ((size = 0 ∨ maxnum = 0 ∨ ((maxnum * size) % 2 ^ w) / maxnum ≠ size) →
      (mem_read w c m size maxnum).ret = 0 ∧ (mem_read w c m size maxnum).out = [] ∧
      (mem_read w c m size maxnum).ctx = c) ∧
    (2 ^ w ≤ maxnum * size → ((maxnum * size) % 2 ^ w) / maxnum ≠ size ∨ maxnum = 0) ∧
    (0 < size → 0 < maxnum → maxnum * size < 2 ^ w →
      ¬ mem_read_rejects w size maxnum ∧
      (mem_read w c m size maxnum).ctx.here
        = c.here + min (maxnum * size) (ptrdiff_to_size_t w (c.stop - c.here))) := by
  refine ⟨?_, ?_, ?_⟩
  · intro h
    have hr : mem_read_rejects w size maxnum := by
      rcases h with h | h | h
      · right; left; omega
      · left; omega
      · right; right; exact h
    simp [mem_read, hr]
  · intro h
    have hr : mem_read_rejects w size maxnum :=
      (mem_read_rejects_iff w size maxnum).2 (Or.inr (Or.inr h))
    rcases hr with h1 | h1 | h1
    · right; omega
    · have hz : size = 0 := by omega
      subst hz
      have hp : 0 < 2 ^ w := by positivity
      omega
    · left; exact h1
  · intro hs hm hfit
    have hr : ¬ mem_read_rejects w size maxnum := by
      rw [mem_read_rejects_iff]
      omega
    refine ⟨hr, ?_⟩
    simp only [mem_read, hr, if_false, Nat.mod_eq_of_lt hfit]
    split_ifs with h1
    · rw [min_eq_right (le_of_lt h1)]
    · rw [min_eq_left (not_lt.mp h1)]

/-- Witness of `mem_read_guard`: on a 64-bit machine a zero element size is
rejected, the product of `2 ^ 32` by `2 ^ 32` is detected as an overflow, and a
read of two four-byte elements is accepted and advances by the eight bytes
of the stream. -/
theorem mem_read_guard_witness :
    ((mem_read 64 rw8 zeroMemory 0 5).ret = 0 ∧ (mem_read 64 rw8 zeroMemory 0 5).out = [] ∧
      (mem_read 64 rw8 zeroMemory 0 5).ctx = rw8) ∧
    (((2 ^ 32 * 2 ^ 32) % 2 ^ 64) / 2 ^ 32 ≠ 2 ^ 32 ∨ 2 ^ 32 = 0) ∧
    (¬ mem_read_rejects 64 4 2 ∧
      (mem_read 64 rw8 zeroMemory 4 2).ctx.here
        = rw8.here + min (2 * 4) (ptrdiff_to_size_t 64 (rw8.stop - rw8.here))) :=
  ⟨(mem_read_guard 64 rw8 zeroMemory 0 5).1 (Or.inl rfl),
   (mem_read_guard 64 rw8 zeroMemory (2 ^ 32) (2 ^ 32)).2.1 (by norm_num),
   (mem_read_guard 64 rw8 zeroMemory 4 2).2.2 (by norm_num) (by norm_num) (by norm_num)⟩

/-! ## Frame and invariant of the four operations -/

theorem mem_seek_frame (w : Nat) (c : SDL_RWops) (offset whence : Int) :
    (mem_seek w c offset whence).ctx
      = { c with here := (mem_seek w c offset whence).ctx.here } := by
  unfold mem_seek
  split_ifs <;> rfl

/-- Every seek keeps `base ≤ here ≤ stop`, whether or not the pointer sum
wraps: the wrapped sum is clamped into the range. -/
theorem mem_seek_inv (w : Nat) (c : SDL_RWops) (offset whence : Int) (hinv : MemInv c) :
    MemInv (mem_seek w c offset whence).ctx := by
  obtain ⟨h1, h2⟩ := hinv
  unfold mem_seek MemInv
  split_ifs <;> constructor <;> simp only [] <;> omega

theorem mem_read_frame (w : Nat) (c : SDL_RWops) (m : Memory) (size maxnum : Nat) :
    (mem_read w c m size maxnum).ctx
      = { c with here := (mem_read w c m size maxnum).ctx.here } := by
  unfold mem_read
  split_ifs <;> rfl

theorem mem_read_inv (w : Nat) (c : SDL_RWops) (m : Memory) (size maxnum : Nat)
    (hinv : MemInv c) : MemInv (mem_read w c m size maxnum).ctx := by
  obtain ⟨h1, h2⟩ := hinv
  have hav := ptrdiff_to_size_t_le w (c.stop - c.here) (by omega)
  unfold mem_read MemInv
  by_cases hr : mem_read_rejects w size maxnum
  · simp only [hr, if_true]
    exact ⟨h1, h2⟩
  · simp only [hr, if_false]
    by_cases hc : maxnum * size % 2 ^ w > ptrdiff_to_size_t w (c.stop - c.here)
    · simp only [hc, if_true]
      constructor <;> omega
    · simp only [hc, if_false]
      constructor <;> omega

theorem mem_write_frame (w : Nat) (c : SDL_RWops) (m : Memory) (ptr : Nat → Nat)
    (size num : Nat) :
    (mem_write w c m ptr size num).ctx
      = { c with here := (mem_write w c m ptr size num).ctx.here } := by
  rfl

/-- On a range of machine addresses `mem_write` keeps `base ≤ here ≤ stop`
when its pointer sum `here + (num * size)` does not wrap. -/
theorem mem_write_inv_no_wrap (w : Nat) (c : SDL_RWops) (m : Memory) (ptr : Nat → Nat)
    (size num : Nat) (hinv : MemInv c) (h0 : 0 ≤ c.base) (hs : c.stop < 2 ^ w)
    (hnw : c.here + (((num * size) % 2 ^ w : Nat) : Int) < 2 ^ w) :
    MemInv (mem_write w c m ptr size num).ctx := by
  obtain ⟨h1, h2⟩ := hinv
  have hav := ptrdiff_to_size_t_le w (c.stop - c.here) (by omega)
  have e1 : wrapPtr w (c.here + (((num * size) % 2 ^ w : Nat) : Int))
      = c.here + (((num * size) % 2 ^ w : Nat) : Int) :=
    wrapPtr_eq w _ (by omega) hnw
  unfold mem_write MemInv
  simp only [e1]
  split_ifs with hc
  · have hle : ptrdiff_to_size_t w (c.stop - c.here) / size * size
        ≤ ptrdiff_to_size_t w (c.stop - c.here) := Nat.div_mul_le_self _ _
    have hmod : (ptrdiff_to_size_t w (c.stop - c.here) / size * size) % 2 ^ w
        ≤ ptrdiff_to_size_t w (c.stop - c.here) / size * size := Nat.mod_le _ _
    have e2 : wrapPtr w (c.here
        + (((ptrdiff_to_size_t w (c.stop - c.here) / size * size) % 2 ^ w : Nat) : Int))
        = c.here
          + (((ptrdiff_to_size_t w (c.stop - c.here) / size * size) % 2 ^ w : Nat) : Int) :=
      wrapPtr_eq w _ (by omega) (by omega)
    rw [e2]
    constructor <;> omega
  · constructor <;> omega

/-- Where the invariant is kept: `mem_seek`, `mem_read` and
`mem_writeconst` with arbitrary arguments keep `base ≤ here ≤ stop`, so does
`mem_write` on a range of machine addresses when its pointer sum
`here + (num * size)` does not wrap, and none of the four operations changes
`base` or `stop`. -/
theorem mem_ops_preserve_invariant_no_wrap (w : Nat) (c : SDL_RWops) (m : Memory)
    (ptr : Nat → Nat) (offset whence : Int) (size num : Nat) (hinv : MemInv c) :
    (MemInv (mem_seek w c offset whence).ctx ∧
      (mem_seek w c offset whence).ctx.base = c.base ∧
      (mem_seek w c offset whence).ctx.stop = c.stop) ∧
    (MemInv (mem_read w c m size num).ctx ∧
      (mem_read w c m size num).ctx.base = c.base ∧
      (mem_read w c m size num).ctx.stop = c.stop) ∧
    ((0 ≤ c.base → c.stop < 2 ^ w →
        c.here + (((num * size) % 2 ^ w : Nat) : Int) < 2 ^ w →
        MemInv (mem_write w c m ptr size num).ctx) ∧
      (mem_write w c m ptr size num).ctx.base = c.base ∧
      (mem_write w c m ptr size num).ctx.stop = c.stop) ∧
    (MemInv (mem_writeconst w c m ptr size num).ctx ∧
      (mem_writeconst w c m ptr size num).ctx.base = c.base ∧
      (mem_writeconst w c m ptr size num).ctx.stop = c.stop) := by
  refine ⟨⟨mem_seek_inv w c offset whence hinv, ?_, ?_⟩,
    ⟨mem_read_inv w c m size num hinv, ?_, ?_⟩,
    ⟨fun h0 hs hnw => mem_write_inv_no_wrap w c m ptr size num hinv h0 hs hnw, rfl, rfl⟩,
    ⟨hinv, rfl, rfl⟩⟩
  · rw [mem_seek_frame]
  · rw [mem_seek_frame]
  · rw [mem_read_frame]
  · rw [mem_read_frame]

/-- Claim C8 at a failing input.  On a 64-bit machine, the eight-byte stream at
address 4096 satisfies `base ≤ here ≤ stop` at position 0.  A write of
`2 ^ 64 - 1` elements of one byte has the pointer sum `here + (num * size)`
wrap to address 4095, which is not above `stop`: `mem_write` does not cut the
count down, returns `2 ^ 64 - 1`, and leaves `here` at `base - 1`, so that
`base ≤ here ≤ stop` no longer holds after the call, although `base` and `stop`
are as before. -/
theorem mem_write_wrapped_pointer :
    MemInv rw8 ∧
    (mem_write 64 rw8 zeroMemory (fun _ => 255) 1 (2 ^ 64 - 1)).ret = 2 ^ 64 - 1 ∧
    (mem_write 64 rw8 zeroMemory (fun _ => 255) 1 (2 ^ 64 - 1)).ctx.here = rw8.base - 1 ∧
    (mem_write 64 rw8 zeroMemory (fun _ => 255) 1 (2 ^ 64 - 1)).ctx.base = rw8.base ∧
    (mem_write 64 rw8 zeroMemory (fun _ => 255) 1 (2 ^ 64 - 1)).ctx.stop = rw8.stop ∧
    ¬ MemInv (mem_write 64 rw8 zeroMemory (fun _ => 255) 1 (2 ^ 64 - 1)).ctx := by
  decide

/-! ## Element counts of `mem_write` and `mem_read` -/

/-- `mem_write` on a request that fits the range and the machine word, on a
range of machine addresses. -/
theorem mem_write_fits (w : Nat) (c : SDL_RWops) (m : Memory) (ptr : Nat → Nat)
    (size num : Nat) (hlt : num * size < 2 ^ w) (h0 : 0 ≤ c.here) (hs : c.stop < 2 ^ w)
    (hfit : c.here + ((num * size : Nat) : Int) ≤ c.stop) :
    (mem_write w c m ptr size num).ret = num ∧
    (mem_write w c m ptr size num).ctx = { c with here := c.here + ((num * size : Nat) : Int) } ∧
    (mem_write w c m ptr size num).mem = SDL_memcpy m c.here ptr (num * size) ∧
    (mem_write w c m ptr size num).error = none := by
  have e1 : wrapPtr w (c.here + ((num * size : Nat) : Int))
      = c.here + ((num * size : Nat) : Int) :=
    wrapPtr_eq w _ (by omega) (by omega)
  have hc : ¬ (c.here + ((num * size : Nat) : Int) > c.stop) := by omega
  simp only [mem_write, Nat.mod_eq_of_lt hlt, e1, hc, if_false, and_self]

/-- `mem_write` on a request that fits the machine word but not the range, on a
range of machine addresses and with a pointer sum that does not wrap: the count
is cut down to the whole elements that fit. -/
theorem mem_write_truncates (w : Nat) (c : SDL_RWops) (m : Memory) (ptr : Nat → Nat)
    (size num : Nat) (hinv : c.here ≤ c.stop) (h0 : 0 ≤ c.here) (hs : c.stop < 2 ^ w)
    (hlt : num * size < 2 ^ w)
    (hnw : c.here + ((num * size : Nat) : Int) < 2 ^ w)
    (hover : c.stop < c.here + ((num * size : Nat) : Int)) :
    (mem_write w c m ptr size num).ret = (c.stop - c.here).toNat / size ∧
    (mem_write w c m ptr size num).ctx
      = { c with here := c.here + (((c.stop - c.here).toNat / size * size : Nat) : Int) } ∧
    (mem_write w c m ptr size num).mem
      = SDL_memcpy m c.here ptr ((c.stop - c.here).toNat / size * size) := by
  have hav : c.stop - c.here < 2 ^ w := by omega
  have e1 : wrapPtr w (c.here + ((num * size : Nat) : Int))
      = c.here + ((num * size : Nat) : Int) :=
    wrapPtr_eq w _ (by omega) hnw
  have hc : c.here + ((num * size : Nat) : Int) > c.stop := by omega
  have hd : ptrdiff_to_size_t w (c.stop - c.here) = (c.stop - c.here).toNat := by
    have := ptrdiff_to_size_t_eq w (c.stop - c.here) (by omega) hav
    omega
  have hle : (c.stop - c.here).toNat / size * size ≤ (c.stop - c.here).toNat :=
    Nat.div_mul_le_self _ _
  have hsmall : (c.stop - c.here).toNat / size * size < 2 ^ w := by
    have h2 : ((c.stop - c.here).toNat : Int) < 2 ^ w := by
      rw [Int.toNat_of_nonneg (by omega)]
      exact hav
    have h3 : (c.stop - c.here).toNat < 2 ^ w := by exact_mod_cast h2
    omega
  have e2 : wrapPtr w (c.here + (((c.stop - c.here).toNat / size * size : Nat) : Int))
      = c.here + (((c.stop - c.here).toNat / size * size : Nat) : Int) :=
    wrapPtr_eq w _ (by omega) (by omega)
  simp only [mem_write, Nat.mod_eq_of_lt hlt, e1, hc, if_true, hd, Nat.mod_eq_of_lt hsmall,
    e2, and_self]

/-- Claim C4 at a failing input.  On a 64-bit machine, a write of `2 ^ 32`
elements of `2 ^ 32` bytes to an eight-byte stream has a product that wraps to
zero: `mem_write` stores nothing and does not move, yet returns `2 ^ 32`
instead of the 0 whole elements that fit, so that the returned count times the
element size exceeds the eight bytes that were available. -/
theorem mem_write_wrapped_product :
    (mem_write 64 rw8 zeroMemory (fun _ => 255) (2 ^ 32) (2 ^ 32)).ret = 2 ^ 32 ∧
    (mem_write 64 rw8 zeroMemory (fun _ => 255) (2 ^ 32) (2 ^ 32)).ctx = rw8 ∧
    (∀ a, (mem_write 64 rw8 zeroMemory (fun _ => 255) (2 ^ 32) (2 ^ 32)).mem a = 0) ∧
    ¬ ((((mem_write 64 rw8 zeroMemory (fun _ => 255) (2 ^ 32) (2 ^ 32)).ret * 2 ^ 32 : Nat) : Int)
        ≤ rw8.stop - rw8.here) ∧
    (mem_write 64 rw8 zeroMemory (fun _ => 255) (2 ^ 32) (2 ^ 32)).ret
      ≠ (rw8.stop - rw8.here).toNat / 2 ^ 32 := by
  refine ⟨by decide, by decide, ?_, by decide, by decide⟩
  intro a
  have hz : (2 ^ 32 * 2 ^ 32) % 2 ^ 64 = 0 := by norm_num
  have hw : wrapPtr 64 4096 = 4096 := by decide
  simp [mem_write, rw8, SDL_memcpy, zeroMemory, hz, hw]

theorem length_loadBytes (m : Memory) (p : Int) (n : Nat) :
    (loadBytes m p n).length = n := by
  simp [loadBytes]

theorem getElem?_loadBytes (m : Memory) (p : Int) (n i : Nat) (hi : i < n) :
    (loadBytes m p n)[i]? = some (m (p + i)) := by
  simp [loadBytes, List.getElem?_map, List.getElem?_range hi]

/-- `mem_read` on a call the guard accepts, with the range shorter than the
machine word: the byte count is the request clamped to what is available. -/
theorem mem_read_accepted (w : Nat) (c : SDL_RWops) (m : Memory) (size maxnum : Nat)
    (hinv : c.here ≤ c.stop) (hav : c.stop - c.here < 2 ^ w)
    (hr : ¬ mem_read_rejects w size maxnum) :
    mem_read w c m size maxnum =
      { ret := min (maxnum * size) (c.stop - c.here).toNat / size,
        out := loadBytes m c.here (min (maxnum * size) (c.stop - c.here).toNat),
        ctx := { c with here := c.here
                  + ((min (maxnum * size) (c.stop - c.here).toNat : Nat) : Int) } } := by
  have hd : ptrdiff_to_size_t w (c.stop - c.here) = (c.stop - c.here).toNat := by
    have := ptrdiff_to_size_t_eq w (c.stop - c.here) (by omega) hav
    omega
  have hfit : maxnum * size < 2 ^ w := by
    have := (mem_read_rejects_iff w size maxnum).not.1 hr
    omega
  simp only [mem_read, hr, if_false, hd, Nat.mod_eq_of_lt hfit]
  by_cases hc : maxnum * size > (c.stop - c.here).toNat
  · simp only [hc, if_true, min_eq_right (le_of_lt hc)]
  · simp only [hc, if_false, min_eq_left (not_lt.mp hc)]

/-- Claim C5.  For a read with element size `s > 0` and count `c > 0` whose
product fits the machine word, `mem_read` returns
`min (c * s) (stop - here) / s`, which is at most `c`, and the bytes delivered
are the bytes of the store starting at the old current position. -/
theorem mem_read_count (w : Nat) (c : SDL_RWops) (m : Memory) (size maxnum : Nat)
    (hinv : c.here ≤ c.stop) (hav : c.stop - c.here < 2 ^ w)
    (hs : 0 < size) (hm : 0 < maxnum) (hfit : maxnum * size < 2 ^ w) :
    (mem_read w c m size maxnum).ret
      = min (maxnum * size) (c.stop - c.here).toNat / size ∧
    (mem_read w c m size maxnum).ret ≤ maxnum ∧
    (mem_read w c m size maxnum).out.length
      = min (maxnum * size) (c.stop - c.here).toNat ∧
    (∀ i, i < (mem_read w c m size maxnum).out.length →
      (mem_read w c m size maxnum).out[i]? = some (m (c.here + i))) := by
  have hr : ¬ mem_read_rejects w size maxnum := by
    rw [mem_read_rejects_iff]
    omega
  rw [mem_read_accepted w c m size maxnum hinv hav hr]
  refine ⟨rfl, ?_, ?_, ?_⟩
  · show min (maxnum * size) (c.stop - c.here).toNat / size ≤ maxnum
    calc min (maxnum * size) (c.stop - c.here).toNat / size
        ≤ maxnum * size / size := Nat.div_le_div_right (min_le_left _ _)
      _ = maxnum := Nat.mul_div_cancel maxnum hs
  · simp [length_loadBytes]
  · intro i hi
    simp only [length_loadBytes] at hi
    exact getElem?_loadBytes m c.here _ i hi

/-- Witness of `mem_read_count`: a read of two four-byte elements with five
bytes remaining returns one element. -/
theorem mem_read_count_witness :
    (mem_read 64 rw8at3 rampMemory 4 2).ret = min (2 * 4) (rw8at3.stop - rw8at3.here).toNat / 4 ∧
    (mem_read 64 rw8at3 rampMemory 4 2).ret ≤ 2 ∧
    (mem_read 64 rw8at3 rampMemory 4 2).out.length
      = min (2 * 4) (rw8at3.stop - rw8at3.here).toNat ∧
    (∀ i, i < (mem_read 64 rw8at3 rampMemory 4 2).out.length →
      (mem_read 64 rw8at3 rampMemory 4 2).out[i]? = some (rampMemory (rw8at3.here + i))) :=
  mem_read_count 64 rw8at3 rampMemory 4 2 (by decide) (by decide) (by decide) (by decide)
    (by decide)

/-! ## Whole elements -/

/-- Claim C6 fails as stated.  With five bytes remaining, element size 4 and
count 2, `mem_read` copies five bytes and advances by five, and returns 1:
neither the bytes copied nor the advance equal the returned count times 4. -/
theorem mem_read_incomplete_element :
    (mem_read 64 rw8at3 rampMemory 4 2).ret = 1 ∧
    (mem_read 64 rw8at3 rampMemory 4 2).out = [3, 4, 5, 6, 7] ∧
    (mem_read 64 rw8at3 rampMemory 4 2).ctx.here - rw8at3.here = 5 ∧
    (mem_read 64 rw8at3 rampMemory 4 2).out.length
      ≠ (mem_read 64 rw8at3 rampMemory 4 2).ret * 4 ∧
    (mem_read 64 rw8at3 rampMemory 4 2).ctx.here - rw8at3.here
      ≠ (((mem_read 64 rw8at3 rampMemory 4 2).ret * 4 : Nat) : Int) := by
  decide

/-- Claim C6 as amended.  On a stream with `here ≤ stop` whose remaining range
is shorter than the machine word, the number of bytes `mem_read` copies and the
amount by which it advances are the same number: 0 when the guard rejects the
call and `min (c * s) (stop - here)` otherwise.  The returned count is that
number divided by `s`, so the returned count times `s` is at most the bytes
copied and, for `s > 0`, misses them by less than `s`; the two are equal when
the byte count is a multiple of `s`. -/
theorem mem_read_bytes_copied (w : Nat) (c : SDL_RWops) (m : Memory) (size maxnum : Nat)
    (hinv : c.here ≤ c.stop) (hav : c.stop - c.here < 2 ^ w) :
    (mem_read w c m size maxnum).ctx.here - c.here
      = ((mem_read w c m size maxnum).out.length : Int) ∧
    (mem_read w c m size maxnum).out.length
      = (if mem_read_rejects w size maxnum then 0
         else min (maxnum * size) (c.stop - c.here).toNat) ∧
    (mem_read w c m size maxnum).ret = (mem_read w c m size maxnum).out.length / size ∧
    (mem_read w c m size maxnum).ret * size ≤ (mem_read w c m size maxnum).out.length ∧
    (0 < size → (mem_read w c m size maxnum).out.length
      < (mem_read w c m size maxnum).ret * size + size) ∧
    ((mem_read w c m size maxnum).out.length % size = 0 →
      (mem_read w c m size maxnum).out.length = (mem_read w c m size maxnum).ret * size) := by
  by_cases hr : mem_read_rejects w size maxnum
  · simp [mem_read, hr]
  · rw [mem_read_accepted w c m size maxnum hinv hav hr]
    simp only [length_loadBytes, hr, if_false]
    generalize min (maxnum * size) (c.stop - c.here).toNat = N
    have hdm := Nat.div_add_mod N size
    have hcomm : N / size * size = size * (N / size) := Nat.mul_comm _ _
    refine ⟨by omega, trivial, trivial, Nat.div_mul_le_self _ _, ?_, ?_⟩
    · intro hs
      have := Nat.mod_lt N hs
      omega
    · intro h0
      omega

/-- Witness of `mem_read_bytes_copied`: five bytes remaining, element size 4,
count 2. -/
theorem mem_read_bytes_copied_witness :
    (mem_read 64 rw8at3 rampMemory 4 2).ctx.here - rw8at3.here
      = ((mem_read 64 rw8at3 rampMemory 4 2).out.length : Int) ∧
    (mem_read 64 rw8at3 rampMemory 4 2).out.length = 5 ∧
    (mem_read 64 rw8at3 rampMemory 4 2).ret = 1 :=
  ⟨(mem_read_bytes_copied 64 rw8at3 rampMemory 4 2 (by decide) (by decide)).1,
   (mem_read_bytes_copied 64 rw8at3 rampMemory 4 2 (by decide) (by decide)).2.1,
   by decide⟩

/-! ## The reported extent -/

theorem stepOp_frame (w : Nat) (s : SDL_RWops × Memory) (op : MemOp) :
    (stepOp w s op).1 = { s.1 with here := (stepOp w s op).1.here } := by
  obtain ⟨c, m⟩ := s
  cases op with
  | seek offset whence =>
    simp only [stepOp, SDL_RWseek]
    exact mem_seek_frame w c offset whence
  | read size maxnum =>
    simp only [stepOp, SDL_RWread]
    exact mem_read_frame w c m size maxnum
  | write ptr size num =>
    obtain ⟨sz, sk, rd, wr, cl, ty, b, h, st⟩ := c
    cases wr <;> rfl

theorem runOps_frame (w : Nat) (ops : List MemOp) (s : SDL_RWops × Memory) :
    (runOps w ops s).1 = { s.1 with here := (runOps w ops s).1.here } := by
  induction ops generalizing s with
  | nil => rfl
  | cons op ops ih =>
    have h1 := ih (stepOp w s op)
    have h2 := stepOp_frame w s op
    simp only [runOps, List.foldl_cons] at h1 ⊢
    rw [h1, h2]

/-- Claim C9.  For a memory stream built by `SDL_RWFromMem` or
`SDL_RWFromConstMem` over a range of length `n`, `size()` is `n` after any
sequence of seek, read and write calls with arbitrary arguments. -/
theorem mem_size_constant (w : Nat) (p n : Int) (area : Option SDL_RWops) (h : SDL_RWops)
    (m : Memory) (ops : List MemOp)
    (hh : (SDL_RWFromMem p n area).rwops = some h ∨
          (SDL_RWFromConstMem p n area).rwops = some h) :
    SDL_RWsize h = n ∧ SDL_RWsize (runOps w ops (h, m)).1 = n := by
  have hfr := runOps_frame w ops (h, m)
  have h0 : SDL_RWsize h = n := by
    rcases hh with hh | hh
    · obtain ⟨-, -, -, rfl⟩ := SDL_RWFromMem_some p n area h hh
      simp [SDL_RWsize, mem_size, memHandle]
    · obtain ⟨-, -, -, rfl⟩ := SDL_RWFromConstMem_some p n area h hh
      simp [SDL_RWsize, mem_size, constMemHandle]
  refine ⟨h0, ?_⟩
  rw [hfr]
  rw [← h0]
  simp only [SDL_RWsize, mem_size]

/-- Witness of `mem_size_constant`: on the eight-byte stream, a write of
twelve bytes, a seek past the end, a read and a further write leave `size()`
at 8. -/
theorem mem_size_constant_witness :
    ((SDL_RWFromMem 4096 8 (some rawArea)).rwops = some rw8 ∨
      (SDL_RWFromConstMem 4096 8 (some rawArea)).rwops = some rw8) ∧
    SDL_RWsize rw8 = 8 ∧
    SDL_RWsize (runOps 64
      [.write (fun _ => 7) 1 12, .seek 100 RW_SEEK_END, .read 4 2, .write (fun _ => 9) 3 1]
      (rw8, zeroMemory)).1 = 8 :=
  ⟨Or.inl (by decide),
   mem_size_constant 64 4096 8 (some rawArea) rw8 zeroMemory
     [.write (fun _ => 7) 1 12, .seek 100 RW_SEEK_END, .read 4 2, .write (fun _ => 9) 3 1]
     (Or.inl (by decide))⟩

/-! ## Handles built by the memory factories -/

/-- Claim C10 at a failing input.  For a non-null range and the nonzero length
`-1`, with the allocation succeeding, `SDL_RWFromMem` and `SDL_RWFromConstMem`
return a handle of the right type and write slot at position 0, but its `stop`
lies below `base`: `base ≤ here ≤ stop` does not hold, `size()` is `-1`, and on
a 64-bit machine a read of four bytes through the handle returns four bytes
from beyond the range. -/
theorem SDL_RWFromMem_negative_length :
    ((SDL_RWFromMem 4096 (-1) (some rawArea)).rwops = some (memHandle 4096 (-1)) ∧
      (memHandle 4096 (-1)).type = .SDL_RWOPS_MEMORY ∧
      (memHandle 4096 (-1)).write = .mem_write ∧
      (memHandle 4096 (-1)).here - (memHandle 4096 (-1)).base = 0 ∧
      (memHandle 4096 (-1)).stop < (memHandle 4096 (-1)).base ∧
      ¬ MemInv (memHandle 4096 (-1)) ∧
      SDL_RWsize (memHandle 4096 (-1)) = -1 ∧
      (SDL_RWread 64 (memHandle 4096 (-1)) rampMemory 1 4).ret = 4 ∧
      (SDL_RWread 64 (memHandle 4096 (-1)) rampMemory 1 4).out = [0, 1, 2, 3]) ∧
    ((SDL_RWFromConstMem 4096 (-1) (some rawArea)).rwops
        = some (constMemHandle 4096 (-1)) ∧
      (constMemHandle 4096 (-1)).type = .SDL_RWOPS_MEMORY_RO ∧
      (constMemHandle 4096 (-1)).write = .mem_writeconst ∧
      (constMemHandle 4096 (-1)).here - (constMemHandle 4096 (-1)).base = 0 ∧
      (constMemHandle 4096 (-1)).stop < (constMemHandle 4096 (-1)).base ∧
      ¬ MemInv (constMemHandle 4096 (-1)) ∧
      SDL_RWsize (constMemHandle 4096 (-1)) = -1 ∧
      (SDL_RWread 64 (constMemHandle 4096 (-1)) rampMemory 1 4).ret = 4 ∧
      (SDL_RWread 64 (constMemHandle 4096 (-1)) rampMemory 1 4).out = [0, 1, 2, 3]) := by
  decide

/-- For a non-null range and a positive length, when the allocation succeeds,
`SDL_RWFromMem` resp. `SDL_RWFromConstMem` returns a handle of type memory
resp. read-only memory, whose write slot is `mem_write` resp. `mem_writeconst`,
whose position is 0, whose `size()` is the given length, and which satisfies
`base ≤ here ≤ stop`. -/
theorem SDL_RWFromMem_positive_length (p n : Int) (a : SDL_RWops) (hp : p ≠ 0)
    (hn : 0 < n) :
    (∃ h, (SDL_RWFromMem p n (some a)).rwops = some h ∧
      h.type = .SDL_RWOPS_MEMORY ∧ h.type ≠ .SDL_RWOPS_UNKNOWN ∧ h.write = .mem_write ∧
      h.here - h.base = 0 ∧ SDL_RWsize h = n ∧ MemInv h) ∧
    (∃ h, (SDL_RWFromConstMem p n (some a)).rwops = some h ∧
      h.type = .SDL_RWOPS_MEMORY_RO ∧ h.type ≠ .SDL_RWOPS_UNKNOWN ∧
      h.write = .mem_writeconst ∧
      h.here - h.base = 0 ∧ SDL_RWsize h = n ∧ MemInv h) := by
  have hn0 : n ≠ 0 := by omega
  constructor
  · refine ⟨memHandle p n, ?_, rfl, by simp [memHandle], rfl, ?_, ?_, ?_⟩
    · rw [SDL_RWFromMem_ok p n a hp hn0]
    · simp [memHandle]
    · simp [SDL_RWsize, mem_size, memHandle]
    · simp only [MemInv, memHandle]
      omega
  · refine ⟨constMemHandle p n, ?_, rfl, by simp [constMemHandle], rfl, ?_, ?_, ?_⟩
    · rw [SDL_RWFromConstMem_ok p n a hp hn0]
    · simp [constMemHandle]
    · simp [SDL_RWsize, mem_size, constMemHandle]
    · simp only [MemInv, constMemHandle]
      omega

/-! ## Byte representations -/

theorem length_leBytes (k v : Nat) : (leBytes k v).length = k := by
  induction k generalizing v with
  | zero => rfl
  | succ k ih => simp [leBytes, ih]

theorem leBytes_lt (k v : Nat) : ∀ b ∈ leBytes k v, b < 256 := by
  induction k generalizing v with
  | zero => simp [leBytes]
  | succ k ih =>
    intro b hb
    simp only [leBytes, List.mem_cons] at hb
    rcases hb with rfl | hb
    · exact Nat.mod_lt _ (by norm_num)
    · exact ih _ b hb

theorem ofLeBytes_leBytes (k v : Nat) (h : v < 256 ^ k) : ofLeBytes (leBytes k v) = v := by
  induction k generalizing v with
  | zero =>
    simp at h
    simp [leBytes, ofLeBytes, h]
  | succ k ih =>
    have h2 : v / 256 < 256 ^ k := by
      rw [Nat.div_lt_iff_lt_mul (by norm_num)]
      rw [pow_succ] at h
      exact h
    simp only [leBytes, ofLeBytes, ih _ h2]
    omega

theorem ofLeBytes_lt (bs : List Nat) (h : ∀ b ∈ bs, b < 256) :
    ofLeBytes bs < 256 ^ bs.length := by
  induction bs with
  | nil => simp [ofLeBytes]
  | cons b bs ih =>
    have hb : b < 256 := h b (List.mem_cons_self _ _)
    have ih2 := ih (fun x hx => h x (List.mem_cons_of_mem _ hx))
    simp only [ofLeBytes, List.length_cons, pow_succ]
    omega

theorem leBytes_ofLeBytes (bs : List Nat) (h : ∀ b ∈ bs, b < 256) :
    leBytes bs.length (ofLeBytes bs) = bs := by
  induction bs with
  | nil => rfl
  | cons b bs ih =>
    have hb : b < 256 := h b (List.mem_cons_self _ _)
    have ih2 := ih (fun x hx => h x (List.mem_cons_of_mem _ hx))
    simp only [ofLeBytes, List.length_cons, leBytes]
    have h1 : (b + 256 * ofLeBytes bs) % 256 = b := by omega
    have h2 : (b + 256 * ofLeBytes bs) / 256 = ofLeBytes bs := by omega
    rw [h1, h2, ih2]

theorem SDL_Swap_lt (k v : Nat) : SDL_Swap k v < 256 ^ k := by
  have h := ofLeBytes_lt (leBytes k v).reverse
    (fun b hb => leBytes_lt k v b (List.mem_reverse.1 hb))
  simpa [SDL_Swap, length_leBytes] using h

theorem SDL_Swap_Swap (k v : Nat) (h : v < 256 ^ k) : SDL_Swap k (SDL_Swap k v) = v := by
  have h1 := leBytes_ofLeBytes (leBytes k v).reverse
    (fun b hb => leBytes_lt k v b (List.mem_reverse.1 hb))
  simp only [List.length_reverse, length_leBytes] at h1
  unfold SDL_Swap
  rw [h1, List.reverse_reverse, ofLeBytes_leBytes k v h]

theorem map_getD_range (l : List Nat) :
    (List.range l.length).map (fun i => l.getD i 0) = l := by
  apply List.ext_getElem
  · simp
  · intro i h1 h2
    simp [List.getD_eq_getElem?_getD, List.getElem?_eq_getElem h2]

theorem length_objectBytes (big : Bool) (k v : Nat) : (objectBytes big k v).length = k := by
  cases big <;> simp [objectBytes, length_leBytes]

theorem objectValue_objectBytes (big : Bool) (k v : Nat) (h : v < 256 ^ k) :
    objectValue big (objectBytes big k v) = v := by
  cases big <;> simp [objectBytes, objectValue, ofLeBytes_leBytes k v h]

theorem SDL_SwapLE_lt (big : Bool) (k v : Nat) (h : v < 256 ^ k) :
    SDL_SwapLE big k v < 256 ^ k := by
  cases big
  · simpa [SDL_SwapLE] using h
  · simpa [SDL_SwapLE] using SDL_Swap_lt k v

theorem SDL_SwapBE_lt (big : Bool) (k v : Nat) (h : v < 256 ^ k) :
    SDL_SwapBE big k v < 256 ^ k := by
  cases big
  · simpa [SDL_SwapBE] using SDL_Swap_lt k v
  · simpa [SDL_SwapBE] using h

theorem SDL_SwapLE_SwapLE (big : Bool) (k v : Nat) (h : v < 256 ^ k) :
    SDL_SwapLE big k (SDL_SwapLE big k v) = v := by
  cases big
  · simp [SDL_SwapLE]
  · simpa [SDL_SwapLE] using SDL_Swap_Swap k v h

theorem SDL_SwapBE_SwapBE (big : Bool) (k v : Nat) (h : v < 256 ^ k) :
    SDL_SwapBE big k (SDL_SwapBE big k v) = v := by
  cases big
  · simpa [SDL_SwapBE] using SDL_Swap_Swap k v h
  · simp [SDL_SwapBE]

theorem loadBytes_memcpy (m : Memory) (p : Int) (src : Nat → Nat) (n : Nat) :
    loadBytes (SDL_memcpy m p src n) p n = (List.range n).map src := by
  unfold loadBytes
  apply List.map_congr_left
  intro i hi
  have hi2 : i < n := List.mem_range.1 hi
  have hc : p ≤ p + (i : Int) ∧ p + (i : Int) < p + (n : Int) := by omega
  have he : (p + (i : Int) - p).toNat = i := by
    have : p + (i : Int) - p = (i : Int) := by omega
    rw [this]
    exact Int.toNat_ofNat i
  simp only [SDL_memcpy, hc, and_self, if_true, he]

/-! ## Scalar round trip -/

/-- Writing a `k`-byte scalar object to a read-write memory stream with room
for it, seeking back, and reading a `k`-byte object gives the object back. -/
theorem writeObject_readObject (big : Bool) (w k : Nat) (hk : 0 < k) (hkw : k < 2 ^ w)
    (dst : SDL_RWops) (m : Memory) (x : Nat) (hx : x < 256 ^ k)
    (hwr : dst.write = .mem_write) (h0 : 0 ≤ dst.base) (hbase : dst.base ≤ dst.here)
    (hfit : dst.here + (k : Int) ≤ dst.stop) (hs : dst.stop < 2 ^ w) :
    (writeObject big w k dst m x).ret = 1 ∧
    (SDL_RWseek w (writeObject big w k dst m x).ctx (dst.here - dst.base) RW_SEEK_SET).ret
      = dst.here - dst.base ∧
    (SDL_RWseek w (writeObject big w k dst m x).ctx (dst.here - dst.base) RW_SEEK_SET).ctx
      = dst ∧
    (readObject big w k dst (writeObject big w k dst m x).mem).1 = x := by
  obtain ⟨sz, sk, rd, wr, cl, ty, b, h, st⟩ := dst
  simp only at hwr h0 hbase hfit hs
  subst hwr
  cases sk
  cases rd
  have hav : st - h < 2 ^ w := by omega
  have h1k : 1 * k < 2 ^ w := by omega
  have hfit1 : h + ((1 * k : Nat) : Int) ≤ st := by
    rw [Nat.one_mul]
    exact hfit
  have hseek : wrapPtr w (b + (h - b)) = h := by
    have hb : b + (h - b) = h := by omega
    rw [hb]
    exact wrapPtr_eq w h (by omega) (by omega)
  obtain ⟨hret, hctx, hmem, -⟩ :=
    mem_write_fits w ⟨sz, .mem_seek, .mem_read, .mem_write, cl, ty, b, h, st⟩ m
      (fun i => (objectBytes big k x).getD i 0) k 1 h1k (by simp only; omega) hs hfit1
  simp only [Nat.one_mul] at hret hctx hmem
  have hrej : ¬ mem_read_rejects w k 1 := by
    rw [mem_read_rejects_iff]
    omega
  have hrd := mem_read_accepted w ⟨sz, .mem_seek, .mem_read, .mem_write, cl, ty, b, h, st⟩
    (SDL_memcpy m h (fun i => (objectBytes big k x).getD i 0) k) k 1
    (by simp only; omega) hav hrej
  have hmin : min (1 * k) (st - h).toNat = k := by
    rw [Nat.one_mul]
    apply min_eq_left
    omega
  simp only [hmin] at hrd
  refine ⟨?_, ?_, ?_, ?_⟩
  · simpa [writeObject, SDL_RWwrite] using hret
  · simp only [writeObject, SDL_RWwrite, hctx, SDL_RWseek, mem_seek, RW_SEEK_SET, if_true,
      hseek]
    split_ifs <;> omega
  · simp only [writeObject, SDL_RWwrite, hctx, SDL_RWseek, mem_seek, RW_SEEK_SET, if_true,
      hseek]
    congr 1
    split_ifs <;> omega
  · simp only [writeObject, SDL_RWwrite, hmem, readObject, SDL_RWread, hrd, loadBytes_memcpy]
    have hl : (List.range k).map (fun i => (objectBytes big k x).getD i 0)
        = objectBytes big k x := by
      have := map_getD_range (objectBytes big k x)
      rwa [length_objectBytes] at this
    rw [hl]
    simp [length_objectBytes, objectValue_objectBytes big k x hx]

theorem roundTrips_of_involution (big : Bool) (w k : Nat) (hk : 0 < k) (hkw : k < 2 ^ w)
    (f : Nat → Nat) (hlt : ∀ v, v < 256 ^ k → f v < 256 ^ k)
    (hinv : ∀ v, v < 256 ^ k → f (f v) = v) :
    RoundTrips w k (fun dst m v => writeObject big w k dst m (f v))
      (fun src m => (f (readObject big w k src m).1, (readObject big w k src m).2)) := by
  intro dst m v hwr h0 hbase hfit hs hv
  have hv2 : v < 256 ^ k := by
    have h256 : (256 : Nat) = 2 ^ 8 := by norm_num
    rw [h256, ← pow_mul]
    exact hv
  obtain ⟨h1, h2, h3, h4⟩ :=
    writeObject_readObject big w k hk hkw dst m (f v) (hlt v hv2) hwr h0 hbase hfit hs
  refine ⟨h1, h2, ?_⟩
  simp only [h3, h4]
  exact hinv v hv2

/-- Claim C1.  On a machine with words of at least four bits and either host
byte order, each of the seven writer and reader pairs (8-bit, and
little-endian and big-endian 16-, 32- and 64-bit) round-trips on read-write
memory streams over a range of machine addresses: the write returns 1 and,
after seeking back to the old position, the matching read returns the value
written. -/
theorem scalar_round_trip (big : Bool) (w : Nat) (hw : 4 ≤ w) :
    RoundTrips w 1 (SDL_WriteU8 big w) (SDL_ReadU8 big w) ∧
    RoundTrips w 2 (SDL_WriteLE16 big w) (SDL_ReadLE16 big w) ∧
    RoundTrips w 2 (SDL_WriteBE16 big w) (SDL_ReadBE16 big w) ∧
    RoundTrips w 4 (SDL_WriteLE32 big w) (SDL_ReadLE32 big w) ∧
    RoundTrips w 4 (SDL_WriteBE32 big w) (SDL_ReadBE32 big w) ∧
    RoundTrips w 8 (SDL_WriteLE64 big w) (SDL_ReadLE64 big w) ∧
    RoundTrips w 8 (SDL_WriteBE64 big w) (SDL_ReadBE64 big w) := by
  have h16 : 2 ^ 4 ≤ 2 ^ w := Nat.pow_le_pow_right (by norm_num) hw
  have h1 : 1 < 2 ^ w := by omega
  have h2 : 2 < 2 ^ w := by omega
  have h4 : 4 < 2 ^ w := by omega
  have h8 : 8 < 2 ^ w := by omega
  refine ⟨?_, ?_, ?_, ?_, ?_, ?_, ?_⟩
  · exact roundTrips_of_involution big w 1 (by norm_num) h1 (fun v => v)
      (fun _ h => h) (fun _ _ => rfl)
  · exact roundTrips_of_involution big w 2 (by norm_num) h2 (SDL_SwapLE big 2)
      (SDL_SwapLE_lt big 2) (SDL_SwapLE_SwapLE big 2)
  · exact roundTrips_of_involution big w 2 (by norm_num) h2 (SDL_SwapBE big 2)
      (SDL_SwapBE_lt big 2) (SDL_SwapBE_SwapBE big 2)
  · exact roundTrips_of_involution big w 4 (by norm_num) h4 (SDL_SwapLE big 4)
      (SDL_SwapLE_lt big 4) (SDL_SwapLE_SwapLE big 4)
  · exact roundTrips_of_involution big w 4 (by norm_num) h4 (SDL_SwapBE big 4)
      (SDL_SwapBE_lt big 4) (SDL_SwapBE_SwapBE big 4)
  · exact roundTrips_of_involution big w 8 (by norm_num) h8 (SDL_SwapLE big 8)
      (SDL_SwapLE_lt big 8) (SDL_SwapLE_SwapLE big 8)
  · exact roundTrips_of_involution big w 8 (by norm_num) h8 (SDL_SwapBE big 8)
      (SDL_SwapBE_lt big 8) (SDL_SwapBE_SwapBE big 8)

/-- Witness of `scalar_round_trip`, the scenario of the specification on a
little-endian 64-bit host: over an eight-byte zeroed buffer, writing the
big-endian 32-bit value `0x01020304` at position 0 returns 1 and leaves
`size()` at 8; after a seek to 0 from the start, the big-endian 32-bit read
returns `0x01020304` and the little-endian 32-bit read that follows returns 0. -/
theorem scalar_round_trip_witness :
    ((SDL_WriteBE32 false 64 rw8 zeroMemory 0x01020304).ret = 1 ∧
      (SDL_RWseek 64 (SDL_WriteBE32 false 64 rw8 zeroMemory 0x01020304).ctx
        (rw8.here - rw8.base) RW_SEEK_SET).ret = rw8.here - rw8.base ∧
      (SDL_ReadBE32 false 64
        (SDL_RWseek 64 (SDL_WriteBE32 false 64 rw8 zeroMemory 0x01020304).ctx
          (rw8.here - rw8.base) RW_SEEK_SET).ctx
        (SDL_WriteBE32 false 64 rw8 zeroMemory 0x01020304).mem).1 = 0x01020304) ∧
    SDL_RWsize (SDL_WriteBE32 false 64 rw8 zeroMemory 0x01020304).ctx = 8 ∧
    (SDL_ReadLE32 false 64
      (SDL_ReadBE32 false 64
        (SDL_RWseek 64 (SDL_WriteBE32 false 64 rw8 zeroMemory 0x01020304).ctx 0
          RW_SEEK_SET).ctx
        (SDL_WriteBE32 false 64 rw8 zeroMemory 0x01020304).mem).2
      (SDL_WriteBE32 false 64 rw8 zeroMemory 0x01020304).mem).1 = 0 :=
  ⟨(scalar_round_trip false 64 (by decide)).2.2.2.2.1 rw8 zeroMemory 0x01020304
     rfl (by decide) (by decide) (by decide) (by decide) (by decide),
   by decide, by decide⟩

/-! ## Rejected arguments of the memory factories -/

/-- Claim C11.  `SDL_RWFromMem` and `SDL_RWFromConstMem` return null with an
invalid-parameter report, without calling `SDL_AllocRW`, exactly when the range
pointer is null or the length is zero; the report names `mem` for a null
pointer and `size` otherwise.  In every other case `SDL_AllocRW` is called and
a null result carries the out-of-memory report, not an invalid-parameter one. -/
theorem SDL_RWFromMem_rejects (p n : Int) (area : Option SDL_RWops) :
    (((SDL_RWFromMem p n area).rwops = none ∧
        ((SDL_RWFromMem p n area).error = some (SDL_InvalidParamError "mem") ∨
         (SDL_RWFromMem p n area).error = some (SDL_InvalidParamError "size")) ∧
        (SDL_RWFromMem p n area).allocated = false) ↔ (p = 0 ∨ n = 0)) ∧
    (((SDL_RWFromConstMem p n area).rwops = none ∧
        ((SDL_RWFromConstMem p n area).error = some (SDL_InvalidParamError "mem") ∨
         (SDL_RWFromConstMem p n area).error = some (SDL_InvalidParamError "size")) ∧
        (SDL_RWFromConstMem p n area).allocated = false) ↔ (p = 0 ∨ n = 0)) ∧
    ((SDL_RWFromMem p n area).allocated = false ↔ (p = 0 ∨ n = 0)) ∧
    ((SDL_RWFromConstMem p n area).allocated = false ↔ (p = 0 ∨ n = 0)) ∧
    ((SDL_RWFromMem p n area).rwops = none ↔ (p = 0 ∨ n = 0 ∨ area = none)) ∧
    ((SDL_RWFromConstMem p n area).rwops = none ↔ (p = 0 ∨ n = 0 ∨ area = none)) := by
  by_cases hp : p = 0
  · simp [SDL_RWFromMem, SDL_RWFromConstMem, hp]
  · by_cases hn : n = 0
    · simp [SDL_RWFromMem, SDL_RWFromConstMem, hp, hn]
    · cases area with
      | none => simp [SDL_RWFromMem, SDL_RWFromConstMem, hp, hn, SDL_AllocRW]
      | some a => simp [SDL_RWFromMem, SDL_RWFromConstMem, hp, hn, SDL_AllocRW]

/-! ## Reads of the buffered backend -/

theorem toInt32_small (n : Nat) (h : n < 2 ^ 31) : toInt32 n = (n : Int) := by
  unfold toInt32
  have h1 : n % 2 ^ 32 = n := Nat.mod_eq_of_lt (by omega)
  rw [h1, if_pos h]

theorem int_to_size_t_small (w n : Nat) (hw : 32 ≤ w) (h : n < 2 ^ 31) :
    int_to_size_t w (toInt32 n) = n := by
  rw [toInt32_small n h]
  unfold int_to_size_t
  have h32 : 2 ^ 32 ≤ 2 ^ w := Nat.pow_le_pow_right (by norm_num) hw
  have hlt : n < 2 ^ w := by omega
  have : ((n : Int) % (2 ^ w : Int)) = (n : Int) := by
    apply Int.emod_eq_of_lt (by omega)
    exact_mod_cast hlt
  rw [this]
  exact Int.toNat_ofNat n

theorem take_min_length (l : List Nat) (n : Nat) : l.take (min n l.length) = l.take n := by
  rcases Nat.le_total n l.length with h | h
  · rw [min_eq_left h]
  · rw [min_eq_right h, List.take_of_length_le h, List.take_of_length_le (le_refl _)]

theorem take_append_slice (l : List Nat) (n m : Nat) :
    l.take n ++ (l.drop (l.take n).length).take m = l.take (n + m) := by
  rcases Nat.le_total n l.length with h | h
  · rw [List.length_take, min_eq_left h, List.take_add]
  · rw [List.take_of_length_le h, List.drop_of_length_le (le_refl _),
      List.take_of_length_le (by omega : l.length ≤ n + m)]
    simp

theorem windows_file_read_native_small (w : Nat) (hw : 32 ≤ w) (c : WindowsIO) (f : WinFile)
    (size tn tr : Nat) (out : List Nat) (hr : f.canRead = true)
    (hsmall : tn < READAHEAD_BUFFER_SIZE) :
    windows_file_read_native w c f size tn tr out =
      { ret := (tr + min tn ((f.content.drop f.pos).take READAHEAD_BUFFER_SIZE).length) / size,
        out := out ++ ((f.content.drop f.pos).take READAHEAD_BUFFER_SIZE).take
                (min tn ((f.content.drop f.pos).take READAHEAD_BUFFER_SIZE).length),
        ctx := some
          { h := some { f with pos := f.pos
                          + ((f.content.drop f.pos).take READAHEAD_BUFFER_SIZE).length },
            append := c.append,
            data := (f.content.drop f.pos).take READAHEAD_BUFFER_SIZE
                      ++ c.data.drop ((f.content.drop f.pos).take READAHEAD_BUFFER_SIZE).length,
            size := ((f.content.drop f.pos).take READAHEAD_BUFFER_SIZE).length,
            left := ((f.content.drop f.pos).take READAHEAD_BUFFER_SIZE).length
                      - min tn ((f.content.drop f.pos).take READAHEAD_BUFFER_SIZE).length },
        error := none } := by
  have hbl : ((f.content.drop f.pos).take READAHEAD_BUFFER_SIZE).length < 2 ^ 31 := by
    rw [List.length_take]
    have : min READAHEAD_BUFFER_SIZE (f.content.drop f.pos).length ≤ 1024 := min_le_left _ _
    omega
  unfold windows_file_read_native
  simp only [hsmall, if_true, ReadFile, hr, int_to_size_t_small w _ hw hbl]

theorem windows_file_read_native_large (w : Nat) (c : WindowsIO) (f : WinFile)
    (size tn tr : Nat) (out : List Nat) (hr : f.canRead = true)
    (hlarge : ¬ tn < READAHEAD_BUFFER_SIZE) (htn : tn < 2 ^ 32) :
    windows_file_read_native w c f size tn tr out =
      { ret := (tr + ((f.content.drop f.pos).take tn).length) / size,
        out := out ++ (f.content.drop f.pos).take tn,
        ctx := some { c with h := some { f with pos := f.pos
                          + ((f.content.drop f.pos).take tn).length } },
        error := none } := by
  have hd : toDWORD tn = tn := Nat.mod_eq_of_lt htn
  unfold windows_file_read_native
  simp only [hlarge, if_false, ReadFile, hr, hd, if_true]

/-- The native part of a read, entered with an empty read-ahead remainder. -/
theorem windows_file_read_native_spec (w : Nat) (hw : 32 ≤ w) (c : WindowsIO) (f : WinFile)
    (size tn tr : Nat) (out : List Nat) (hr : f.canRead = true)
    (hl : c.left = 0) (htn : tn < 2 ^ 32) :
    (windows_file_read_native w c f size tn tr out).error = none ∧
    (windows_file_read_native w c f size tn tr out).out
      = out ++ (f.content.drop f.pos).take tn ∧
    (windows_file_read_native w c f size tn tr out).ret
      = (tr + ((f.content.drop f.pos).take tn).length) / size ∧
    ∃ c1 f1, (windows_file_read_native w c f size tn tr out).ctx = some c1 ∧
      c1.h = some f1 ∧ f1.content = f.content ∧ f1.canRead = f.canRead ∧
      f1.canWrite = f.canWrite ∧ c1.append = c.append ∧ BufInv c1 f1 ∧
      c1.size ≤ max c.size READAHEAD_BUFFER_SIZE ∧
      f1.pos - c1.left = f.pos + ((f.content.drop f.pos).take tn).length := by
  by_cases hsmall : tn < READAHEAD_BUFFER_SIZE
  · rw [windows_file_read_native_small w hw c f size tn tr out hr hsmall]
    generalize hB : (f.content.drop f.pos).take READAHEAD_BUFFER_SIZE = B
    have htake : B.take (min tn B.length) = (f.content.drop f.pos).take tn := by
      rw [take_min_length, ← hB, List.take_take, min_eq_left (le_of_lt hsmall)]
    have hlen : ((f.content.drop f.pos).take tn).length = min tn B.length := by
      rw [← htake, List.length_take]
      simp
    have hBlen : B.length = min READAHEAD_BUFFER_SIZE (f.content.length - f.pos) := by
      rw [← hB, List.length_take, List.length_drop]
    have hra : min tn B.length ≤ B.length := min_le_right _ _
    refine ⟨rfl, ?_, ?_, _, _, rfl, rfl, rfl, rfl, rfl, rfl, ?_, ?_, ?_⟩
    · show out ++ B.take (min tn B.length) = _
      rw [htake]
    · show (tr + min tn B.length) / size = _
      rw [hlen]
    · refine ⟨?_, ?_, ?_, ?_⟩
      · show B.length - min tn B.length ≤ B.length
        omega
      · show B.length - min tn B.length ≤ f.pos + B.length
        omega
      · show 0 < B.length - min tn B.length → f.pos + B.length ≤ f.content.length
        intro hpos
        have : B.length ≤ f.content.length - f.pos := by rw [hBlen]; exact min_le_right _ _
        omega
      · show ((B ++ c.data.drop B.length).drop (B.length - (B.length - min tn B.length))).take
            (B.length - min tn B.length)
          = (f.content.drop (f.pos + B.length - (B.length - min tn B.length))).take
            (B.length - min tn B.length)
        have e1 : B.length - (B.length - min tn B.length) = min tn B.length := by omega
        have e2 : f.pos + B.length - (B.length - min tn B.length) = f.pos + min tn B.length := by
          omega
        rw [e1, e2, List.drop_append_of_le_length hra,
          List.take_append_of_le_length (by rw [List.length_drop])]
        rw [List.take_of_length_le (by rw [List.length_drop])]
        have hBd : B.drop (min tn B.length)
            = (f.content.drop (f.pos + min tn B.length)).take
                (READAHEAD_BUFFER_SIZE - min tn B.length) := by
          rw [← hB, List.drop_take, List.drop_drop]
        rw [hBd, ← take_min_length _ (READAHEAD_BUFFER_SIZE - min tn B.length),
          ← take_min_length _ (B.length - min tn B.length)]
        congr 1
        rw [List.length_drop, hBlen]
        omega
    · show B.length ≤ max c.size READAHEAD_BUFFER_SIZE
      exact le_trans (by rw [hBlen]; exact min_le_left _ _) (le_max_right _ _)
    · show f.pos + B.length - (B.length - min tn B.length) = _
      rw [hlen]
      omega
  · rw [windows_file_read_native_large w c f size tn tr out hr hsmall htn]
    refine ⟨rfl, rfl, rfl, _, _, rfl, rfl, rfl, rfl, rfl, rfl, ?_, ?_, ?_⟩
    · refine ⟨?_, ?_, ?_, ?_⟩
      · show c.left ≤ c.size
        omega
      · show c.left ≤ _
        omega
      · show 0 < c.left → _
        intro h0
        omega
      · show (c.data.drop (c.size - c.left)).take c.left = _
        rw [hl]
        simp
    · exact le_max_left _ _
    · show f.pos + ((f.content.drop f.pos).take tn).length - c.left = _
      omega

/-- A read that does not fail delivers the bytes of the file from the logical
position on and re-establishes the read-ahead invariant. -/
theorem windows_file_read_spec (w : Nat) (hw : 32 ≤ w) (c : WindowsIO) (f : WinFile)
    (size maxnum : Nat) (hh : c.h = some f) (hr : f.canRead = true) (hinv : BufInv c f)
    (hT : (size * maxnum) % 2 ^ w < 2 ^ 32) :
    ReadPost c f ((size * maxnum) % 2 ^ w) (windows_file_read w (some c) size maxnum) ∧
    (size = 1 → maxnum < 2 ^ w → (windows_file_read w (some c) size maxnum).ret
      = (windows_file_read w (some c) size maxnum).out.length) := by
  obtain ⟨h1, h2, h3, h4⟩ := hinv
  generalize hTdef : (size * maxnum) % 2 ^ w = T at hT ⊢
  have hunf : windows_file_read w (some c) size maxnum =
      if T = 0 then { ret := 0, out := [], ctx := some c, error := none }
      else if c.left > 0 then
        if min T c.left = T then
          { ret := maxnum, out := (c.data.drop (c.size - c.left)).take (min T c.left),
            ctx := some { c with left := c.left - min T c.left }, error := none }
        else
          windows_file_read_native w { c with left := c.left - min T c.left } f size
            (T - min T c.left) (min T c.left)
            ((c.data.drop (c.size - c.left)).take (min T c.left))
      else windows_file_read_native w c f size T 0 [] := by
    unfold windows_file_read
    simp only [hh, hTdef]
  rw [hunf]
  by_cases hT0 : T = 0
  · simp only [hT0, if_true]
    refine ⟨⟨rfl, by simp, c, f, rfl, hh, rfl, rfl, rfl, rfl, ⟨h1, h2, h3, h4⟩,
      le_max_left _ _, by simp⟩, fun _ _ => by simp⟩
  · simp only [hT0, if_false]
    by_cases hleft : c.left > 0
    · simp only [hleft, if_true]
      have hpos : f.pos ≤ f.content.length := h3 hleft
      by_cases hall : min T c.left = T
      · simp only [hall, if_true]
        have hTl : T ≤ c.left := by
          rw [← hall]
          exact min_le_right _ _
        have hout : (c.data.drop (c.size - c.left)).take T
            = (f.content.drop (f.pos - c.left)).take T := by
          have e := congrArg (List.take T) h4
          rwa [List.take_take, List.take_take, min_eq_left hTl] at e
        have houtlen : ((f.content.drop (f.pos - c.left)).take T).length = T := by
          rw [List.length_take, List.length_drop]
          omega
        refine ⟨⟨rfl, hout, _, f, rfl, hh, rfl, rfl, rfl, rfl, ⟨?_, ?_, ?_, ?_⟩, ?_, ?_⟩, ?_⟩
        · show c.left - T ≤ c.size
          omega
        · show c.left - T ≤ f.pos
          omega
        · intro _
          exact hpos
        · show (c.data.drop (c.size - (c.left - T))).take (c.left - T)
            = (f.content.drop (f.pos - (c.left - T))).take (c.left - T)
          have e := congrArg (List.drop T) h4
          rw [List.drop_take, List.drop_take, List.drop_drop, List.drop_drop] at e
          have e1 : c.size - (c.left - T) = c.size - c.left + T := by omega
          have e2 : f.pos - (c.left - T) = f.pos - c.left + T := by omega
          rw [e1, e2]
          exact e
        · exact le_max_left _ _
        · show f.pos - (c.left - T) = f.pos - c.left + ((c.data.drop (c.size - c.left)).take T).length
          rw [hout, houtlen]
          omega
        · intro hs1 hmx
          show maxnum = ((c.data.drop (c.size - c.left)).take T).length
          rw [hout, houtlen, ← hTdef, hs1, Nat.one_mul, Nat.mod_eq_of_lt hmx]
      · simp only [hall, if_false]
        have hlT : c.left < T := by
          rcases Nat.lt_or_ge c.left T with h | h
          · exact h
          · exact absurd (min_eq_left h) hall
        have hmin : min T c.left = c.left := min_eq_right (le_of_lt hlT)
        rw [hmin]
        have hout1 : (c.data.drop (c.size - c.left)).take c.left
            = (f.content.drop (f.pos - c.left)).take c.left := h4
        have hlen1 : ((f.content.drop (f.pos - c.left)).take c.left).length = c.left := by
          rw [List.length_take, List.length_drop]
          omega
        obtain ⟨he, ho, hret, c1, f1, hctx, hc1, hcont, hcr, hcw, happ, hbi, hsz, hlog⟩ :=
          windows_file_read_native_spec w hw { c with left := c.left - c.left } f size
            (T - c.left) c.left ((c.data.drop (c.size - c.left)).take c.left) hr
            (by show c.left - c.left = 0; omega) (by omega)
        have hjoin : (c.data.drop (c.size - c.left)).take c.left
              ++ (f.content.drop f.pos).take (T - c.left)
            = (f.content.drop (f.pos - c.left)).take T := by
          rw [hout1]
          have e := take_append_slice (f.content.drop (f.pos - c.left)) c.left (T - c.left)
          rw [hlen1, List.drop_drop] at e
          have e1 : f.pos - c.left + c.left = f.pos := by omega
          have e2 : c.left + (T - c.left) = T := by omega
          rw [e1, e2] at e
          exact e
        refine ⟨⟨he, ?_, c1, f1, hctx, hc1, hcont, hcr, hcw, happ, hbi, hsz, ?_⟩, ?_⟩
        · rw [ho, hjoin]
        · rw [hlog, ho, List.length_append, hout1, hlen1]
          omega
        · intro hs1 _
          rw [hret, ho, List.length_append, hout1, hlen1, hs1, Nat.div_one]
    · simp only [hleft, if_false]
      have hl0 : c.left = 0 := by omega
      obtain ⟨he, ho, hret, c1, f1, hctx, hc1, hcont, hcr, hcw, happ, hbi, hsz, hlog⟩ :=
        windows_file_read_native_spec w hw c f size T 0 [] hr hl0 hT
      refine ⟨⟨he, ?_, c1, f1, hctx, hc1, hcont, hcr, hcw, happ, hbi, hsz, ?_⟩, ?_⟩
      · rw [ho, hl0]
        simp
      · rw [hlog, ho, hl0]
        simp
      · intro hs1 _
        rw [hret, ho, hs1]
        simp

theorem readSeq_spec (w : Nat) (hw : 32 ≤ w) (ns : List Nat) (c : WindowsIO) (f : WinFile)
    (hh : c.h = some f) (hr : f.canRead = true) (hinv : BufInv c f)
    (hsum : ns.sum < 2 ^ 32) :
    (readSeq w (some c) ns).out = (f.content.drop (f.pos - c.left)).take ns.sum ∧
    (readSeq w (some c) ns).count = (readSeq w (some c) ns).out.length := by
  have h32 : 2 ^ 32 ≤ 2 ^ w := Nat.pow_le_pow_right (by norm_num) hw
  induction ns generalizing c f with
  | nil => simp [readSeq]
  | cons n ns ih =>
    simp only [List.sum_cons] at hsum
    have hn : (1 * n) % 2 ^ w = n := by
      rw [Nat.one_mul]
      exact Nat.mod_eq_of_lt (by omega)
    obtain ⟨⟨-, hout, c1, f1, hctx, hc1, hcont, hcr, -, -, hbi, -, hlog⟩, hret⟩ :=
      windows_file_read_spec w hw c f 1 n hh hr hinv (by rw [hn]; omega)
    rw [hn] at hout
    obtain ⟨ih1, ih2⟩ := ih c1 f1 hc1 (by rw [hcr]; exact hr) hbi (by omega)
    simp only [readSeq, hctx, List.sum_cons]
    constructor
    · rw [ih1, hcont, hlog, hout]
      have e := take_append_slice (f.content.drop (f.pos - c.left)) n ns.sum
      rw [List.drop_drop] at e
      exact e
    · rw [List.length_append, ← ih2, hret rfl (by omega)]

/-! ## Buffered against single reads -/

/-- Claim C12 fails as stated.  With a 64-bit `size_t`, two byte reads of
`2 ^ 31` bytes from a three-byte file deliver its three bytes, while one read
of `2 ^ 31 + 2 ^ 31` bytes, whose count is cast to a `DWORD` and becomes 0,
delivers nothing. -/
theorem buffered_reads_dword_truncation :
    (readSeq 64 (some win3) [2 ^ 31, 2 ^ 31]).out = [7, 8, 9] ∧
    (readSeq 64 (some win3) [2 ^ 31, 2 ^ 31]).count = 3 ∧
    (windows_file_read 64 (some win3) 1 (2 ^ 31 + 2 ^ 31)).out = [] ∧
    (windows_file_read 64 (some win3) 1 (2 ^ 31 + 2 ^ 31)).ret = 0 ∧
    (readSeq 64 (some win3) [2 ^ 31, 2 ^ 31]).out
      ≠ (windows_file_read 64 (some win3) 1 ([2 ^ 31, 2 ^ 31] : List Nat).sum).out := by
  decide

/-- Claim C12 as amended.  On a machine with words of at least 32 bits, for a
readable file of any content, starting with an empty read-ahead buffer, byte
reads of sizes `n1 .. nk` whose sum is below `2 ^ 32` deliver, concatenated,
the same bytes and the same total count as one read of `n1 + .. + nk` bytes
from the same starting position: the bytes of the file from that position on,
up to the end of the file. -/
theorem buffered_reads_equivalent (w : Nat) (hw : 32 ≤ w) (c : WindowsIO) (f : WinFile)
    (ns : List Nat) (hh : c.h = some f) (hr : f.canRead = true) (hempty : c.left = 0)
    (hsum : ns.sum < 2 ^ 32) :
    (readSeq w (some c) ns).out = (windows_file_read w (some c) 1 ns.sum).out ∧
    (readSeq w (some c) ns).count = (windows_file_read w (some c) 1 ns.sum).ret ∧
    (windows_file_read w (some c) 1 ns.sum).out = (f.content.drop f.pos).take ns.sum ∧
    (windows_file_read w (some c) 1 ns.sum).ret
      = ((f.content.drop f.pos).take ns.sum).length := by
  have h32 : 2 ^ 32 ≤ 2 ^ w := Nat.pow_le_pow_right (by norm_num) hw
  have hinv : BufInv c f := by
    refine ⟨by omega, by omega, by omega, ?_⟩
    rw [hempty]
    simp
  have hn : (1 * ns.sum) % 2 ^ w = ns.sum := by
    rw [Nat.one_mul]
    exact Nat.mod_eq_of_lt (by omega)
  obtain ⟨hs1, hs2⟩ := readSeq_spec w hw ns c f hh hr hinv hsum
  obtain ⟨⟨-, hout, -⟩, hret⟩ :=
    windows_file_read_spec w hw c f 1 ns.sum hh hr hinv (by rw [hn]; exact hsum)
  rw [hn, hempty, Nat.sub_zero] at hout
  rw [hempty, Nat.sub_zero] at hs1
  have hret2 := hret rfl (by omega)
  refine ⟨by rw [hs1, hout], by rw [hs2, hs1, hret2, hout], hout, by rw [hret2, hout]⟩

/-- Witness of `buffered_reads_equivalent`: 600 then 600 bytes from a file of
1200 bytes against one read of 1200 bytes, on a 64-bit machine. -/
theorem buffered_reads_equivalent_witness :
    (readSeq 64 (some win1200) [600, 600]).out
      = (windows_file_read 64 (some win1200) 1 ([600, 600] : List Nat).sum).out ∧
    (readSeq 64 (some win1200) [600, 600]).count
      = (windows_file_read 64 (some win1200) 1 ([600, 600] : List Nat).sum).ret ∧
    (windows_file_read 64 (some win1200) 1 ([600, 600] : List Nat).sum).out
      = (file1200.content.drop file1200.pos).take ([600, 600] : List Nat).sum ∧
    (windows_file_read 64 (some win1200) 1 ([600, 600] : List Nat).sum).ret
      = ((file1200.content.drop file1200.pos).take ([600, 600] : List Nat).sum).length :=
  buffered_reads_equivalent 64 (by decide) win1200 file1200 [600, 600] rfl rfl rfl
    (by decide)

/-! ## Writes of the buffered backend -/

theorem SetFilePointerEx_current_back (f : WinFile) (k : Nat) (hk : k ≤ f.pos)
    (hk31 : k < 2 ^ 31) :
    SetFilePointerEx f (-(toInt32 k)) FILE_CURRENT
      = some (((f.pos - k : Nat) : Int), { f with pos := f.pos - k }) := by
  rw [toInt32_small k hk31]
  have h1 : ¬ ((f.pos : Int) + -(k : Int) < 0) := by omega
  have h2 : (f.pos : Int) + -(k : Int) = ((f.pos - k : Nat) : Int) := by omega
  unfold SetFilePointerEx
  simp [FILE_CURRENT, FILE_BEGIN, h1, h2]

theorem SetFilePointerEx_end_zero (f : WinFile) :
    SetFilePointerEx f 0 FILE_END
      = some ((f.content.length : Int), { f with pos := f.content.length }) := by
  have h1 : ¬ ((f.content.length : Int) + 0 < 0) := by omega
  unfold SetFilePointerEx
  simp [FILE_END, FILE_BEGIN, FILE_CURRENT]

/-- The file after `WriteFile` has stored `m` bytes of `ptr` at position `p`. -/
theorem WriteFile_ok (f : WinFile) (ptr : Nat → Nat) (m : Nat) (hw : f.canWrite = true) :
    WriteFile f ptr m = some (m,
      { f with
        content := (f.content ++ List.replicate (f.pos - f.content.length) 0).take f.pos
                    ++ (List.range m).map ptr ++ f.content.drop (f.pos + m),
        pos := f.pos + m }) := by
  simp only [WriteFile, hw, if_true]

/-- A write that is not empty, on a writable handle whose unread count does
not exceed the native position: the unread count is zeroed, and the bytes
handed to the native write are stored at the logical position, or at the end of
the file in append mode. -/
theorem windows_file_write_spec (w : Nat) (c : WindowsIO) (f : WinFile) (ptr : Nat → Nat)
    (size num : Nat) (hh : c.h = some f) (hcw : f.canWrite = true)
    (hT : 0 < (size * num) % 2 ^ w) (hk : c.left ≤ f.pos) (hk31 : c.left < 2 ^ 31) :
    windows_file_write w (some c) ptr size num =
      { ret := toDWORD ((size * num) % 2 ^ w) / size,
        ctx := some
          { c with
            h := some (
              { f with
                content :=
                  (f.content ++ List.replicate
                      ((if c.append then f.content.length else f.pos - c.left)
                        - f.content.length) 0).take
                    (if c.append then f.content.length else f.pos - c.left)
                  ++ (List.range (toDWORD ((size * num) % 2 ^ w))).map ptr
                  ++ f.content.drop ((if c.append then f.content.length else f.pos - c.left)
                      + toDWORD ((size * num) % 2 ^ w)),
                pos := (if c.append then f.content.length else f.pos - c.left)
                        + toDWORD ((size * num) % 2 ^ w) }),
            left := 0 },
        error := none } := by
  have hsz : size ≠ 0 := by
    rintro rfl
    simp at hT
  have hne : ¬ ((size * num) % 2 ^ w ≤ 0 ∨ size = 0) := by
    rintro (h | h)
    · omega
    · exact hsz h
  unfold windows_file_write
  simp only [hh, hne, if_false]
  by_cases hl : c.left = 0
  · have e0 : f.pos - c.left = f.pos := by omega
    cases happ : c.append
    · simp [hl, happ, WriteFile_ok, hcw]
    · simp [hl, happ, WriteFile_ok, hcw, SetFilePointerEx_end_zero]
  · have hback := SetFilePointerEx_current_back f c.left hk hk31
    cases happ : c.append
    · simp [hl, happ, WriteFile_ok, hcw, hback]
    · simp [hl, happ, WriteFile_ok, hcw, hback, SetFilePointerEx_end_zero]

/-! ## Open-mode parsing -/

/-- Claim C14.  In `windows_file_open`, for every mode string: read access is
requested exactly when the string contains `r` or `+`, write access exactly
when it contains `a`, `+` or `w`, the append value is set exactly when it
contains `a`, and on a non-null context the open returns -1 without having
called `SDL_malloc` or `CreateFile` exactly when neither right results; a
`CreateFile` call asks for the two rights together, and a successful open sets
the append flag exactly when the string contains `a`.  For the six documented
modes the derived values are those of the table in the source. -/
theorem windows_file_open_mode_spec (mode : List Char) (context : WindowsIO)
    (filename : String) (buffer : Option (List Nat))
    (CreateFile : String → CreateFileArgs → Option WinFile) :
    ((windows_file_open_mode mode).r_right = GENERIC_READ ↔ ('r' ∈ mode ∨ '+' ∈ mode)) ∧
    ((windows_file_open_mode mode).r_right = 0 ↔ ¬ ('r' ∈ mode ∨ '+' ∈ mode)) ∧
    ((windows_file_open_mode mode).w_right = GENERIC_WRITE
      ↔ ('a' ∈ mode ∨ '+' ∈ mode ∨ 'w' ∈ mode)) ∧
    ((windows_file_open_mode mode).w_right = 0 ↔ ¬ ('a' ∈ mode ∨ '+' ∈ mode ∨ 'w' ∈ mode)) ∧
    ((windows_file_open_mode mode).a_mode ≠ 0 ↔ 'a' ∈ mode) ∧
    (((windows_file_open (some context) filename mode buffer CreateFile).ret = -1 ∧
        (windows_file_open (some context) filename mode buffer CreateFile).mallocCalled = false ∧
        (windows_file_open (some context) filename mode buffer CreateFile).createFileCall = none)
      ↔ ((windows_file_open_mode mode).r_right = 0 ∧ (windows_file_open_mode mode).w_right = 0)) ∧
    (∀ args, (windows_file_open (some context) filename mode buffer CreateFile).createFileCall
        = some args →
      args.access = (windows_file_open_mode mode).w_right ||| (windows_file_open_mode mode).r_right) ∧
    ((windows_file_open (some context) filename mode buffer CreateFile).ret = 0 →
      ∃ c, (windows_file_open (some context) filename mode buffer CreateFile).ctx = some c ∧
        (c.append = true ↔ 'a' ∈ mode)) ∧
    windows_file_open_mode ['r'] =
      { must_exist := OPEN_EXISTING, truncate := 0, r_right := GENERIC_READ,
        a_mode := 0, w_right := 0 } ∧
    windows_file_open_mode ['w'] =
      { must_exist := 0, truncate := CREATE_ALWAYS, r_right := 0,
        a_mode := 0, w_right := GENERIC_WRITE } ∧
    windows_file_open_mode ['r', '+'] =
      { must_exist := OPEN_EXISTING, truncate := 0, r_right := GENERIC_READ,
        a_mode := 0, w_right := GENERIC_WRITE } ∧
    windows_file_open_mode ['a'] =
      { must_exist := 0, truncate := 0, r_right := 0,
        a_mode := OPEN_ALWAYS, w_right := GENERIC_WRITE } ∧
    windows_file_open_mode ['a', '+'] =
      { must_exist := 0, truncate := 0, r_right := GENERIC_READ,
        a_mode := OPEN_ALWAYS, w_right := GENERIC_WRITE } ∧
    windows_file_open_mode ['w', '+'] =
      { must_exist := 0, truncate := CREATE_ALWAYS, r_right := GENERIC_READ,
        a_mode := 0, w_right := GENERIC_WRITE } := by
  have hr : (windows_file_open_mode mode).r_right
      = if 'r' ∈ mode ∨ '+' ∈ mode then GENERIC_READ else 0 := by
    by_cases h1 : 'r' ∈ mode <;> by_cases h2 : '+' ∈ mode <;>
      simp [windows_file_open_mode, h1, h2, OPEN_EXISTING]
  have hwr : (windows_file_open_mode mode).w_right
      = if 'a' ∈ mode ∨ '+' ∈ mode ∨ 'w' ∈ mode then GENERIC_WRITE else 0 := by
    by_cases h1 : 'a' ∈ mode <;> by_cases h2 : '+' ∈ mode <;> by_cases h3 : 'w' ∈ mode <;>
      simp [windows_file_open_mode, h1, h2, h3, OPEN_ALWAYS, CREATE_ALWAYS]
  have ha : (windows_file_open_mode mode).a_mode = if 'a' ∈ mode then OPEN_ALWAYS else 0 := by
    simp [windows_file_open_mode]
  refine ⟨?_, ?_, ?_, ?_, ?_, ?_, ?_, ?_, by decide, by decide, by decide, by decide,
    by decide, by decide⟩
  · rw [hr]; by_cases h : 'r' ∈ mode ∨ '+' ∈ mode <;> simp [h, GENERIC_READ]
  · rw [hr]; by_cases h : 'r' ∈ mode ∨ '+' ∈ mode <;> simp [h, GENERIC_READ]
  · rw [hwr]; by_cases h : 'a' ∈ mode ∨ '+' ∈ mode ∨ 'w' ∈ mode <;> simp [h, GENERIC_WRITE]
  · rw [hwr]; by_cases h : 'a' ∈ mode ∨ '+' ∈ mode ∨ 'w' ∈ mode <;> simp [h, GENERIC_WRITE]
  · rw [ha]; by_cases h : 'a' ∈ mode <;> simp [h, OPEN_ALWAYS]
  · by_cases hrej : (windows_file_open_mode mode).r_right = 0 ∧
        (windows_file_open_mode mode).w_right = 0
    · simp [windows_file_open, hrej]
    · cases buffer with
      | none => simp [windows_file_open, hrej]
      | some data =>
        cases hcf : CreateFile filename (windows_file_open_args (windows_file_open_mode mode))
        <;> simp [windows_file_open, hrej, hcf]
  · intro args hargs
    by_cases hrej : (windows_file_open_mode mode).r_right = 0 ∧
        (windows_file_open_mode mode).w_right = 0
    · simp [windows_file_open, hrej] at hargs
    · cases buffer with
      | none => simp [windows_file_open, hrej] at hargs
      | some data =>
        cases hcf : CreateFile filename (windows_file_open_args (windows_file_open_mode mode))
        <;> simp [windows_file_open, hrej, hcf] at hargs <;> rw [← hargs] <;> rfl
  · intro hret
    by_cases hrej : (windows_file_open_mode mode).r_right = 0 ∧
        (windows_file_open_mode mode).w_right = 0
    · simp [windows_file_open, hrej] at hret
    · cases buffer with
      | none => simp [windows_file_open, hrej] at hret
      | some data =>
        cases hcf : CreateFile filename (windows_file_open_args (windows_file_open_mode mode))
        · simp [windows_file_open, hrej, hcf] at hret
        · rename_i hfile
          refine ⟨{ h := some hfile,
                    append := decide ((windows_file_open_mode mode).a_mode ≠ 0),
                    data := data, size := 0, left := 0 }, ?_, ?_⟩
          · simp only [windows_file_open, hrej, hcf, if_false]
          · simp only [decide_eq_true_eq, ha]
            by_cases h : 'a' ∈ mode <;> simp [h, OPEN_ALWAYS]

/-- Witness of `windows_file_open_mode_spec`: the mode `b` grants neither
right, and the open returns -1 without an allocation or a `CreateFile` call. -/
theorem windows_file_open_mode_spec_witness :
    (windows_file_open_mode ['b']).r_right = 0 ∧ (windows_file_open_mode ['b']).w_right = 0 ∧
    (windows_file_open (some rawWindowsIO) "f" ['b'] (some []) createFileEmpty).ret = -1 ∧
    (windows_file_open (some rawWindowsIO) "f" ['b'] (some []) createFileEmpty).mallocCalled
      = false ∧
    (windows_file_open (some rawWindowsIO) "f" ['b'] (some []) createFileEmpty).createFileCall
      = none :=
  ⟨by decide, by decide,
   (windows_file_open_mode_spec ['b'] rawWindowsIO "f" (some []) createFileEmpty).2.2.2.2.2.1.2
     ⟨by decide, by decide⟩⟩

/-! ## Error reports of the file factory -/

/-- Claim C15 at failing inputs.  On the Windows branch, with every allocation
succeeding, the mode string `b` makes `SDL_RWFromFile` return null with no
error report recorded; on the Android branch, a file that `fopen` does not find
does the same, for an absolute and for a relative path.  The plain stdio
branch records a report for the same missing file. -/
theorem SDL_RWFromFile_null_without_report :
    SDL_RWFromFile .win32 envNoFile rawWindowsIO (some "x") (some ['b'])
      = { rwops := none, error := none } ∧
    SDL_RWFromFile (.android true) envNoFile rawWindowsIO (some "/missing") (some ['r'])
      = { rwops := none, error := none } ∧
    SDL_RWFromFile (.android true) envNoFile rawWindowsIO (some "missing") (some ['r'])
      = { rwops := none, error := none } ∧
    SDL_RWFromFile .stdio envNoFile rawWindowsIO (some "missing") (some ['r'])
      = { rwops := none, error := some "Couldn\x27t open missing" } := by
  decide

/-! ## Byte order of the scalar codec -/

theorem leBytes_SDL_Swap (k v : Nat) : leBytes k (SDL_Swap k v) = (leBytes k v).reverse := by
  have h1 := leBytes_ofLeBytes (leBytes k v).reverse
    (fun b hb => leBytes_lt k v b (List.mem_reverse.1 hb))
  simp only [List.length_reverse, length_leBytes] at h1
  exact h1

theorem SDL_Swap_ofLeBytes (bs : List Nat) (hb : ∀ b ∈ bs, b < 256) :
    SDL_Swap bs.length (ofLeBytes bs) = ofLeBytes bs.reverse := by
  unfold SDL_Swap
  rw [leBytes_ofLeBytes bs hb]

theorem objectBytes_SwapBE (big : Bool) (k v : Nat) :
    objectBytes big k (SDL_SwapBE big k v) = (leBytes k v).reverse := by
  cases big
  · simp [objectBytes, SDL_SwapBE, leBytes_SDL_Swap]
  · simp [objectBytes, SDL_SwapBE]

theorem objectBytes_SwapLE (big : Bool) (k v : Nat) :
    objectBytes big k (SDL_SwapLE big k v) = leBytes k v := by
  cases big
  · simp [objectBytes, SDL_SwapLE]
  · simp [objectBytes, SDL_SwapLE, leBytes_SDL_Swap]

theorem SwapLE_objectValue (big : Bool) (bs : List Nat) (hb : ∀ b ∈ bs, b < 256) :
    SDL_SwapLE big bs.length (objectValue big bs) = ofLeBytes bs := by
  cases big
  · simp [SDL_SwapLE, objectValue]
  · have h := SDL_Swap_ofLeBytes bs.reverse (fun b hb2 => hb b (List.mem_reverse.1 hb2))
    simp only [List.length_reverse, List.reverse_reverse] at h
    simpa [SDL_SwapLE, objectValue] using h

theorem SwapBE_objectValue (big : Bool) (bs : List Nat) (hb : ∀ b ∈ bs, b < 256) :
    SDL_SwapBE big bs.length (objectValue big bs) = ofLeBytes bs.reverse := by
  cases big
  · simpa [SDL_SwapBE, objectValue] using SDL_Swap_ofLeBytes bs hb
  · simp [SDL_SwapBE, objectValue]

theorem loadBytes_lt (m : Memory) (p : Int) (n : Nat) (hm : ∀ a, m a < 256) :
    ∀ b ∈ loadBytes m p n, b < 256 := by
  intro b hb
  simp only [loadBytes, List.mem_map] at hb
  obtain ⟨i, -, rfl⟩ := hb
  exact hm _

/-- The bytes a scalar write stores are the object representation. -/
theorem writeObject_stores (big : Bool) (w k : Nat) (hkw : k < 2 ^ w) (dst : SDL_RWops)
    (m : Memory) (x : Nat) (hwr : dst.write = .mem_write) (h0 : 0 ≤ dst.here)
    (hfit : dst.here + (k : Int) ≤ dst.stop) (hs : dst.stop < 2 ^ w) :
    loadBytes (writeObject big w k dst m x).mem dst.here k = objectBytes big k x := by
  have h1k : 1 * k < 2 ^ w := by omega
  have hfit1 : dst.here + ((1 * k : Nat) : Int) ≤ dst.stop := by
    rw [Nat.one_mul]
    exact hfit
  obtain ⟨-, -, hmem, -⟩ :=
    mem_write_fits w dst m (fun i => (objectBytes big k x).getD i 0) k 1 h1k h0 hs hfit1
  simp only [Nat.one_mul] at hmem
  simp only [writeObject, SDL_RWwrite, hwr, hmem, loadBytes_memcpy]
  have := map_getD_range (objectBytes big k x)
  rwa [length_objectBytes] at this

/-- The object a scalar read fills is made of the bytes at the position. -/
theorem readObject_value (big : Bool) (w k : Nat) (hk : 0 < k) (hkw : k < 2 ^ w)
    (src : SDL_RWops) (m : Memory) (hfit : src.here + (k : Int) ≤ src.stop)
    (hav : src.stop - src.here < 2 ^ w) :
    (readObject big w k src m).1 = objectValue big (loadBytes m src.here k) := by
  have hrej : ¬ mem_read_rejects w k 1 := by
    rw [mem_read_rejects_iff]
    omega
  have hrd := mem_read_accepted w src m k 1 (by omega) hav hrej
  have hmin : min (1 * k) (src.stop - src.here).toNat = k := by
    rw [Nat.one_mul]
    apply min_eq_left
    omega
  simp only [hmin] at hrd
  obtain ⟨sz, sk, rd, wr, cl, ty, b, h, st⟩ := src
  cases rd
  simp only [readObject, SDL_RWread, hrd]
  simp [length_loadBytes]

theorem storesBytes_BE (big : Bool) (w k : Nat) (hkw : k < 2 ^ w) :
    StoresBytes w k (fun dst m v => writeObject big w k dst m (SDL_SwapBE big k v))
      (fun v => (leBytes k v).reverse) := by
  intro dst m v hwr h0 hfit hs
  simp only []
  rw [writeObject_stores big w k hkw dst m _ hwr h0 hfit hs, objectBytes_SwapBE]

theorem storesBytes_LE (big : Bool) (w k : Nat) (hkw : k < 2 ^ w) :
    StoresBytes w k (fun dst m v => writeObject big w k dst m (SDL_SwapLE big k v))
      (fun v => leBytes k v) := by
  intro dst m v hwr h0 hfit hs
  simp only []
  rw [writeObject_stores big w k hkw dst m _ hwr h0 hfit hs, objectBytes_SwapLE]

theorem readsBytes_LE (big : Bool) (w k : Nat) (hk : 0 < k) (hkw : k < 2 ^ w) :
    ReadsBytes w k
      (fun src m => (SDL_SwapLE big k (readObject big w k src m).1, (readObject big w k src m).2))
      ofLeBytes := by
  intro src m hm hfit hav
  simp only []
  rw [readObject_value big w k hk hkw src m hfit hav]
  have h := SwapLE_objectValue big (loadBytes m src.here k) (loadBytes_lt m src.here k hm)
  rwa [length_loadBytes] at h

theorem readsBytes_BE (big : Bool) (w k : Nat) (hk : 0 < k) (hkw : k < 2 ^ w) :
    ReadsBytes w k
      (fun src m => (SDL_SwapBE big k (readObject big w k src m).1, (readObject big w k src m).2))
      (fun bs => ofLeBytes bs.reverse) := by
  intro src m hm hfit hav
  simp only []
  rw [readObject_value big w k hk hkw src m hfit hav]
  have h := SwapBE_objectValue big (loadBytes m src.here k) (loadBytes_lt m src.here k hm)
  rwa [length_loadBytes] at h

theorem reversedReads (big : Bool) (w k : Nat) (hk : 0 < k) (hkw : k < 2 ^ w) :
    ReversedReads w k
      (fun src m => (SDL_SwapBE big k (readObject big w k src m).1, (readObject big w k src m).2))
      (fun src m => (SDL_SwapLE big k (readObject big w k src m).1, (readObject big w k src m).2))
      := by
  intro src m hm hfit hav
  have h1 := readsBytes_BE big w k hk hkw src m hm hfit hav
  have h2 := readsBytes_LE big w k hk hkw src m hm hfit hav
  simp only [] at h1 h2 ⊢
  rw [h1, h2]
  have h := SDL_Swap_ofLeBytes (loadBytes m src.here k) (loadBytes_lt m src.here k hm)
  rw [length_loadBytes] at h
  exact h.symm

/-- Claim C16.  On a little-endian and on a big-endian host alike (machine
words of at least four bits): on streams over a range of machine addresses,
`SDL_WriteBE16/32/64` store the bytes of the value most significant first and
`SDL_WriteLE16/32/64` least significant first;
`SDL_ReadLE16/32/64` return the little-endian and `SDL_ReadBE16/32/64` the
big-endian value of the bytes at the position, so that the big-endian reader
returns the byte reversal of what the little-endian reader returns; and of the
two conditional swaps one is the identity and the other the byte reversal,
which one depending on the host. -/
theorem scalar_codec_byte_order (big : Bool) (w : Nat) (hw : 4 ≤ w) :
    (StoresBytes w 2 (SDL_WriteBE16 big w) (fun v => (leBytes 2 v).reverse) ∧
      StoresBytes w 4 (SDL_WriteBE32 big w) (fun v => (leBytes 4 v).reverse) ∧
      StoresBytes w 8 (SDL_WriteBE64 big w) (fun v => (leBytes 8 v).reverse)) ∧
    (StoresBytes w 2 (SDL_WriteLE16 big w) (fun v => leBytes 2 v) ∧
      StoresBytes w 4 (SDL_WriteLE32 big w) (fun v => leBytes 4 v) ∧
      StoresBytes w 8 (SDL_WriteLE64 big w) (fun v => leBytes 8 v)) ∧
    (ReadsBytes w 2 (SDL_ReadLE16 big w) ofLeBytes ∧
      ReadsBytes w 4 (SDL_ReadLE32 big w) ofLeBytes ∧
      ReadsBytes w 8 (SDL_ReadLE64 big w) ofLeBytes) ∧
    (ReadsBytes w 2 (SDL_ReadBE16 big w) (fun bs => ofLeBytes bs.reverse) ∧
      ReadsBytes w 4 (SDL_ReadBE32 big w) (fun bs => ofLeBytes bs.reverse) ∧
      ReadsBytes w 8 (SDL_ReadBE64 big w) (fun bs => ofLeBytes bs.reverse)) ∧
    (ReversedReads w 2 (SDL_ReadBE16 big w) (SDL_ReadLE16 big w) ∧
      ReversedReads w 4 (SDL_ReadBE32 big w) (SDL_ReadLE32 big w) ∧
      ReversedReads w 8 (SDL_ReadBE64 big w) (SDL_ReadLE64 big w)) ∧
    ((big = false ∧ ∀ k v, SDL_SwapLE big k v = v ∧ SDL_SwapBE big k v = SDL_Swap k v) ∨
      (big = true ∧ ∀ k v, SDL_SwapLE big k v = SDL_Swap k v ∧ SDL_SwapBE big k v = v)) := by
  have h16 : 2 ^ 4 ≤ 2 ^ w := Nat.pow_le_pow_right (by norm_num) hw
  have h2 : 2 < 2 ^ w := by omega
  have h4 : 4 < 2 ^ w := by omega
  have h8 : 8 < 2 ^ w := by omega
  refine ⟨⟨storesBytes_BE big w 2 h2, storesBytes_BE big w 4 h4, storesBytes_BE big w 8 h8⟩,
    ⟨storesBytes_LE big w 2 h2, storesBytes_LE big w 4 h4, storesBytes_LE big w 8 h8⟩,
    ⟨readsBytes_LE big w 2 (by norm_num) h2, readsBytes_LE big w 4 (by norm_num) h4,
      readsBytes_LE big w 8 (by norm_num) h8⟩,
    ⟨readsBytes_BE big w 2 (by norm_num) h2, readsBytes_BE big w 4 (by norm_num) h4,
      readsBytes_BE big w 8 (by norm_num) h8⟩,
    ⟨reversedReads big w 2 (by norm_num) h2, reversedReads big w 4 (by norm_num) h4,
      reversedReads big w 8 (by norm_num) h8⟩, ?_⟩
  cases big
  · left
    exact ⟨rfl, fun k v => ⟨rfl, rfl⟩⟩
  · right
    exact ⟨rfl, fun k v => ⟨rfl, rfl⟩⟩

theorem rampMemory_lt (a : Int) : rampMemory a < 256 := by
  unfold rampMemory
  omega

/-- Witness of `scalar_codec_byte_order`, on a big-endian 64-bit host: the
bytes `SDL_WriteBE32` stores for `0x01020304` on the eight-byte stream, and the
value `SDL_ReadBE32` returns over a store whose byte at address `a` is `a`
modulo 256, as the byte reversal of what `SDL_ReadLE32` returns. -/
theorem scalar_codec_byte_order_witness :
    loadBytes (SDL_WriteBE32 true 64 rw8 zeroMemory 0x01020304).mem rw8.here 4
      = (leBytes 4 0x01020304).reverse ∧
    (leBytes 4 0x01020304).reverse = [1, 2, 3, 4] ∧
    (SDL_ReadBE32 true 64 rw8 rampMemory).1
      = SDL_Swap 4 (SDL_ReadLE32 true 64 rw8 rampMemory).1 ∧
    (SDL_ReadLE32 true 64 rw8 rampMemory).1 = 0x03020100 ∧
    (SDL_ReadBE32 true 64 rw8 rampMemory).1 = 0x00010203 :=
  ⟨(scalar_codec_byte_order true 64 (by decide)).1.2.1 rw8 zeroMemory 0x01020304 rfl
     (by decide) (by decide) (by decide),
   by decide,
   (scalar_codec_byte_order true 64 (by decide)).2.2.2.2.1.2.1 rw8 rampMemory rampMemory_lt
     (by decide) (by decide),
   by decide, by decide⟩

/-! ## Seeks of the buffered backend -/

/-- A seek with one of the three whence codes issues the native seek to the
logical target, with the unread count zeroed. -/
theorem windows_file_seek_eq (c : WindowsIO) (f : WinFile) (offset whence : Int)
    (hh : c.h = some f) (hk : c.left ≤ f.pos) (hk31 : c.left < 2 ^ 31)
    (hwh : whence = RW_SEEK_SET ∨ whence = RW_SEEK_CUR ∨ whence = RW_SEEK_END) :
    windows_file_seek (some c) offset whence =
      if seekTarget c f offset whence < 0 then
        { ret := SDL_SetError_ret, ctx := some { c with left := 0 },
          error := some "windows_file_seek" }
      else
        { ret := seekTarget c f offset whence,
          ctx := some { c with left := 0,
                               h := some { f with pos := (seekTarget c f offset whence).toNat } },
          error := none } := by
  have hcast : toInt32 c.left = (c.left : Int) := toInt32_small c.left hk31
  have hsub : ((f.pos - c.left : Nat) : Int) = (f.pos : Int) - (c.left : Int) := by omega
  rcases hwh with rfl | rfl | rfl
  · simp [windows_file_seek, hh, seekTarget, RW_SEEK_SET, RW_SEEK_CUR, RW_SEEK_END,
      windows_file_seek_native, SetFilePointerEx, FILE_BEGIN]
    split_ifs <;> rfl
  · by_cases hl : c.left = 0
    · simp [windows_file_seek, hh, seekTarget, RW_SEEK_SET, RW_SEEK_CUR, RW_SEEK_END,
        windows_file_seek_native, SetFilePointerEx, FILE_BEGIN, FILE_CURRENT, hl]
      split_ifs <;> rfl
    · have e : (f.pos : Int) + (offset - (c.left : Int)) = ((f.pos - c.left : Nat) : Int) + offset := by
        omega
      simp [windows_file_seek, hh, seekTarget, RW_SEEK_SET, RW_SEEK_CUR, RW_SEEK_END,
        windows_file_seek_native, SetFilePointerEx, FILE_BEGIN, FILE_CURRENT, hl, hcast, e]
      split_ifs <;> rfl
  · simp [windows_file_seek, hh, seekTarget, RW_SEEK_SET, RW_SEEK_CUR, RW_SEEK_END,
      windows_file_seek_native, SetFilePointerEx, FILE_BEGIN, FILE_CURRENT, FILE_END]
    split_ifs <;> rfl

/-- Claim C17.  On a machine with words of at least 32 bits, from a state that
satisfies the read-ahead invariant with `k` unread bytes and logical position
`L = pos - k`, every seek with one of the three whence codes that records no
error returns the logical target (`offset` from the start, `L + offset` from
the current position, the file length plus `offset` from the end), zeroes the
unread count and leaves the native position at the target with the file
unchanged; a read of fewer than `2 ^ 32` bytes that follows on a readable
handle delivers the bytes of the file from the target on. -/
theorem windows_file_seek_target (w : Nat) (hw : 32 ≤ w) (c : WindowsIO) (f : WinFile)
    (offset whence : Int) (hh : c.h = some f) (hinv : BufInv c f)
    (hsz : c.size ≤ READAHEAD_BUFFER_SIZE)
    (hwh : whence = RW_SEEK_SET ∨ whence = RW_SEEK_CUR ∨ whence = RW_SEEK_END)
    (hok : (windows_file_seek (some c) offset whence).error = none) :
    (windows_file_seek (some c) offset whence).ret = seekTarget c f offset whence ∧
    0 ≤ seekTarget c f offset whence ∧
    ∃ c1 f1, (windows_file_seek (some c) offset whence).ctx = some c1 ∧ c1.h = some f1 ∧
      c1.left = 0 ∧ (f1.pos : Int) = seekTarget c f offset whence ∧
      f1.content = f.content ∧
      ∀ size maxnum, f.canRead = true → (size * maxnum) % 2 ^ w < 2 ^ 32 →
        (windows_file_read w (some c1) size maxnum).out
          = (f.content.drop (seekTarget c f offset whence).toNat).take
              ((size * maxnum) % 2 ^ w) := by
  obtain ⟨h1, h2, h3, h4⟩ := hinv
  have hk31 : c.left < 2 ^ 31 := by
    have : c.size ≤ 1024 := hsz
    omega
  have heq := windows_file_seek_eq c f offset whence hh h2 hk31 hwh
  by_cases hneg : seekTarget c f offset whence < 0
  · rw [heq, if_pos hneg] at hok
    simp at hok
  · rw [heq, if_neg hneg]
    have hnn : 0 ≤ seekTarget c f offset whence := not_lt.mp hneg
    refine ⟨rfl, hnn, _, _, rfl, rfl, rfl, ?_, rfl, ?_⟩
    · show (((seekTarget c f offset whence).toNat : Nat) : Int) = _
      exact Int.toNat_of_nonneg hnn
    · intro size maxnum hr hT
      obtain ⟨⟨-, hout, -⟩, -⟩ :=
        windows_file_read_spec w hw
          { c with left := 0,
                   h := some { f with pos := (seekTarget c f offset whence).toNat } }
          { f with pos := (seekTarget c f offset whence).toNat } size maxnum rfl hr
          ⟨Nat.zero_le _, Nat.zero_le _, fun h => absurd h (lt_irrefl 0), by simp⟩ hT
      rw [hout]
      simp

/-- Witness of `windows_file_seek_target`: with four unread bytes at logical
position 2 of a six-byte file, a seek by 1 from the current position returns 3,
and the next read of two bytes delivers the bytes at positions 3 and 4. -/
theorem windows_file_seek_target_witness :
    (windows_file_seek (some win6read) 1 RW_SEEK_CUR).ret
      = seekTarget win6read file6read 1 RW_SEEK_CUR ∧
    seekTarget win6read file6read 1 RW_SEEK_CUR = 3 ∧
    (windows_file_read 64 (windows_file_seek (some win6read) 1 RW_SEEK_CUR).ctx 1 2).out
      = [13, 14] :=
  ⟨(windows_file_seek_target 64 (by decide) win6read file6read 1 RW_SEEK_CUR rfl (by decide)
      (by decide) (Or.inr (Or.inl rfl)) (by decide)).1,
   by decide, by decide⟩

/-! ## The read-ahead invariant -/

theorem WinInv_of_left_zero (c : WindowsIO) (h0 : c.left = 0)
    (hs : c.size ≤ READAHEAD_BUFFER_SIZE) : WinInv c := by
  refine ⟨by omega, hs, fun f _ => ⟨by omega, by omega, fun h => by omega, ?_⟩⟩
  rw [h0]
  simp

theorem windows_file_seek_inv (c : WindowsIO) (offset whence : Int) (hinv : WinInv c) :
    ∃ c1, (windows_file_seek (some c) offset whence).ctx = some c1 ∧ WinInv c1 ∧
      c1.append = c.append := by
  obtain ⟨h1, h2, h3⟩ := hinv
  cases hh : c.h with
  | none => exact ⟨c, by simp [windows_file_seek, hh], ⟨h1, h2, h3⟩, rfl⟩
  | some f =>
    have key : ∃ c1, (windows_file_seek (some c) offset whence).ctx = some c1 ∧
        c1.left = 0 ∧ c1.size = c.size ∧ c1.append = c.append := by
      simp only [windows_file_seek, hh, windows_file_seek_native]
      split_ifs <;> (try split) <;> exact ⟨_, rfl, rfl, rfl, rfl⟩
    obtain ⟨c1, hc, hl, hs, ha⟩ := key
    exact ⟨c1, hc, WinInv_of_left_zero c1 hl (by rw [hs]; exact h2), ha⟩

theorem windows_file_write_inv (w : Nat) (c : WindowsIO) (ptr : Nat → Nat) (size num : Nat)
    (hinv : WinInv c) :
    ∃ c1, (windows_file_write w (some c) ptr size num).ctx = some c1 ∧ WinInv c1 ∧
      c1.append = c.append := by
  obtain ⟨h1, h2, h3⟩ := hinv
  cases hh : c.h with
  | none => exact ⟨c, by simp [windows_file_write, hh], ⟨h1, h2, h3⟩, rfl⟩
  | some f =>
    by_cases hearly : (size * num) % 2 ^ w ≤ 0 ∨ size = 0
    · exact ⟨c, by simp only [windows_file_write, hh, hearly, if_true], ⟨h1, h2, h3⟩, rfl⟩
    · have key : ∃ c1, (windows_file_write w (some c) ptr size num).ctx = some c1 ∧
          c1.left = 0 ∧ c1.size = c.size ∧ c1.append = c.append := by
        simp only [windows_file_write, hh, hearly, if_false]
        by_cases hl : c.left = 0
        · simp only [hl, ne_eq, not_true_eq_false, if_false]
          split
          · exact ⟨_, rfl, hl, rfl, rfl⟩
          · split <;> first | exact ⟨_, rfl, hl, rfl, rfl⟩ | exact ⟨_, rfl, rfl, rfl, rfl⟩
        · simp only [hl, ne_eq, not_false_eq_true, if_true]
          split
          · exact ⟨_, rfl, rfl, rfl, rfl⟩
          · split <;> exact ⟨_, rfl, rfl, rfl, rfl⟩
      obtain ⟨c1, hc, hl, hs, ha⟩ := key
      exact ⟨c1, hc, WinInv_of_left_zero c1 hl (by rw [hs]; exact h2), ha⟩

theorem WinInv_of_BufInv (c : WindowsIO) (f : WinFile) (hh : c.h = some f)
    (hb : BufInv c f) (hs : c.size ≤ READAHEAD_BUFFER_SIZE) : WinInv c := by
  refine ⟨hb.1, hs, fun g hg => ?_⟩
  rw [hh] at hg
  cases hg
  exact hb

theorem windows_file_read_native_inv (w : Nat) (hw : 32 ≤ w) (c : WindowsIO) (f : WinFile)
    (size tn tr : Nat) (out : List Nat) (hl : c.left = 0)
    (hs : c.size ≤ READAHEAD_BUFFER_SIZE) :
    ∃ c1, (windows_file_read_native w c f size tn tr out).ctx = some c1 ∧ WinInv c1 ∧
      c1.append = c.append := by
  cases hr : f.canRead with
  | false =>
    refine ⟨c, ?_, WinInv_of_left_zero c hl hs, rfl⟩
    unfold windows_file_read_native
    simp only [ReadFile, hr, Bool.false_eq_true, if_false]
    split_ifs <;> rfl
  | true =>
    by_cases hsmall : tn < READAHEAD_BUFFER_SIZE
    · have htn : tn < 2 ^ 32 := by
        have : tn < 1024 := hsmall
        omega
      obtain ⟨-, -, -, c1, f1, hctx, hc1, -, -, -, happ, hbi, hsz, -⟩ :=
        windows_file_read_native_spec w hw c f size tn tr out hr hl htn
      exact ⟨c1, hctx, WinInv_of_BufInv c1 f1 hc1 hbi
        (le_trans hsz (max_le hs (le_refl _))), happ⟩
    · refine ⟨{ c with h := some { f with pos := f.pos
          + ((f.content.drop f.pos).take (toDWORD tn)).length } }, ?_,
        WinInv_of_left_zero _ hl hs, rfl⟩
      unfold windows_file_read_native
      simp only [hsmall, if_false, ReadFile, hr, if_true]

theorem windows_file_read_inv (w : Nat) (hw : 32 ≤ w) (c : WindowsIO) (size maxnum : Nat)
    (hinv : WinInv c) :
    ∃ c1, (windows_file_read w (some c) size maxnum).ctx = some c1 ∧ WinInv c1 ∧
      c1.append = c.append := by
  obtain ⟨h1, h2, h3⟩ := hinv
  cases hh : c.h with
  | none => exact ⟨c, by simp [windows_file_read, hh], ⟨h1, h2, h3⟩, rfl⟩
  | some f =>
    obtain ⟨-, b2, b3, b4⟩ := h3 f hh
    generalize hTdef : (size * maxnum) % 2 ^ w = T
    have hunf : windows_file_read w (some c) size maxnum =
        if T = 0 then { ret := 0, out := [], ctx := some c, error := none }
        else if c.left > 0 then
          if min T c.left = T then
            { ret := maxnum, out := (c.data.drop (c.size - c.left)).take (min T c.left),
              ctx := some { c with left := c.left - min T c.left }, error := none }
          else
            windows_file_read_native w { c with left := c.left - min T c.left } f size
              (T - min T c.left) (min T c.left)
              ((c.data.drop (c.size - c.left)).take (min T c.left))
        else windows_file_read_native w c f size T 0 [] := by
      unfold windows_file_read
      simp only [hh, hTdef]
    rw [hunf]
    by_cases hT0 : T = 0
    · simp only [hT0, if_true]
      exact ⟨c, rfl, ⟨h1, h2, h3⟩, rfl⟩
    · simp only [hT0, if_false]
      by_cases hleft : c.left > 0
      · simp only [hleft, if_true]
        by_cases hall : min T c.left = T
        · simp only [hall, if_true]
          have hTl : T ≤ c.left := by
            rw [← hall]
            exact min_le_right _ _
          refine ⟨_, rfl, WinInv_of_BufInv _ f hh ⟨?_, ?_, ?_, ?_⟩ h2, rfl⟩
          · show c.left - T ≤ c.size
            omega
          · show c.left - T ≤ f.pos
            omega
          · intro _
            exact b3 hleft
          · show (c.data.drop (c.size - (c.left - T))).take (c.left - T)
              = (f.content.drop (f.pos - (c.left - T))).take (c.left - T)
            have e := congrArg (List.drop T) b4
            rw [List.drop_take, List.drop_take, List.drop_drop, List.drop_drop] at e
            have e1 : c.size - (c.left - T) = c.size - c.left + T := by omega
            have e2 : f.pos - (c.left - T) = f.pos - c.left + T := by omega
            rw [e1, e2]
            exact e
        · simp only [hall, if_false]
          have hlT : c.left < T := by
            rcases Nat.lt_or_ge c.left T with h | h
            · exact h
            · exact absurd (min_eq_left h) hall
          have hmin : min T c.left = c.left := min_eq_right (le_of_lt hlT)
          rw [hmin]
          exact windows_file_read_native_inv w hw { c with left := c.left - c.left } f size
            (T - c.left) c.left _ (by show c.left - c.left = 0; omega) h2
      · simp only [hleft, if_false]
        exact windows_file_read_native_inv w hw c f size T 0 [] (by omega) h2

theorem stepWinOp_inv (w : Nat) (hw : 32 ≤ w) (c : WindowsIO) (op : WinOp) (hinv : WinInv c) :
    ∃ c1, stepWinOp w (some c) op = some c1 ∧ WinInv c1 ∧ c1.append = c.append := by
  cases op with
  | seek offset whence => exact windows_file_seek_inv c offset whence hinv
  | read size maxnum => exact windows_file_read_inv w hw c size maxnum hinv
  | write ptr size num => exact windows_file_write_inv w c ptr size num hinv

theorem runWinOps_inv (w : Nat) (hw : 32 ≤ w) (ops : List WinOp) (c : WindowsIO)
    (hinv : WinInv c) :
    ∃ c1, runWinOps w ops (some c) = some c1 ∧ WinInv c1 ∧ c1.append = c.append := by
  induction ops generalizing c with
  | nil => exact ⟨c, rfl, hinv, rfl⟩
  | cons op ops ih =>
    obtain ⟨c1, h1, hinv1, ha1⟩ := stepWinOp_inv w hw c op hinv
    obtain ⟨c2, h2, hinv2, ha2⟩ := ih c1 hinv1
    refine ⟨c2, ?_, hinv2, by rw [ha2, ha1]⟩
    simp only [runWinOps, List.foldl_cons] at h2 ⊢
    rw [h1]
    exact h2

/-- A successful open leaves a valid handle, an empty read-ahead buffer, and
the append flag set exactly for a mode string that contains `a`. -/
theorem windows_file_open_ok (context : WindowsIO) (filename : String) (mode : List Char)
    (buffer : Option (List Nat)) (CreateFile : String → CreateFileArgs → Option WinFile)
    (hopen : (windows_file_open (some context) filename mode buffer CreateFile).ret = 0) :
    ∃ c f, (windows_file_open (some context) filename mode buffer CreateFile).ctx = some c ∧
      c.h = some f ∧ c.size = 0 ∧ c.left = 0 ∧ (c.append = true ↔ 'a' ∈ mode) ∧
      CreateFile filename (windows_file_open_args (windows_file_open_mode mode)) = some f := by
  have ha : (windows_file_open_mode mode).a_mode = if 'a' ∈ mode then OPEN_ALWAYS else 0 := by
    simp [windows_file_open_mode]
  by_cases hrej : (windows_file_open_mode mode).r_right = 0 ∧
      (windows_file_open_mode mode).w_right = 0
  · simp [windows_file_open, hrej] at hopen
  · cases buffer with
    | none => simp [windows_file_open, hrej] at hopen
    | some data =>
      cases hcf : CreateFile filename (windows_file_open_args (windows_file_open_mode mode)) with
      | none => simp [windows_file_open, hrej, hcf] at hopen
      | some hfile =>
        refine ⟨{ h := some hfile,
                  append := decide ((windows_file_open_mode mode).a_mode ≠ 0),
                  data := data, size := 0, left := 0 }, hfile, ?_, rfl, rfl, rfl, ?_, rfl⟩
        · simp only [windows_file_open, hrej, hcf, if_false]
        · simp only [decide_eq_true_eq, ha]
          by_cases h : 'a' ∈ mode <;> simp [h, OPEN_ALWAYS]

/-- Claim C18.  On a machine with words of at least 32 bits, a successful open
leaves filled length 0 and unread count 0, and after every sequence of
`windows_file_read`, `windows_file_write` and `windows_file_seek` calls with
arbitrary arguments: unread count ≤ filled length ≤ 1024, and on a valid handle
the unread bytes, the tail of the filled buffer from `size - left` on, are the
`left` bytes of the file between the logical position `pos - left` and the
native position. -/
theorem readahead_invariant (w : Nat) (hw : 32 ≤ w) (context : WindowsIO)
    (filename : String) (mode : List Char) (buffer : Option (List Nat))
    (CreateFile : String → CreateFileArgs → Option WinFile) (ops : List WinOp)
    (hopen : (windows_file_open (some context) filename mode buffer CreateFile).ret = 0) :
    (∃ c0, (windows_file_open (some context) filename mode buffer CreateFile).ctx = some c0 ∧
      c0.size = 0 ∧ c0.left = 0) ∧
    ∃ c, runWinOps w ops (windows_file_open (some context) filename mode buffer CreateFile).ctx
        = some c ∧
      c.left ≤ c.size ∧ c.size ≤ 1024 ∧
      ∀ f, c.h = some f →
        c.left ≤ f.pos ∧
        (c.data.drop (c.size - c.left)).take c.left
          = (f.content.drop (f.pos - c.left)).take c.left ∧
        ((f.content.drop (f.pos - c.left)).take c.left).length = c.left := by
  obtain ⟨c0, f0, hctx, -, hs0, hl0, -, -⟩ :=
    windows_file_open_ok context filename mode buffer CreateFile hopen
  refine ⟨⟨c0, hctx, hs0, hl0⟩, ?_⟩
  obtain ⟨c, hrun, ⟨h1, h2, h3⟩, -⟩ :=
    runWinOps_inv w hw ops c0 (WinInv_of_left_zero c0 hl0 (by rw [hs0]; exact Nat.zero_le _))
  rw [hctx]
  refine ⟨c, hrun, h1, h2, fun f hf => ?_⟩
  obtain ⟨-, b2, b3, b4⟩ := h3 f hf
  refine ⟨b2, b4, ?_⟩
  rw [List.length_take, List.length_drop]
  rcases Nat.eq_zero_or_pos c.left with h0 | hpos
  · rw [h0]
    simp
  · have := b3 hpos
    omega

/-! ## A write after a read-ahead -/

/-- Claim C13 fails as stated.  With a 64-bit `size_t`, a read of two bytes from
the six-byte file leaves four unread bytes, the native position at 6 and the
logical position at 2.  A following write of `2 ^ 32 + 3` bytes, whose count
is cast to a `DWORD` and becomes 3, returns 3, stores three bytes and leaves
the native position at 5, not at `2 + (2 ^ 32 + 3)`.  A following write of 0
bytes returns before the buffer is looked at: the unread count stays 4 and the
native position stays 6, not the logical position 2. -/
theorem write_after_read_ahead_dword_truncation :
    (windows_file_read 64 (some win6) 1 2).ctx = some win6read ∧
    win6read.h = some file6read ∧ win6read.append = false ∧ win6read.left = 4 ∧
    file6read.pos = 6 ∧
    ((windows_file_write 64 (some win6read) (fun i => i + 1) 1 (2 ^ 32 + 3)).ret = 3 ∧
      ((windows_file_write 64 (some win6read) (fun i => i + 1) 1 (2 ^ 32 + 3)).ctx.bind
        (fun c => c.h)).map (fun f => f.pos) = some 5 ∧
      ((windows_file_write 64 (some win6read) (fun i => i + 1) 1 (2 ^ 32 + 3)).ctx.bind
        (fun c => c.h)).map (fun f => f.content) = some [10, 11, 1, 2, 3, 15] ∧
      (file6read.pos - win6read.left) + (2 ^ 32 + 3) ≠ 5) ∧
    ((windows_file_write 64 (some win6read) (fun i => i + 1) 1 0).ret = 0 ∧
      (windows_file_write 64 (some win6read) (fun i => i + 1) 1 0).ctx.map
        (fun c => c.left) = some 4 ∧
      ((windows_file_write 64 (some win6read) (fun i => i + 1) 1 0).ctx.bind
        (fun c => c.h)).map (fun f => f.pos) = some 6 ∧
      (file6read.pos - win6read.left) + 0 ≠ 6) := by
  refine ⟨by rfl, rfl, rfl, rfl, rfl, ⟨by decide, by decide, by decide, by decide⟩,
    ⟨by decide, by decide, by decide, by decide⟩⟩

/-- Claim C13 as amended.  On a machine with words of at least 32 bits, take
any read from a state satisfying the read-ahead invariant that leaves `k > 0`
unread bytes, on a handle not in append mode.  A following write of
`m = size * num` bytes with `0 < m < 2 ^ 32` returns `num`, stores the `m`
payload bytes at the logical position `L = pos - k` (the bytes before `L` and
from `L + m` on are as before), zeroes the unread count, and leaves the native
position at `L + m`. -/
theorem write_after_read_ahead (w : Nat) (hw : 32 ≤ w) (c0 : WindowsIO)
    (rsize rnum : Nat) (c : WindowsIO) (f : WinFile) (ptr : Nat → Nat) (size num : Nat)
    (hinv : WinInv c0)
    (hctx : (windows_file_read w (some c0) rsize rnum).ctx = some c) (hh : c.h = some f)
    (hk : 0 < c.left) (happ : c.append = false) (hcw : f.canWrite = true)
    (hm0 : 0 < size * num) (hm : size * num < 2 ^ 32) :
    (windows_file_write w (some c) ptr size num).error = none ∧
    (windows_file_write w (some c) ptr size num).ret = num ∧
    ∃ c1 f1, (windows_file_write w (some c) ptr size num).ctx = some c1 ∧ c1.h = some f1 ∧
      c1.left = 0 ∧
      f1.pos = (f.pos - c.left) + size * num ∧
      f1.content = f.content.take (f.pos - c.left)
        ++ (List.range (size * num)).map ptr
        ++ f.content.drop ((f.pos - c.left) + size * num) := by
  obtain ⟨c1, hctx1, ⟨hls, hsz, hbuf⟩, -⟩ := windows_file_read_inv w hw c0 rsize rnum hinv
  rw [hctx] at hctx1
  cases hctx1
  obtain ⟨-, h2, h3, -⟩ := hbuf f hh
  have hpos := h3 hk
  have hk31 : c.left < 2 ^ 31 := by
    have : c.size ≤ 1024 := hsz
    omega
  have h32 : 2 ^ 32 ≤ 2 ^ w := Nat.pow_le_pow_right (by norm_num) hw
  have hmod : (size * num) % 2 ^ w = size * num := Nat.mod_eq_of_lt (by omega)
  have hdw : toDWORD (size * num) = size * num := by
    unfold toDWORD
    exact Nat.mod_eq_of_lt hm
  have hsz0 : 0 < size := by
    rcases Nat.eq_zero_or_pos size with h | h
    · rw [h, Nat.zero_mul] at hm0
      omega
    · exact h
  rw [windows_file_write_spec w c f ptr size num hh hcw (by rw [hmod]; exact hm0) h2 hk31]
  rw [hmod, hdw]
  refine ⟨rfl, Nat.mul_div_cancel_left num hsz0, _, _, rfl, rfl, rfl, ?_, ?_⟩
  · simp [happ]
  · have hz : f.pos - c.left - f.content.length = 0 := by omega
    simp [happ, hz]

/-- Witness of `write_after_read_ahead`: after a read of two bytes from a
six-byte file, which leaves four unread bytes, a write of the three bytes
1, 2, 3 lands at position 2. -/
theorem write_after_read_ahead_witness :
    (windows_file_write 64 (some win6read) (fun i => i + 1) 1 3).error = none ∧
    (windows_file_write 64 (some win6read) (fun i => i + 1) 1 3).ret = 3 ∧
    ∃ c1 f1, (windows_file_write 64 (some win6read) (fun i => i + 1) 1 3).ctx = some c1 ∧
      c1.h = some f1 ∧ c1.left = 0 ∧
      f1.pos = (file6read.pos - win6read.left) + 1 * 3 ∧
      f1.content = file6read.content.take (file6read.pos - win6read.left)
        ++ (List.range (1 * 3)).map (fun i => i + 1)
        ++ file6read.content.drop ((file6read.pos - win6read.left) + 1 * 3) :=
  write_after_read_ahead 64 (by decide) win6 1 2 win6read file6read (fun i => i + 1) 1 3
    (WinInv_of_left_zero win6 rfl (by decide)) (by rfl) rfl (by decide) rfl rfl (by decide)
    (by decide)

/-! ## A seek with an unknown whence code -/

/-- Claim C19 at a failing input.  With four unread bytes at logical position 2
of a six-byte file (native position 6), a seek with the whence code 7 returns
-1 with an error report and does not call the native seek, but it has zeroed
the unread count: the logical position is now 6, and the read of two bytes that
follows delivers nothing, where without the seek it delivers the bytes 12 and
13 at positions 2 and 3. -/
theorem windows_file_seek_unknown_whence_moves :
    (windows_file_seek (some win6read) 0 7).ret = -1 ∧
    (windows_file_seek (some win6read) 0 7).error
      = some "windows_file_seek: Unknown value for \x27whence\x27" ∧
    (windows_file_seek (some win6read) 0 7).ctx = some { win6read with left := 0 } ∧
    file6read.pos - win6read.left = 2 ∧
    file6read.pos - ({ win6read with left := 0 } : WindowsIO).left = 6 ∧
    (windows_file_read 64 (some win6read) 1 2).out = [12, 13] ∧
    (windows_file_read 64 (windows_file_seek (some win6read) 0 7).ctx 1 2).out = [] := by
  refine ⟨by decide, by decide, rfl, by decide, by decide, by decide, by decide⟩

/-! ## Writes in append mode -/

theorem windows_file_write_no_access (w : Nat) (c : WindowsIO) (f : WinFile)
    (ptr : Nat → Nat) (size num : Nat) (hh : c.h = some f) (hcw : f.canWrite = false)
    (hT : 0 < (size * num) % 2 ^ w) :
    (windows_file_write w (some c) ptr size num).error ≠ none := by
  have hsz : size ≠ 0 := by
    rintro rfl
    simp at hT
  have hne : ¬ ((size * num) % 2 ^ w ≤ 0 ∨ size = 0) := by
    rintro (h | h)
    · omega
    · exact hsz h
  have hsp : ∀ (g : WinFile) (d : Int) (m : Nat) (r : Int × WinFile),
      SetFilePointerEx g d m = some r → r.2.canWrite = g.canWrite := by
    intro g d m r hr
    unfold SetFilePointerEx at hr
    split_ifs at hr <;> simp at hr <;> obtain ⟨-, rfl⟩ := hr <;> rfl
  unfold windows_file_write
  simp only [hh, hne, if_false]
  by_cases hl : c.left = 0
  · cases happ : c.append
    · simp [hl, happ, WriteFile, hcw]
    · simp [hl, happ, WriteFile, hcw, SetFilePointerEx_end_zero]
  · cases hs : SetFilePointerEx f (-(toInt32 c.left)) FILE_CURRENT with
    | none =>
      cases happ : c.append
      · simp [hl, happ, hs, WriteFile, hcw]
      · simp [hl, happ, hs, WriteFile, hcw, SetFilePointerEx_end_zero]
    | some r =>
      have hg : r.2.canWrite = false := by rw [hsp f _ _ r hs, hcw]
      obtain ⟨d, g⟩ := r
      simp only at hg
      cases happ : c.append
      · simp [hl, happ, hs, WriteFile, hg]
      · simp [hl, happ, hs, WriteFile, hg, SetFilePointerEx_end_zero]

/-- Claim C20.  On a machine with words of at least 32 bits, for a stream
opened with a mode string that contains `a`, after any sequence of seek, read
and write calls, every write that records no error and returns the full count
`num`, for a request of `m = size * num` bytes that fits the machine word,
leaves as file content the previous content followed by the first `m` bytes of
the payload. -/
theorem append_write_appends (w : Nat) (hw : 32 ≤ w) (context : WindowsIO)
    (filename : String) (mode : List Char) (buffer : Option (List Nat))
    (CreateFile : String → CreateFileArgs → Option WinFile) (ops : List WinOp)
    (c : WindowsIO) (f : WinFile) (ptr : Nat → Nat) (size num : Nat)
    (hopen : (windows_file_open (some context) filename mode buffer CreateFile).ret = 0)
    (ha : 'a' ∈ mode)
    (hrun : runWinOps w ops
      (windows_file_open (some context) filename mode buffer CreateFile).ctx = some c)
    (hh : c.h = some f) (hfit : size * num < 2 ^ w)
    (herr : (windows_file_write w (some c) ptr size num).error = none)
    (hret : (windows_file_write w (some c) ptr size num).ret = num) :
    ∃ c1 f1, (windows_file_write w (some c) ptr size num).ctx = some c1 ∧ c1.h = some f1 ∧
      f1.content = f.content ++ (List.range (size * num)).map ptr := by
  obtain ⟨c0, f0, hctx, -, hs0, hl0, happ0, -⟩ :=
    windows_file_open_ok context filename mode buffer CreateFile hopen
  obtain ⟨c', hrun', ⟨h1, h2, h3⟩, happ⟩ :=
    runWinOps_inv w hw ops c0 (WinInv_of_left_zero c0 hl0 (by rw [hs0]; exact Nat.zero_le _))
  rw [hctx, hrun'] at hrun
  cases hrun
  have hcapp : c.append = true := by
    rw [happ]
    exact happ0.2 ha
  obtain ⟨-, b2, -, -⟩ := h3 f hh
  have hk31 : c.left < 2 ^ 31 := by
    have : c.size ≤ 1024 := h2
    omega
  have hTeq : (size * num) % 2 ^ w = size * num := Nat.mod_eq_of_lt hfit
  by_cases hT : 0 < (size * num) % 2 ^ w
  · cases hcw : f.canWrite with
    | false => exact absurd herr (windows_file_write_no_access w c f ptr size num hh hcw hT)
    | true =>
      have hspec := windows_file_write_spec w c f ptr size num hh hcw hT b2 hk31
      rw [hspec] at hret ⊢
      simp only [hTeq] at hret ⊢
      have hsz : 0 < size := by
        rcases Nat.eq_zero_or_pos size with h | h
        · rw [h] at hT
          simp at hT
        · exact h
      have hd : toDWORD (size * num) = size * num := by
        have hle : toDWORD (size * num) ≤ size * num := Nat.mod_le _ _
        rcases Nat.lt_or_ge (toDWORD (size * num)) (size * num) with hlt | hge
        · exfalso
          have : toDWORD (size * num) / size < num := by
            rw [Nat.div_lt_iff_lt_mul hsz, Nat.mul_comm num size]
            exact hlt
          omega
        · omega
      refine ⟨_, _, rfl, rfl, ?_⟩
      simp [hcapp, hd]
  · have hm0 : size * num = 0 := by omega
    have hearly : (size * num) % 2 ^ w ≤ 0 ∨ size = 0 := Or.inl (by omega)
    refine ⟨c, f, ?_, hh, ?_⟩
    · simp only [windows_file_write, hh, hearly, if_true]
    · rw [hm0]
      simp

/-- Witness of `append_write_appends`: a six-byte file opened with the mode
`a+`; after a read of two bytes, which leaves four unread bytes at logical
position 2, a write of the bytes 1, 2, 3 puts them after the six bytes. -/
theorem append_write_appends_witness :
    (∃ c1 f1, (windows_file_write 64 (some win6readAppend) (fun i => i + 1) 1 3).ctx = some c1 ∧
      c1.h = some f1 ∧
      f1.content = file6read.content ++ (List.range (1 * 3)).map (fun i => i + 1)) ∧
    file6read.content ++ (List.range (1 * 3)).map (fun i => i + 1)
      = [10, 11, 12, 13, 14, 15, 1, 2, 3] :=
  ⟨append_write_appends 64 (by decide) rawWindowsIO "f" ['a', '+']
     (some (List.replicate 1024 0)) createFile6 [.read 1 2] win6readAppend file6read
     (fun i => i + 1) 1 3 (by decide) (by decide) (by rfl) rfl (by decide) (by decide)
     (by decide),
   by decide⟩

/-- Witness of `readahead_invariant`: a six-byte file opened with the mode
`r+`, then a read, a seek, a write, a seek and a read. -/
theorem readahead_invariant_witness :
    (∃ c0, (windows_file_open (some rawWindowsIO) "f" ['r', '+']
        (some (List.replicate 1024 0)) createFile6).ctx = some c0 ∧
      c0.size = 0 ∧ c0.left = 0) ∧
    ∃ c, runWinOps 64 ops6 (windows_file_open (some rawWindowsIO) "f" ['r', '+']
        (some (List.replicate 1024 0)) createFile6).ctx = some c ∧
      c.left ≤ c.size ∧ c.size ≤ 1024 ∧
      ∀ f, c.h = some f →
        c.left ≤ f.pos ∧
        (c.data.drop (c.size - c.left)).take c.left
          = (f.content.drop (f.pos - c.left)).take c.left ∧
        ((f.content.drop (f.pos - c.left)).take c.left).length = c.left :=
  readahead_invariant 64 (by decide) rawWindowsIO "f" ['r', '+']
    (some (List.replicate 1024 0)) createFile6 ops6 (by decide)

/-! ## Size of an OS stream -/

/-- Claim C21.  On a stream on which `fseek` and `ftell` work, `stdio_size`
returns the length of the stream, records no error and leaves the stream, so
its position, as it was before the call; if the initial position query
`SDL_RWseek(context, 0, RW_SEEK_CUR)` fails, `stdio_size` returns -1 and the
stream is as it was before the call. -/
theorem stdio_size_spec (fp : StdioStream) :
    (fp.seekable = true → fp.tellable = true →
      (stdio_size fp).ret = (fp.length : Int) ∧ (stdio_size fp).fp = fp ∧
      (stdio_size fp).fp.pos = fp.pos ∧ (stdio_size fp).error = none) ∧
    ((stdio_seek fp 0 RW_SEEK_CUR).ret < 0 →
      (stdio_size fp).ret = -1 ∧ (stdio_size fp).fp = fp ∧
      (stdio_size fp).fp.pos = fp.pos) := by
  obtain ⟨len, pos, sk, tl⟩ := fp
  constructor
  · intro hs ht
    simp only at hs ht
    subst hs
    subst ht
    have h2 : ¬ ((len : Int) < 0) := by omega
    have h3 : ¬ ((pos : Int) < 0) := by omega
    simp [stdio_size, stdio_seek, fseek, ftell, RW_SEEK_CUR, RW_SEEK_END, RW_SEEK_SET, h2, h3]
  · intro hfail
    cases sk with
    | false =>
      simp [stdio_size, stdio_seek, fseek, RW_SEEK_CUR, SDL_SetError_ret]
    | true =>
      cases tl with
      | false =>
        have h3 : ¬ ((pos : Int) < 0) := by omega
        simp [stdio_size, stdio_seek, fseek, ftell, RW_SEEK_CUR, h3]
      | true =>
        exfalso
        have h3 : ¬ ((pos : Int) < 0) := by omega
        simp [stdio_seek, fseek, ftell, RW_SEEK_CUR, h3] at hfail

/-- Witness of `stdio_size_spec`: a seekable stream of 100 bytes at position 30,
and a stream that is not seekable. -/
theorem stdio_size_spec_witness :
    ((stdio_size stream100).ret = 100 ∧ (stdio_size stream100).fp = stream100 ∧
      (stdio_size stream100).fp.pos = 30 ∧ (stdio_size stream100).error = none) ∧
    ((stdio_size pipeStream).ret = -1 ∧ (stdio_size pipeStream).fp = pipeStream ∧
      (stdio_size pipeStream).fp.pos = pipeStream.pos) :=
  ⟨(stdio_size_spec stream100).1 rfl rfl, (stdio_size_spec pipeStream).2 (by decide)⟩

/-! ## Divisions -/

theorem checkedDiv_pos (a b : Nat) (hb : b ≠ 0) : checkedDiv a b = some (a / b) := by
  simp [checkedDiv, hb]

theorem mem_read_checked_eq (w : Nat) (c : SDL_RWops) (m : Memory) (size maxnum : Nat) :
    mem_read_checked w c m size maxnum = some (mem_read w c m size maxnum) := by
  unfold mem_read_checked mem_read mem_read_rejects
  by_cases hm : maxnum ≤ 0
  · simp [hm]
  · by_cases hs : size ≤ 0
    · simp [hm, hs]
    · have hm0 : maxnum ≠ 0 := by omega
      have hs0 : size ≠ 0 := by omega
      simp only [hm, hs, if_false, false_or, checkedDiv_pos _ _ hm0, checkedDiv_pos _ _ hs0]
      split_ifs <;> rfl

theorem windows_file_read_native_checked_eq (w : Nat) (c : WindowsIO) (f : WinFile)
    (size tn tr : Nat) (out : List Nat) (hs : size ≠ 0) :
    windows_file_read_native_checked w c f size tn tr out
      = some (windows_file_read_native w c f size tn tr out) := by
  unfold windows_file_read_native_checked windows_file_read_native
  split_ifs
  · cases ReadFile f READAHEAD_BUFFER_SIZE with
    | none => rfl
    | some r => simp only [checkedDiv_pos _ _ hs]
  · cases ReadFile f (toDWORD tn) with
    | none => rfl
    | some r => simp only [checkedDiv_pos _ _ hs]

theorem windows_file_read_checked_eq (w : Nat) (ctx : Option WindowsIO) (size maxnum : Nat) :
    windows_file_read_checked w ctx size maxnum
      = some (windows_file_read w ctx size maxnum) := by
  unfold windows_file_read_checked windows_file_read
  cases ctx with
  | none => rfl
  | some c =>
    cases hh : c.h with
    | none => simp only [hh]
    | some f =>
      by_cases hT : (size * maxnum) % 2 ^ w = 0
      · simp only [hh, hT, if_true]
      · have hs : size ≠ 0 := by
          rintro rfl
          simp at hT
        simp only [hh, hT, if_false, windows_file_read_native_checked_eq _ _ _ _ _ _ _ hs]
        split_ifs <;> rfl

theorem windows_file_write_checked_eq (w : Nat) (ctx : Option WindowsIO) (ptr : Nat → Nat)
    (size num : Nat) :
    windows_file_write_checked w ctx ptr size num
      = some (windows_file_write w ctx ptr size num) := by
  unfold windows_file_write_checked windows_file_write
  cases ctx with
  | none => rfl
  | some c =>
    cases hh : c.h with
    | none => simp only [hh]
    | some f =>
      by_cases he : (size * num) % 2 ^ w ≤ 0 ∨ size = 0
      · simp only [hh, he, if_true]
      · have hs : size ≠ 0 := fun h => he (Or.inr h)
        simp only [hh, he, if_false, checkedDiv_pos _ _ hs]
        split
        · rfl
        · split <;> rfl

theorem mem_write_checked_eq (w : Nat) (c : SDL_RWops) (m : Memory) (ptr : Nat → Nat)
    (size num : Nat)
    (hok : size ≠ 0
      ∨ ¬ (wrapPtr w (c.here + (((num * size) % 2 ^ w : Nat) : Int)) > c.stop)) :
    mem_write_checked w c m ptr size num = some (mem_write w c m ptr size num) := by
  unfold mem_write_checked mem_write
  by_cases hc : wrapPtr w (c.here + (((num * size) % 2 ^ w : Nat) : Int)) > c.stop
  · have hs : size ≠ 0 := by
      rcases hok with h | h
      · exact h
      · exact absurd hc h
    simp only [hc, if_true, checkedDiv_pos _ _ hs]
  · simp only [hc, if_false]

theorem wrapPtr_zero_count (w : Nat) (c : SDL_RWops) (num : Nat) :
    wrapPtr w (c.here + (((num * 0) % 2 ^ w : Nat) : Int)) = wrapPtr w c.here := by
  simp only [Nat.mul_zero, Nat.zero_mod, Nat.cast_zero, add_zero]

theorem mem_write_checked_none_iff (w : Nat) (c : SDL_RWops) (m : Memory) (ptr : Nat → Nat)
    (size num : Nat) :
    mem_write_checked w c m ptr size num = none ↔ (size = 0 ∧ c.stop < wrapPtr w c.here) := by
  constructor
  · intro hnone
    by_cases hs : size = 0
    · subst hs
      refine ⟨rfl, ?_⟩
      by_contra hle
      have hok : ¬ (wrapPtr w (c.here + (((num * 0) % 2 ^ w : Nat) : Int)) > c.stop) := by
        rw [wrapPtr_zero_count]
        omega
      rw [mem_write_checked_eq w c m ptr 0 num (Or.inr hok)] at hnone
      cases hnone
    · rw [mem_write_checked_eq w c m ptr size num (Or.inl hs)] at hnone
      cases hnone
  · rintro ⟨rfl, hlt⟩
    have hc : wrapPtr w (c.here + (((num * 0) % 2 ^ w : Nat) : Int)) > c.stop := by
      rw [wrapPtr_zero_count]
      omega
    simp only [mem_write_checked, hc, if_true, checkedDiv]

/-- A stored pointer that is not negative is not below its wrapped value. -/
theorem wrapPtr_le_self (w : Nat) (p : Int) (h0 : 0 ≤ p) : wrapPtr w p ≤ p := by
  unfold wrapPtr
  obtain ⟨n, rfl⟩ := Int.eq_ofNat_of_zero_le h0
  have h := Nat.mod_le n (2 ^ w)
  have e : ((n : Int) % (2 ^ w : Int)) = ((n % 2 ^ w : Nat) : Int) := by
    norm_cast
  rw [e]
  exact_mod_cast h

/-- Claim C22.  With every division of the source checked, `mem_read`,
`windows_file_read` and `windows_file_write` never reach a division by zero,
for any arguments and any state, and return what the unchecked functions
return; with element size 0, or with a byte total of 0 in the two file
functions, they return 0.  `mem_write` reaches its division only when
`here + num * size > stop` (the pointer sum taken on the `w`-bit machine); it
divides by zero exactly when the size is 0 and `stop < here`, so never under
the invariant `here ≤ stop` with `here` not negative, where a write of size 0
returns the count, changes no byte and, `here` being a machine address, leaves
the handle as it was. -/
theorem no_division_by_zero (w : Nat) (c : SDL_RWops) (m : Memory) (ptr : Nat → Nat)
    (ctx : Option WindowsIO) (size num : Nat) :
    mem_read_checked w c m size num = some (mem_read w c m size num) ∧
    windows_file_read_checked w ctx size num = some (windows_file_read w ctx size num) ∧
    windows_file_write_checked w ctx ptr size num
      = some (windows_file_write w ctx ptr size num) ∧
    ((size = 0 ∨ (size * num) % 2 ^ w = 0) →
      (windows_file_read w ctx size num).ret = 0 ∧
      (windows_file_write w ctx ptr size num).ret = 0) ∧
    ((size = 0 ∨ num = 0 ∨ (num * size) % 2 ^ w = 0) → (mem_read w c m size num).ret = 0) ∧
    (¬ (wrapPtr w (c.here + (((num * size) % 2 ^ w : Nat) : Int)) > c.stop) →
      mem_write_checked w c m ptr size num = some (mem_write w c m ptr size num)) ∧
    (mem_write_checked w c m ptr size num = none
      ↔ (size = 0 ∧ c.stop < wrapPtr w c.here)) ∧
    (0 ≤ c.here → c.here ≤ c.stop →
      mem_write_checked w c m ptr size num = some (mem_write w c m ptr size num) ∧
      (mem_write w c m ptr 0 num).ret = num ∧
      (c.here < 2 ^ w → (mem_write w c m ptr 0 num).ctx = c) ∧
      ∀ a, (mem_write w c m ptr 0 num).mem a = m a) := by
  refine ⟨mem_read_checked_eq w c m size num, windows_file_read_checked_eq w ctx size num,
    windows_file_write_checked_eq w ctx ptr size num, ?_, ?_,
    fun h => mem_write_checked_eq w c m ptr size num (Or.inr h),
    mem_write_checked_none_iff w c m ptr size num, ?_⟩
  · intro h
    have hT : (size * num) % 2 ^ w = 0 := by
      rcases h with h | h
      · rw [h]
        simp
      · exact h
    constructor
    · cases ctx with
      | none => rfl
      | some cw =>
        cases hh : cw.h with
        | none => simp [windows_file_read, hh]
        | some f => simp [windows_file_read, hh, hT]
    · cases ctx with
      | none => rfl
      | some cw =>
        cases hh : cw.h with
        | none => simp [windows_file_write, hh]
        | some f => simp [windows_file_write, hh, hT]
  · intro h
    have hr : mem_read_rejects w size num := by
      rcases h with h | h | h
      · right; left; omega
      · left; omega
      · by_cases hs : size = 0
        · right; left; omega
        · right; right
          rw [h, Nat.zero_div]
          exact fun h0 => hs h0.symm
    simp [mem_read, hr]
  · intro h0 hinv
    have hle := wrapPtr_le_self w c.here h0
    have hc : ¬ (wrapPtr w (c.here + (((num * 0) % 2 ^ w : Nat) : Int)) > c.stop) := by
      rw [wrapPtr_zero_count]
      omega
    refine ⟨?_, ?_, ?_, ?_⟩
    · by_cases hs : size = 0
      · subst hs
        exact mem_write_checked_eq w c m ptr 0 num (Or.inr hc)
      · exact mem_write_checked_eq w c m ptr size num (Or.inl hs)
    · simp only [mem_write, hc, if_false]
    · intro hlt
      have he := wrapPtr_eq w c.here h0 hlt
      simp only [mem_write, Nat.mul_zero, Nat.zero_mod, Nat.cast_zero, add_zero, he]
    · intro a
      simp [mem_write, hc, SDL_memcpy]

/-- Witness of `no_division_by_zero`: on the eight-byte stream a write of five
elements of size 0 does not reach the division, returns 5 and changes nothing;
reads and writes of size 0 on the buffered backend return 0; on the handle
built for the length -1 the same write of size 0 does reach a division by
zero. -/
theorem no_division_by_zero_witness :
    (mem_write_checked 64 rw8 zeroMemory (fun _ => 1) 0 5
        = some (mem_write 64 rw8 zeroMemory (fun _ => 1) 0 5) ∧
      (mem_write 64 rw8 zeroMemory (fun _ => 1) 0 5).ret = 5 ∧
      (mem_write 64 rw8 zeroMemory (fun _ => 1) 0 5).ctx = rw8 ∧
      ∀ a, (mem_write 64 rw8 zeroMemory (fun _ => 1) 0 5).mem a = zeroMemory a) ∧
    ((windows_file_read 64 (some win6read) 0 5).ret = 0 ∧
      (windows_file_write 64 (some win6read) (fun _ => 1) 0 5).ret = 0) ∧
    (mem_read 64 rw8 zeroMemory 0 5).ret = 0 ∧
    mem_write_checked 64 negHandle zeroMemory (fun _ => 1) 0 5 = none :=
  ⟨⟨((no_division_by_zero 64 rw8 zeroMemory (fun _ => 1) (some win6read) 0 5).2.2.2.2.2.2.2
        (by decide) (by decide)).1,
     ((no_division_by_zero 64 rw8 zeroMemory (fun _ => 1) (some win6read) 0 5).2.2.2.2.2.2.2
        (by decide) (by decide)).2.1,
     ((no_division_by_zero 64 rw8 zeroMemory (fun _ => 1) (some win6read) 0 5).2.2.2.2.2.2.2
        (by decide) (by decide)).2.2.1 (by decide),
     ((no_division_by_zero 64 rw8 zeroMemory (fun _ => 1) (some win6read) 0 5).2.2.2.2.2.2.2
        (by decide) (by decide)).2.2.2⟩,
   (no_division_by_zero 64 rw8 zeroMemory (fun _ => 1) (some win6read) 0 5).2.2.2.1
      (Or.inl rfl),
   (no_division_by_zero 64 rw8 zeroMemory (fun _ => 1) (some win6read) 0 5).2.2.2.2.1
      (Or.inl rfl),
   (no_division_by_zero 64 negHandle zeroMemory (fun _ => 1) (some win6read) 0 5).2.2.2.2.2.2.1.2
      ⟨rfl, by decide⟩⟩

end SDLRWops
